import Mathlib

/-!
Verification of the rust2go front-end pipeline (lexer, parser, semantic
checker, AST→IR lowering) against its natural-language specification.

The Go sources are shallowly embedded as executable Lean functions.
Loops are expressed with explicit fuel so that every definition computes
by kernel reduction; call sites pass locally sufficient fuel.  Character
classes (`unicode.IsLetter`, `unicode.IsDigit`, `unicode.IsSpace`) are
modelled on the ASCII/Latin-1 range that all analysed programs use.
-/

set_option maxRecDepth 10000

namespace Rust2Go

/-! ## Characters

Named constants for delimiter characters, so the embedding never has to
spell them inline. `nulc` models Go's sentinel rune 0 (end of input). -/

def nulc : Char := Char.ofNat 0
def squote : Char := Char.ofNat 39
def dquote : Char := Char.ofNat 34
def bslash : Char := Char.ofNat 92
def hashc : Char := Char.ofNat 35
def bangc : Char := Char.ofNat 33
def lbrackc : Char := Char.ofNat 91
def rbrackc : Char := Char.ofNat 93
def lbracec : Char := Char.ofNat 123
def rbracec : Char := Char.ofNat 125
def lparenc : Char := Char.ofNat 40
def rparenc : Char := Char.ofNat 41

/-- `unicode.IsSpace` restricted to the Latin-1 range (plus the common
ASCII controls); all analysed inputs stay inside this range. -/
def goIsSpace (c : Char) : Bool :=
  c = ' ' || c = '\t' || c = '\n' || c = Char.ofNat 11 || c = Char.ofNat 12 ||
  c = '\r' || c = Char.ofNat 133 || c = Char.ofNat 160

/-- `unicode.IsLetter`, ASCII approximation. -/
def goIsLetter (c : Char) : Bool := c.isAlpha

/-- `unicode.IsDigit`, ASCII approximation. -/
def goIsDigit (c : Char) : Bool := c.isDigit

/-! ## Token model (`internal/token/token.go`) -/

/-- `token.TokenType`.  `ty` is the Go constant `TYPE`; `intT`/`floatT`/
`stringT`/`charT` are the Go constants `INT`/`FLOAT`/`STRING`/`CHAR`
(declared in the source but never emitted by the lexer); `term` is
`TERMINATOR`, `attrT` is `ATTRIBUTE`. -/
inductive TokTy where
  | eof | ident | lifetime | keyword | ty
  | intT | floatT | stringT | charT
  | op | punct | attrT | term | illegal
deriving DecidableEq, Repr

/-- `token.Token`.  The zero value (as produced by `TokenStream` past the
end of the list) has empty strings and line = col = 0. -/
structure Tok where
  type : TokTy := .eof
  subtype : String := ""
  literal : String := ""
  line : Nat := 0
  col : Nat := 0
deriving DecidableEq, Repr

/-- `token.Position`. -/
structure Position where
  line : Nat
  col : Nat
deriving DecidableEq, Repr

def Tok.pos (t : Tok) : Position := ⟨t.line, t.col⟩

/-! ## Lexer tables (`internal/lexer/tables.go`) -/

def Keywords : List String :=
  ["as", "break", "const", "continue", "crate",
   "else", "enum", "extern", "false", "fn",
   "for", "if", "impl", "in", "let",
   "loop", "match", "mod", "move", "mut",
   "pub", "ref", "return", "self", "Self",
   "static", "struct", "super", "trait", "true",
   "type", "unsafe", "use", "where", "while",
   "async", "await", "dyn", "abstract", "become",
   "box", "do", "final", "macro", "override",
   "priv", "try", "typeof", "unsized", "virtual",
   "yield"]

def Operators : List String :=
  ["+", "-", "*", "/", "%",
   "=", "==", "!=", "<", ">",
   "<=", ">=", "&&", "||", "->"]

def Punctuations : List String :=
  ["\x7b", "\x7d", "(", ")", "[", "]",
   ";", ",", ":", "::", ".", ".."]

/-! ## Lexer state (`internal/lexer/lexer.go`)

`ch` is the current rune (`nulc` after end of input, exactly like Go's
sentinel 0), `rest` the runes not yet read.  `toks` and `err` mirror the
`tokens` and `err` fields of the Go `Lexer` struct. -/

/-- Kinds of fatal lexer errors, with the (line, col) the Go message
would embed. -/
inductive LexErr where
  | untermStr (line col : Nat)        -- "unterminated string literal"
  | invalidRaw (line col : Nat)       -- "invalid raw string literal"
  | invalidAttrSyn (line col : Nat)   -- "invalid attribute syntax: expected left bracket"
  | untermAttr (line col : Nat)       -- "unterminated attribute"
deriving DecidableEq, Repr

structure LexSt where
  ch : Char := nulc
  rest : List Char := []
  line : Nat := 1
  col : Nat := 0
  toks : List Tok := []
  err : Option LexErr := none
  -- Go's `pos` overran `len(runes)`: a later `runes[start:pos]` slice is
  -- out of bounds and panics (on an exact-capacity rune allocation).
  ovr : Bool := false
deriving DecidableEq, Repr

/-- `readChar`: advance to the next rune, updating (line, col) exactly as
the Go code does (col also advances when reading past the end, since the
sentinel 0 is not a newline). -/
def readChar (s : LexSt) : LexSt :=
  let (c, r) := match s.rest with
    | [] => (nulc, ([] : List Char))
    | c :: t => (c, t)
  if c = '\n' then { s with ch := c, rest := r, line := s.line + 1, col := 0 }
  else { s with ch := c, rest := r, col := s.col + 1 }

/-- `peek`. -/
def peek (s : LexSt) : Char := s.rest.headD nulc

/-- `peekN`. -/
def peekN (s : LexSt) (n : Nat) : Char := (s.rest.get? (n - 1)).getD nulc

/-- The fuel every scanning loop receives: one unit per unread rune plus
slack.  Each loop iteration consumes at least one rune, so this never
runs out before the loop's own exit condition. -/
def lfuel (s : LexSt) : Nat := s.rest.length + 2

/-- `skipWhitespace`. -/
def skipWhitespaceF : Nat → LexSt → LexSt
  | 0, s => s
  | f + 1, s => if goIsSpace s.ch then skipWhitespaceF f (readChar s) else s

def skipWhitespace (s : LexSt) : LexSt := skipWhitespaceF (lfuel s) s

/-- Line-comment loop of `skipComment`. -/
def lineCommentF : Nat → LexSt → LexSt
  | 0, s => s
  | f + 1, s =>
    if s.ch ≠ '\n' && s.ch ≠ nulc then lineCommentF f (readChar s) else s

/-- Block-comment loop of `skipComment` (depth-counting). -/
def blockCommentF : Nat → Nat → LexSt → LexSt
  | 0, _, s => s
  | f + 1, nest, s =>
    if s.ch ≠ nulc && nest > 0 then
      if s.ch = '/' && peek s = '*' then
        blockCommentF f (nest + 1) (readChar (readChar s))
      else if s.ch = '*' && peek s = '/' then
        blockCommentF f (nest - 1) (readChar (readChar s))
      else
        blockCommentF f nest (readChar s)
    else s

/-- `skipComment`. -/
def skipComment (s : LexSt) : LexSt :=
  if s.ch = '/' && peek s = '/' then lineCommentF (lfuel s) s
  else if s.ch = '/' && peek s = '*' then
    blockCommentF (lfuel s) 1 (readChar (readChar s))
  else s

/-- `isDigitInBase`. -/
def isDigitInBase (c : Char) (base : Nat) : Bool :=
  if goIsDigit c then c.toNat - 48 < base
  else if base = 16 then
    (c ≥ 'a' && c ≤ 'f') || (c ≥ 'A' && c ≤ 'F')
  else false

def isIdentChar (c : Char) : Bool := goIsLetter c || goIsDigit c || c = '_'

/-- Consume characters while `p` holds, returning them in order
(this models Go's `runes[start:pos]` slices). -/
def takeWhileF (p : Char → Bool) : Nat → LexSt → LexSt × List Char
  | 0, s => (s, [])
  | f + 1, s =>
    if p s.ch then
      let out := takeWhileF p f (readChar s)
      (out.1, s.ch :: out.2)
    else (s, [])

/-- `readIdentifier`. -/
def readIdentifier (s : LexSt) : LexSt × String :=
  let out := takeWhileF isIdentChar (lfuel s) s
  (out.1, String.mk out.2)

/-- `readLifetimeOrChar`: returns (state, literal, tokType, subtype). -/
def readLifetimeOrChar (s : LexSt) : LexSt × String × TokTy × String :=
  let s1 := readChar s                    -- skip the apostrophe
  let body := takeWhileF isIdentChar (lfuel s1) s1
  let s2 := body.1
  if s2.ch = squote then
    (readChar s2, String.mk (squote :: body.2 ++ [squote]), .ty, "CHAR")
  else
    (s2, String.mk (squote :: body.2), .lifetime, "")

/-- `readNumber`: returns (state, literal, subtype). -/
def readNumber (s : LexSt) : LexSt × String × String :=
  -- base prefix 0b / 0o / 0x
  let (s1, base, pre) : LexSt × Nat × List Char :=
    if s.ch = '0' && (peek s = 'b' || peek s = 'o' || peek s = 'x') then
      let sa := readChar s     -- now at the base letter
      if sa.ch = 'b' then (readChar sa, 2, ['0', 'b'])
      else if sa.ch = 'o' then (readChar sa, 8, ['0', 'o'])
      else if sa.ch = 'x' then (readChar sa, 16, ['0', 'x'])
      else (sa, 10, ['0'])
    else (s, 10, [])
  let digits := takeWhileF (fun c => isDigitInBase c base || c = '_') (lfuel s1) s1
  let s2 := digits.1
  -- fractional part (base 10 only, dot must be followed by a digit)
  let (s3, frac, isF1) : LexSt × List Char × Bool :=
    if s2.ch = '.' && base = 10 && isDigitInBase (peek s2) 10 then
      let sb := readChar s2
      let fd := takeWhileF (fun c => goIsDigit c || c = '_') (lfuel sb) sb
      (fd.1, '.' :: fd.2, true)
    else (s2, [], false)
  -- exponent
  let (s4, expo, isF2) : LexSt × List Char × Bool :=
    if (s3.ch = 'e' || s3.ch = 'E') && base = 10 then
      let e0 := s3.ch
      let sc := readChar s3
      let (sd, sgn) : LexSt × List Char :=
        if sc.ch = '+' || sc.ch = '-' then (readChar sc, [sc.ch]) else (sc, [])
      let ed := takeWhileF (fun c => goIsDigit c || c = '_') (lfuel sd) sd
      (ed.1, e0 :: sgn ++ ed.2, true)
    else (s3, [], false)
  -- type suffix, consumed greedily
  let sfx := takeWhileF (fun c => goIsLetter c || goIsDigit c) (lfuel s4) s4
  let lit := String.mk (pre ++ digits.2 ++ frac ++ expo ++ sfx.2)
  (sfx.1, lit, if isF1 || isF2 then "FLOAT" else "INT")

/-- Closing scan of a raw string: until a `"` followed by `hashCount`
hashes.  Reaching end of input sets no error (mirroring the source). -/
def rawStrF : Nat → Nat → LexSt → LexSt × List Char
  | 0, _, s => (s, [])
  | f + 1, hashCount, s =>
    if s.ch ≠ nulc then
      if s.ch = dquote then
        let s1 := readChar s
        let hs := takeWhileF (fun c => c = hashc) hashCount s1
        -- `takeWhileF` with fuel `hashCount` consumes at most that many hashes
        if hs.2.length = hashCount then (hs.1, s.ch :: hs.2)
        else
          let out := rawStrF f hashCount hs.1
          (out.1, s.ch :: hs.2 ++ out.2)
      else
        let out := rawStrF f hashCount (readChar s)
        (out.1, s.ch :: out.2)
    else (s, [])

/-- Closing scan of a cooked string: until an unescaped `"` or end of
input; backslash consumes the next code point verbatim and a line
continuation also swallows the newline. -/
def cookedStrF : Nat → LexSt → LexSt × List Char
  | 0, s => (s, [])
  | f + 1, s =>
    if s.ch ≠ dquote && s.ch ≠ nulc then
      if s.ch = bslash then
        let s1 := readChar s              -- the escape body
        if s1.ch = '\n' || s1.ch = '\r' then
          if s1.ch = '\r' && peek s1 = '\n' then
            let s2 := readChar s1
            let out := cookedStrF f (readChar s2)
            (out.1, s.ch :: s1.ch :: s2.ch :: out.2)
          else
            let out := cookedStrF f (readChar s1)
            (out.1, s.ch :: s1.ch :: out.2)
        else
          -- Go: when the backslash is the final rune (`s.rest = []`), this
          -- second `readChar` pushes `pos` to `length + 1`, so the
          -- `runes[start:pos]` slice at `readString`'s return overruns the
          -- buffer — recorded in `ovr`.
          let s2 :=
            if s.rest = [] then { readChar s1 with ovr := true }
            else readChar s1
          let out := cookedStrF f s2
          (out.1, s.ch :: s1.ch :: out.2)
      else
        let out := cookedStrF f (readChar s)
        (out.1, s.ch :: out.2)
    else (s, [])

/-- `readString`: returns (state, literal, subtype).  `pfx` is the
already-consumed prefix identifier ("", "r", "br" or "b"); the Go
literal `runes[start:pos]` is the prefix plus everything consumed. -/
def readString (pfx : String) (s : LexSt) : LexSt × String × String :=
  -- raw prefix: count hashes, then require a double quote
  let (s1, hashes, hashCount) : LexSt × List Char × Nat :=
    if pfx = "r" || pfx = "br" then
      let hs := takeWhileF (fun c => c = hashc) (lfuel s) s
      (hs.1, hs.2, hs.2.length)
    else (s, [], 0)
  if (pfx = "r" || pfx = "br") && s1.ch ≠ dquote then
    ({ s1 with err := some (.invalidRaw s1.line s1.col) }, "", "")
  else
    let opening := s1.ch
    let s2 := readChar s1                 -- skip the opening quote
    if pfx = "r" || pfx = "br" then
      let out := rawStrF (lfuel s2) hashCount s2
      (out.1, pfx ++ String.mk (hashes ++ opening :: out.2), "STRING")
    else
      let out := cookedStrF (lfuel s2) s2
      let s3 := out.1
      if s3.ch = dquote then
        (readChar s3, pfx ++ String.mk (opening :: out.2 ++ [dquote]), "STRING")
      else
        ({ s3 with err := some (.untermStr s3.line s3.col) },
         pfx ++ String.mk (opening :: out.2), "STRING")

/-- Bracket-balancing loop of `readAttr`. -/
def attrBodyF : Nat → Nat → LexSt → LexSt × List Char × Nat
  | 0, depth, s => (s, [], depth)
  | f + 1, depth, s =>
    if s.ch ≠ nulc && depth > 0 then
      let d' := if s.ch = lbrackc then depth + 1
                else if s.ch = rbrackc then depth - 1
                else depth
      let out := attrBodyF f d' (readChar s)
      (out.1, s.ch :: out.2.1, out.2.2)
    else (s, [], depth)

/-- `readAttr`: returns (state, literal). -/
def readAttr (s : LexSt) : LexSt × String :=
  let s1 := readChar s                    -- consume '#'
  let (s2, bang) : LexSt × List Char :=
    if s1.ch = bangc then (readChar s1, [bangc]) else (s1, [])
  if s2.ch ≠ lbrackc then
    ({ s2 with err := some (.invalidAttrSyn s2.line s2.col) }, "")
  else
    let s3 := readChar s2                 -- consume '['
    let out := attrBodyF (lfuel s3) 1 s3
    let s4 := out.1
    let lit := String.mk (hashc :: bang ++ lbrackc :: out.2.1)
    if out.2.2 > 0 then
      ({ s4 with err := some (.untermAttr s4.line s4.col) }, lit)
    else (s4, lit)

/-- `readOpOrPunct`: longest match among three-, two-, one-character
sequences from the fixed tables. -/
def readOpOrPunct (s : LexSt) : LexSt × String :=
  let possibleThree := String.mk [s.ch, peek s, peekN s 2]
  let possibleTwo := String.mk [s.ch, peek s]
  if Operators.contains possibleThree || Punctuations.contains possibleThree then
    (readChar (readChar (readChar s)), possibleThree)
  else if Operators.contains possibleTwo || Punctuations.contains possibleTwo then
    (readChar (readChar s), possibleTwo)
  else
    (readChar s, String.mk [s.ch])

/-- Append a token unless a fatal error has been recorded (Go:
`if l.err == nil { l.tokens = append(l.tokens, tok) }`). -/
def pushTok (s : LexSt) (t : Tok) : LexSt :=
  if s.err = none then { s with toks := s.toks ++ [t] } else s

/-- `nextToken`: one step of the scanner. -/
def nextToken (s0 : LexSt) : LexSt :=
  let s := skipWhitespace s0
  if s.ch = '/' && (peek s = '/' || peek s = '*') then
    skipComment s
  else
    let tl := s.line
    let tc := s.col
    if s.ch = nulc then s
    else if s.ch = squote && (goIsLetter (peek s) || peek s = '_') then
      let out := readLifetimeOrChar s
      if out.2.2.1 = TokTy.ty then
        pushTok out.1 ⟨.ty, out.2.2.2, out.2.1, tl, tc⟩
      else
        pushTok out.1 ⟨.lifetime, "", out.2.1, tl, tc⟩
    else if goIsLetter s.ch || s.ch = '_' then
      let idOut := readIdentifier s
      let s1 := idOut.1
      let pfx := idOut.2
      if pfx = "r" && (s1.ch = dquote || s1.ch = hashc) then
        let out := readString "r" s1
        pushTok out.1 ⟨.ty, out.2.2, out.2.1, tl, tc⟩
      else if pfx = "br" && (s1.ch = dquote || s1.ch = hashc) then
        let out := readString "br" s1
        pushTok out.1 ⟨.ty, out.2.2, out.2.1, tl, tc⟩
      else if pfx = "b" && s1.ch = dquote then
        let out := readString "b" s1
        pushTok out.1 ⟨.ty, out.2.2, out.2.1, tl, tc⟩
      else if pfx = "b" && s1.ch = squote then
        let out := readString "b" s1
        pushTok out.1 ⟨.ty, "CHAR", out.2.1, tl, tc⟩
      else if Keywords.contains pfx then
        pushTok s1 ⟨.keyword, "", pfx, tl, tc⟩
      else
        pushTok s1 ⟨.ident, "", pfx, tl, tc⟩
    else if goIsDigit s.ch then
      let out := readNumber s
      pushTok out.1 ⟨.ty, out.2.2, out.2.1, tl, tc⟩
    else if s.ch = dquote then
      let out := readString "" s
      pushTok out.1 ⟨.ty, out.2.2, out.2.1, tl, tc⟩
    else if s.ch = squote then
      let out := readLifetimeOrChar s
      if out.2.2.1 = TokTy.ty then
        pushTok out.1 ⟨.ty, out.2.2.2, out.2.1, tl, tc⟩
      else
        pushTok out.1 ⟨.lifetime, "", out.2.1, tl, tc⟩
    else if s.ch = hashc then
      let out := readAttr s
      pushTok out.1 ⟨.attrT, "", out.2, tl, tc⟩
    else
      let out := readOpOrPunct s
      if out.2 = ";" then
        pushTok out.1 ⟨.term, "", out.2, tl, tc⟩
      else if Operators.contains out.2 then
        pushTok out.1 ⟨.op, "", out.2, tl, tc⟩
      else if Punctuations.contains out.2 then
        pushTok out.1 ⟨.punct, "", out.2, tl, tc⟩
      else
        pushTok out.1 ⟨.illegal, "", out.2, tl, tc⟩

/-- The `for l.ch != 0` loop of `Lex`: stop at end of input or on the
first fatal error. -/
def lexLoopF : Nat → LexSt → LexSt
  | 0, s => s
  | f + 1, s =>
    if s.ch = nulc then s
    else
      let s' := nextToken s
      if s'.err = none then lexLoopF f s' else s'

/-- Initial lexer state for an input rune list (line 1, col 0, then one
`readChar`, exactly as `Lex` sets up). -/
def lexInit (input : List Char) : LexSt :=
  readChar { ch := nulc, rest := input, line := 1, col := 0 }

/-- `Lex`: returns Go's `([]token.Token, error)` pair — `(nil, err)` on a
fatal error (the partial token list is discarded), otherwise the tokens
followed by the end-of-input token. -/
def Lex (input : List Char) : Option (List Tok) × Option LexErr :=
  let s := lexLoopF (input.length + 2) (lexInit input)
  match s.err with
  | some e => (none, some e)
  | none => (some (s.toks ++ [⟨.eof, "", "", s.line, s.col⟩]), none)

/-- The run of `Lex` panics: the scan overran the rune buffer (a cooked or
byte string whose escape backslash is the final rune pushes Go's `pos` to
`length + 1`, and `string(l.runes[start:l.pos])` then slices out of
bounds).  On such an input the Go lexer panics instead of returning the
pair modeled by `Lex`. -/
def LexPanics (input : List Char) : Bool :=
  (lexLoopF (input.length + 2) (lexInit input)).ovr

end Rust2Go

namespace Rust2Go

/-! ## AST (`internal/ast/nodes.go`)

Closed sum types for the trait families.  `Block` is carried by both
statements-in-functions and block expressions.  `LetStmt.ty` is optional
(`nil` in Go); the parser always fills it (with the synthetic `infer`
path type when no annotation is present). -/

namespace Ast

inductive Ty where
  | pathType (pos : Position) (path : String)
deriving DecidableEq, Repr

mutual
inductive Expr where
  | lit (pos : Position) (kind : String) (val : String)
  | unary (pos : Position) (op : String) (e : Expr)
  | binary (pos : Position) (left : Expr) (op : String) (right : Expr)
  | call (pos : Position) (fn : Expr) (args : List Expr)
  | blockE (pos : Position) (b : Block)

inductive Block where
  | mk (pos : Position) (stmts : List Stmt)

inductive Stmt where
  | letS (pos : Position) (name : String) (ty : Option Ty) (init : Expr)
  | exprS (pos : Position) (e : Expr)
end

def Ty.pos : Ty → Position
  | .pathType p _ => p

def Expr.pos : Expr → Position
  | .lit p _ _ => p
  | .unary p _ _ => p
  | .binary p _ _ _ => p
  | .call p _ _ => p
  | .blockE p _ => p

def Stmt.pos : Stmt → Position
  | .letS p _ _ _ => p
  | .exprS p _ => p

def Block.pos : Block → Position
  | .mk p _ => p

def Block.stmts : Block → List Stmt
  | .mk _ s => s

structure Param where
  pos : Position
  name : String
  ty : Ty

structure Field where
  pos : Position
  name : String
  ty : Ty

structure Function where
  pos : Position
  name : String
  params : List Param
  retTy : Ty
  body : Block

structure Struct where
  pos : Position
  name : String
  fields : List Field

inductive Item where
  | ifn (f : Function)
  | istruct (s : Struct)

structure Crate where
  pos : Position
  items : List Item

end Ast

/-! ## Parser (`internal/parser`)

The token list is immutable; the parser state is the stream cursor plus
the accumulated errors.  `POut` distinguishes a normal return, fuel
exhaustion of the embedding, and a Go runtime panic (`parsePrimary`
calls the unimplemented `TokenType.String` on INT/FLOAT tokens). -/

structure ParseError where
  msg : String
  tok : Tok
  pos : Position
deriving DecidableEq, Repr

structure PState where
  pos : Nat := 0
  errs : List ParseError := []
deriving DecidableEq, Repr

inductive POut (α : Type) where
  | fuelOut
  | panicked
  | done (a : α) (st : PState)

/-- `TokenStream.Peek`: the zero `Token` (kind EOF, position 0:0) past
the end of the list. -/
def peekT (toks : List Tok) (st : PState) : Tok := (toks.get? st.pos).getD {}

/-- `TokenStream.Next`. -/
def nextT (toks : List Tok) (st : PState) : Tok × PState :=
  if st.pos ≥ toks.length then ({}, st)
  else ((toks.get? st.pos).getD {}, { st with pos := st.pos + 1 })

def skipT (toks : List Tok) (st : PState) : PState := (nextT toks st).2

def isEOFT (toks : List Tok) (st : PState) : Bool := (peekT toks st).type = .eof

def posT (toks : List Tok) (st : PState) : Position := (peekT toks st).pos

/-- `Parser.error`. -/
def perror (st : PState) (msg : String) (tok : Tok) : PState :=
  { st with errs := st.errs ++ [⟨msg, tok, tok.pos⟩] }

/-- `Parser.expect`: on success consume and return the token; on failure
record an error and return the unconsumed token (or the zero EOF token
at end of input). -/
def expect (toks : List Tok) (st : PState) (typ : TokTy) (lit desc : String) :
    Tok × PState :=
  if isEOFT toks st then
    ({}, perror st ("expected " ++ desc ++ " but got EOF") {})
  else
    let tok := peekT toks st
    if tok.type = typ && (lit = "" || tok.literal = lit) then nextT toks st
    else
      let desc' := if desc = "" then lit else desc
      (tok, perror st ("expected " ++ desc' ++ " (got " ++ squote.toString ++
        tok.literal ++ squote.toString ++ ")") tok)

/-- The token-skipping loop of `Parser.recover`. -/
def recoverLoopF (toks : List Tok) (syncs : List String) :
    Nat → PState → Option PState
  | 0, _ => none
  | f + 1, st =>
    if isEOFT toks st then some st
    else
      let tok := peekT toks st
      if syncs.contains tok.literal then some st
      else if tok.type = .term ||
          (tok.type = .punct && (tok.literal = "\x7d" || tok.literal = ";")) then
        some (skipT toks st)
      else recoverLoopF toks syncs f (skipT toks st)

/-- `Parser.recover`: no-op when no error has been recorded. -/
def recoverF (toks : List Tok) (syncs : List String) (f : Nat) (st : PState) :
    Option PState :=
  if st.errs = [] then some st else recoverLoopF toks syncs f st

/-- The binary operators parsed by `ParseExpr` (single precedence level). -/
def binOps : List String :=
  ["==", "!=", "<", ">", "+", "-", "*", "/", "%", "&&", "||"]

mutual

/-- `ParseType`: `&` is consumed and ignored, then an identifier. -/
def ParseType (toks : List Tok) : Nat → PState → POut Ast.Ty
  | 0, _ => .fuelOut
  | f + 1, st =>
    if (peekT toks st).literal = "&" then ParseType toks f (skipT toks st)
    else
      let out := expect toks st .ident "" "type"
      .done (.pathType out.1.pos out.1.literal) out.2

/-- `parsePrimary`.  The result is Go's possibly-nil `ast.Expr`.
INT/FLOAT-kind tokens hit `TokenType.String`, which panics. -/
def parsePrimary (toks : List Tok) : Nat → PState → POut (Option Ast.Expr)
  | 0, _ => .fuelOut
  | f + 1, st =>
    let tok := peekT toks st
    let pos := tok.pos
    match tok.type with
    | .ty => .done (some (.lit pos tok.subtype tok.literal)) (skipT toks st)
    | .charT => .done (some (.lit pos "CHAR" tok.literal)) (skipT toks st)
    | .intT => .panicked
    | .floatT => .panicked
    | .stringT => .done (some (.lit pos "STRING" tok.literal)) (skipT toks st)
    | .keyword =>
      if tok.literal = "true" || tok.literal = "false" then
        .done (some (.lit pos "BOOL" tok.literal)) (skipT toks st)
      else
        .done none (skipT toks (perror st "expected primary expression" tok))
    | .ident =>
      let idOut := nextT toks st
      let idTok := idOut.1
      let st1 := idOut.2
      let st2 := if (peekT toks st1).literal = "!" then skipT toks st1 else st1
      if (peekT toks st2).type = .punct && (peekT toks st2).literal = "(" then
        let st3 := skipT toks st2
        if (peekT toks st3).type = .punct && (peekT toks st3).literal = ")" then
          .done (some (.call idTok.pos (.lit idTok.pos "IDENT" idTok.literal) []))
            (skipT toks st3)
        else
          match parseArgsLoop toks f [] st3 with
          | .fuelOut => .fuelOut
          | .panicked => .panicked
          | .done args st4 =>
            let out := expect toks st4 .punct ")" ")"
            .done (some (.call idTok.pos (.lit idTok.pos "IDENT" idTok.literal) args))
              out.2
      else
        .done (some (.lit idTok.pos "IDENT" idTok.literal)) st2
    | .punct =>
      if tok.literal = "\x7b" then
        match ParseBlock toks f st with
        | .fuelOut => .fuelOut
        | .panicked => .panicked
        | .done b st' => .done (some (.blockE pos b)) st'
      else if tok.literal = "(" then
        match ParseExpr toks f (skipT toks st) with
        | .fuelOut => .fuelOut
        | .panicked => .panicked
        | .done inner st' =>
          let out := expect toks st' .punct ")" ")"
          .done inner out.2
      else
        .done none (skipT toks (perror st "expected primary expression" tok))
    | _ =>
      .done none (skipT toks (perror st "expected primary expression" tok))

/-- The argument loop of `parsePrimary`, with its skip-to-`,`-or-`)`
recovery. -/
def parseArgsLoop (toks : List Tok) :
    Nat → List Ast.Expr → PState → POut (List Ast.Expr)
  | 0, _, _ => .fuelOut
  | f + 1, args, st =>
    match ParseExpr toks f st with
    | .fuelOut => .fuelOut
    | .panicked => .panicked
    | .done argOpt st1 =>
      match argOpt with
      | some a =>
        if (peekT toks st1).literal = "," then
          parseArgsLoop toks f (args ++ [a]) (skipT toks st1)
        else .done (args ++ [a]) st1
      | none =>
        match argSkipF toks f st1 with
        | none => .fuelOut
        | some st2 =>
          if (peekT toks st2).literal = "," then
            parseArgsLoop toks f args (skipT toks st2)
          else .done args st2

/-- Inner recovery of the argument loop: advance to `,` or `)` (or EOF). -/
def argSkipF (toks : List Tok) : Nat → PState → Option PState
  | 0, _ => none
  | f + 1, st =>
    if ¬isEOFT toks st && ¬((peekT toks st).literal = "," ||
        (peekT toks st).literal = ")") then
      argSkipF toks f (skipT toks st)
    else some st

/-- `parseUnary`. -/
def parseUnary (toks : List Tok) : Nat → PState → POut (Option Ast.Expr)
  | 0, _ => .fuelOut
  | f + 1, st =>
    let tok := peekT toks st
    if tok.type = .op && (tok.literal = "-" || tok.literal = "!" ||
        tok.literal = "~") then
      match parsePrimary toks f (skipT toks st) with
      | .fuelOut => .fuelOut
      | .panicked => .panicked
      | .done none st' => .done none st'
      | .done (some e) st' => .done (some (.unary tok.pos tok.literal e)) st'
    else parsePrimary toks f st

/-- `ParseExpr` = `parseBinary(parseUnary, binOps, leftAssoc)`. -/
def ParseExpr (toks : List Tok) : Nat → PState → POut (Option Ast.Expr)
  | 0, _ => .fuelOut
  | f + 1, st =>
    match parseUnary toks f st with
    | .fuelOut => .fuelOut
    | .panicked => .panicked
    | .done e st' => parseBinLoop toks f e st'

/-- The operator loop of `parseBinary` (left-associative, one level). -/
def parseBinLoop (toks : List Tok) :
    Nat → Option Ast.Expr → PState → POut (Option Ast.Expr)
  | 0, _, _ => .fuelOut
  | f + 1, expr, st =>
    match expr with
    | none => .done none st
    | some e =>
      let opTok := peekT toks st
      if ¬(opTok.type = .op || opTok.type = .punct) then .done (some e) st
      else if ¬(binOps.contains opTok.literal) then .done (some e) st
      else
        match parseUnary toks f (skipT toks st) with
        | .fuelOut => .fuelOut
        | .panicked => .panicked
        | .done none st' =>
          .done none (perror st' "expected expression after operator" (peekT toks st'))
        | .done (some r) st' =>
          parseBinLoop toks f (some (.binary e.pos e opTok.literal r)) st'

/-- `ParseStmt`. -/
def ParseStmt (toks : List Tok) : Nat → PState → POut (Option Ast.Stmt)
  | 0, _ => .fuelOut
  | f + 1, st =>
    let tok := peekT toks st
    if tok.literal = "let" then
      let st0 := skipT toks st
      let nameOut := expect toks st0 .ident "" "let binding name"
      let nameTok := nameOut.1
      let st1 := nameOut.2
      match
        (if (peekT toks st1).literal = ":" then
          match ParseType toks f (skipT toks st1) with
          | .fuelOut => POut.fuelOut
          | .panicked => POut.panicked
          | .done t st2 => POut.done (some t) st2
        else POut.done none st1) with
      | .fuelOut => .fuelOut
      | .panicked => .panicked
      | .done tyOpt st2 =>
        let eqOut := expect toks st2 .op "=" "="
        if eqOut.1.type = .eof then .done none eqOut.2
        else
          match ParseExpr toks f eqOut.2 with
          | .fuelOut => .fuelOut
          | .panicked => .panicked
          | .done none st3 => .done none st3
          | .done (some init) st3 =>
            let semOut := expect toks st3 .term ";" ";"
            if semOut.1.type = .eof then .done none semOut.2
            else
              let ty := tyOpt.getD (.pathType ⟨0, 0⟩ "infer")
              .done (some (.letS tok.pos nameTok.literal (some ty) init)) semOut.2
    else
      match ParseExpr toks f st with
      | .fuelOut => .fuelOut
      | .panicked => .panicked
      | .done none st' => .done none st'
      | .done (some e) st' =>
        if (peekT toks st').type = .term then
          .done (some (.exprS e.pos e)) (skipT toks st')
        else if (peekT toks st').literal = "\x7d" then
          .done (some (.exprS e.pos e)) st'
        else
          .done none (perror st' "expected ; after expression" (peekT toks st'))

/-- `ParseBlock`. -/
def ParseBlock (toks : List Tok) : Nat → PState → POut Ast.Block
  | 0, _ => .fuelOut
  | f + 1, st =>
    let pos := posT toks st
    let openOut := expect toks st .punct "\x7b" "\x7b"
    match parseBlockLoop toks f [] openOut.2 with
    | .fuelOut => .fuelOut
    | .panicked => .panicked
    | .done stmts st' =>
      let closeOut := expect toks st' .punct "\x7d" "\x7d"
      .done (.mk pos stmts) closeOut.2

/-- The statement loop of `ParseBlock` with its `recover(";")`. -/
def parseBlockLoop (toks : List Tok) :
    Nat → List Ast.Stmt → PState → POut (List Ast.Stmt)
  | 0, _, _ => .fuelOut
  | f + 1, stmts, st =>
    if ¬isEOFT toks st && (peekT toks st).literal ≠ "\x7d" then
      match ParseStmt toks f st with
      | .fuelOut => .fuelOut
      | .panicked => .panicked
      | .done (some s) st' => parseBlockLoop toks f (stmts ++ [s]) st'
      | .done none st' =>
        match recoverF toks [";"] f st' with
        | none => .fuelOut
        | some st'' => parseBlockLoop toks f stmts st''
    else .done stmts st

/-- The parameter loop of the `fn` branch of `ParseItem`. -/
def parseParamsLoop (toks : List Tok) :
    Nat → List Ast.Param → PState → POut (List Ast.Param)
  | 0, _, _ => .fuelOut
  | f + 1, params, st =>
    if ¬isEOFT toks st && ¬((peekT toks st).type = .punct &&
        (peekT toks st).literal = ")") then
      let nameOut := expect toks st .ident "" "param name"
      let colonOut := expect toks nameOut.2 .punct ":" ":"
      match ParseType toks f colonOut.2 with
      | .fuelOut => .fuelOut
      | .panicked => .panicked
      | .done t st' =>
        let params' := params ++ [⟨nameOut.1.pos, nameOut.1.literal, t⟩]
        if (peekT toks st').literal = "," then
          parseParamsLoop toks f params' (skipT toks st')
        else .done params' st'
    else .done params st

/-- The field loop of the `struct` branch of `ParseItem`. -/
def parseFieldsLoop (toks : List Tok) :
    Nat → List Ast.Field → PState → POut (List Ast.Field)
  | 0, _, _ => .fuelOut
  | f + 1, fields, st =>
    if ¬isEOFT toks st && ¬((peekT toks st).type = .punct &&
        (peekT toks st).literal = "\x7d") then
      let nameOut := expect toks st .ident "" "field name"
      let colonOut := expect toks nameOut.2 .punct ":" ":"
      match ParseType toks f colonOut.2 with
      | .fuelOut => .fuelOut
      | .panicked => .panicked
      | .done t st' =>
        let fields' := fields ++ [⟨nameOut.1.pos, nameOut.1.literal, t⟩]
        if (peekT toks st').literal = "," then
          parseFieldsLoop toks f fields' (skipT toks st')
        else .done fields' st'
    else .done fields st

/-- The attribute-skipping loop of `ParseItem`. -/
def skipAttrsF (toks : List Tok) : Nat → PState → Option PState
  | 0, _ => none
  | f + 1, st =>
    if (peekT toks st).type = .attrT then skipAttrsF toks f (skipT toks st)
    else some st

/-- `ParseItem`. -/
def ParseItem (toks : List Tok) : Nat → PState → POut (Option Ast.Item)
  | 0, _ => .fuelOut
  | f + 1, st =>
    match skipAttrsF toks f st with
    | none => .fuelOut
    | some st0 =>
      let tok := peekT toks st0
      let pos := tok.pos
      if tok.type = .keyword && tok.literal = "fn" then
        let st1 := skipT toks st0
        let nameOut := expect toks st1 .ident "" "identifier after fn"
        let parenOut := expect toks nameOut.2 .punct "(" "("
        match parseParamsLoop toks f [] parenOut.2 with
        | .fuelOut => .fuelOut
        | .panicked => .panicked
        | .done params st2 =>
          let closeOut := expect toks st2 .punct ")" ")"
          match
            (if (peekT toks closeOut.2).literal = "->" then
              ParseType toks f (skipT toks closeOut.2)
            else POut.done (Ast.Ty.pathType pos "()") closeOut.2) with
          | .fuelOut => .fuelOut
          | .panicked => .panicked
          | .done retTy st3 =>
            match ParseBlock toks f st3 with
            | .fuelOut => .fuelOut
            | .panicked => .panicked
            | .done body st4 =>
              .done (some (.ifn ⟨pos, nameOut.1.literal, params, retTy, body⟩)) st4
      else if tok.type = .keyword && tok.literal = "struct" then
        let st1 := skipT toks st0
        let nameOut := expect toks st1 .ident "" "struct name"
        let openOut := expect toks nameOut.2 .punct "\x7b" "\x7b"
        match parseFieldsLoop toks f [] openOut.2 with
        | .fuelOut => .fuelOut
        | .panicked => .panicked
        | .done fields st2 =>
          let closeOut := expect toks st2 .punct "\x7d" "\x7d"
          .done (some (.istruct ⟨pos, nameOut.1.literal, fields⟩)) closeOut.2
      else
        .done none (perror st0 "expected item (fn, struct, etc.)" tok)

/-- The item loop of `ParseCrate`: a failed item costs one consumed
token before retrying. -/
def parseCrateLoop (toks : List Tok) :
    Nat → List Ast.Item → PState → POut (List Ast.Item)
  | 0, _, _ => .fuelOut
  | f + 1, items, st =>
    if ¬isEOFT toks st then
      match ParseItem toks f st with
      | .fuelOut => .fuelOut
      | .panicked => .panicked
      | .done (some i) st' => parseCrateLoop toks f (items ++ [i]) st'
      | .done none st' =>
        if isEOFT toks st' then .done items st'
        else parseCrateLoop toks f items (skipT toks st')
    else .done items st

end

/-- `ParseCrate`. -/
def ParseCrate (toks : List Tok) (f : Nat) (st : PState) : POut Ast.Crate :=
  let pos := posT toks st
  match parseCrateLoop toks f [] st with
  | .fuelOut => .fuelOut
  | .panicked => .panicked
  | .done items st' => .done ⟨pos, items⟩ st'

/-- `Parser.ParseFile` on a fresh parser. -/
def ParseFile (toks : List Tok) (f : Nat) : POut Ast.Crate :=
  ParseCrate toks f {}

end Rust2Go

namespace Rust2Go

/-! ## Semantic checker (`internal/sema/checker.go`)

The symbol table and the per-function local scope are Go maps written
only through exists-guarded inserts (global table) or overwriting
inserts (local scope); both are modelled as association lists where an
insert prepends and lookup takes the first match. -/

/-- `sema.TypeInfo`. -/
structure TypeInfo where
  name : String
  isArr : Bool := false      -- IsArray
  isRef : Bool := false      -- IsReference
deriving DecidableEq, Repr

/-- `sema.SymbolKind`. -/
inductive SymKind where
  | svar | sfunc | sstruct
deriving DecidableEq, Repr

/-- `sema.Symbol`; `fn` is the back-pointer to the AST declaration. -/
structure Symbol where
  kind : SymKind
  name : String
  ty : TypeInfo
  pos : Position
  defined : Bool
  fn : Option Ast.Function

abbrev Scope := List (String × Symbol)

def scopeInsert (sc : Scope) (n : String) (sym : Symbol) : Scope := (n, sym) :: sc

def scopeLookup (sc : Scope) (n : String) : Option Symbol :=
  (sc.find? (fun p => p.1 = n)).map (·.2)

/-- `sema.SemanticError`. -/
structure SemanticError where
  msg : String
  pos : Position
deriving DecidableEq, Repr

/-- The `Checker` struct's mutable fields. -/
structure CheckSt where
  errs : List SemanticError := []
  symbols : Scope := []
  currentFunction : String := ""

/-- `Checker.error`. -/
def cerror (st : CheckSt) (msg : String) (pos : Position) : CheckSt :=
  { st with errs := st.errs ++ [⟨msg, pos⟩] }

/-- `extractType` (the argument is Go's nilable `ast.Type`). -/
def extractType : Option Ast.Ty → TypeInfo
  | none => ⟨"()", false, false⟩
  | some (.pathType _ p) => ⟨p, false, false⟩

/-- `typesCompatible`. -/
def typesCompatible (t1 t2 : TypeInfo) : Bool :=
  if t1.name = "infer" || t2.name = "infer" then true
  else if (t1.name = "str" && t2.name = "String") ||
      (t1.name = "String" && t2.name = "str") then true
  else t1.name = t2.name

/-- `isNumeric`. -/
def isNumeric (t : TypeInfo) : Bool :=
  t.name = "i32" || t.name = "i64" || t.name = "f32" || t.name = "f64" ||
  t.name = "i8" || t.name = "i16" || t.name = "u8" || t.name = "u16" ||
  t.name = "u32" || t.name = "u64"

/-- `isBool`. -/
def isBool (t : TypeInfo) : Bool := t.name = "bool"

def isArithmeticOp (op : String) : Bool :=
  op = "+" || op = "-" || op = "*" || op = "/" || op = "%"

def isComparisonOp (op : String) : Bool :=
  op = "==" || op = "!=" || op = "<" || op = ">" || op = "<=" || op = ">="

def isLogicalOp (op : String) : Bool := op = "&&" || op = "||"

/-- Does a callee name end in `!` (Go: `name[len(name)-1] == '!'`)? -/
def endsWithBang (s : String) : Bool :=
  match s.toList.getLast? with
  | some c => c = bangc
  | none => false

/-- `registerFunction` (pass 1). -/
def registerFunction (st : CheckSt) (fn : Ast.Function) : CheckSt :=
  if (scopeLookup st.symbols fn.name).isSome then
    cerror st ("duplicate function declaration: " ++ fn.name) fn.pos
  else
    let sym : Symbol := ⟨.sfunc, fn.name, extractType (some fn.retTy), fn.pos, true, some fn⟩
    { st with symbols := scopeInsert st.symbols fn.name sym }

/-- `registerStruct` (pass 1). -/
def registerStruct (st : CheckSt) (sd : Ast.Struct) : CheckSt :=
  if (scopeLookup st.symbols sd.name).isSome then
    cerror st ("duplicate struct declaration: " ++ sd.name) sd.pos
  else
    let sym : Symbol := ⟨.sstruct, sd.name, ⟨sd.name, false, false⟩, sd.pos, true, none⟩
    { st with symbols := scopeInsert st.symbols sd.name sym }

/-- `checkCrateDeclarations`. -/
def checkCrateDeclarations (st : CheckSt) (crate : Ast.Crate) : CheckSt :=
  crate.items.foldl
    (fun st item =>
      match item with
      | .ifn f => registerFunction st f
      | .istruct s => registerStruct st s)
    st

/-- `checkLiteral` → `resolveIdentifier` for IDENT literals. -/
def resolveIdentifier (st : CheckSt) (scope : Scope) (name : String)
    (pos : Position) : TypeInfo × CheckSt :=
  if endsWithBang name then (⟨"()", false, false⟩, st)
  else
    match scopeLookup scope name with
    | some sym => (sym.ty, st)
    | none =>
      match scopeLookup st.symbols name with
      | some sym => (sym.ty, st)
      | none =>
        (⟨"()", false, false⟩, cerror st ("undefined identifier: " ++ name) pos)

/-- `checkLiteral`. -/
def checkLiteral (st : CheckSt) (scope : Scope) (pos : Position)
    (kind val : String) : TypeInfo × CheckSt :=
  if kind = "INT" then (⟨"i32", false, false⟩, st)
  else if kind = "FLOAT" then (⟨"f64", false, false⟩, st)
  else if kind = "STRING" then (⟨"String", false, false⟩, st)
  else if kind = "BOOL" then (⟨"bool", false, false⟩, st)
  else if kind = "IDENT" then resolveIdentifier st scope val pos
  else (⟨"()", false, false⟩, st)

/-- `checkBlockExpr`: unit, without descending into the block. -/
def checkBlockExpr (st : CheckSt) : TypeInfo × CheckSt := (⟨"()", false, false⟩, st)

mutual

/-- `checkExpr`. -/
def checkExpr : Nat → CheckSt → Scope → Ast.Expr → TypeInfo × CheckSt
  | 0, st, _, _ => (⟨"()", false, false⟩, st)
  | f + 1, st, scope, e =>
    match e with
    | .lit pos kind val => checkLiteral st scope pos kind val
    | .binary pos l op r => checkBinaryExpr f st scope pos l op r
    | .unary pos op e1 => checkUnaryExpr f st scope pos op e1
    | .call pos fnE args => checkCallExpr f st scope pos fnE args
    | .blockE _ _ => checkBlockExpr st

/-- `checkBinaryExpr`. -/
def checkBinaryExpr : Nat → CheckSt → Scope → Position → Ast.Expr → String →
    Ast.Expr → TypeInfo × CheckSt
  | 0, st, _, _, _, _, _ => (⟨"()", false, false⟩, st)
  | f + 1, st, scope, pos, l, op, r =>
    let lo := checkExpr f st scope l
    let ro := checkExpr f lo.2 scope r
    let st2 := ro.2
    if isArithmeticOp op then
      if ¬isNumeric lo.1 || ¬isNumeric ro.1 then
        (⟨"()", false, false⟩,
         cerror st2 ("operands of " ++ op ++ " must be numeric") pos)
      else (lo.1, st2)
    else if isComparisonOp op then
      if ¬typesCompatible lo.1 ro.1 then
        (⟨"bool", false, false⟩,
         cerror st2 ("cannot compare " ++ lo.1.name ++ " with " ++ ro.1.name) pos)
      else (⟨"bool", false, false⟩, st2)
    else if isLogicalOp op then
      if ¬isBool lo.1 || ¬isBool ro.1 then
        (⟨"bool", false, false⟩,
         cerror st2 ("operands of " ++ op ++ " must be boolean") pos)
      else (⟨"bool", false, false⟩, st2)
    else (⟨"()", false, false⟩, st2)

/-- `checkUnaryExpr`. -/
def checkUnaryExpr : Nat → CheckSt → Scope → Position → String → Ast.Expr →
    TypeInfo × CheckSt
  | 0, st, _, _, _, _ => (⟨"()", false, false⟩, st)
  | f + 1, st, scope, pos, op, e =>
    let eo := checkExpr f st scope e
    if op = "-" then
      if ¬isNumeric eo.1 then
        (eo.1, cerror eo.2 "operand of unary - must be numeric" pos)
      else (eo.1, eo.2)
    else if op = "!" then
      if ¬isBool eo.1 then
        (⟨"bool", false, false⟩, cerror eo.2 "operand of unary ! must be boolean" pos)
      else (⟨"bool", false, false⟩, eo.2)
    else (⟨"()", false, false⟩, eo.2)

/-- The argument loop of the macro branch of `checkCallExpr`. -/
def checkArgsWF : Nat → CheckSt → Scope → List Ast.Expr → CheckSt
  | 0, st, _, _ => st
  | _, st, _, [] => st
  | f + 1, st, scope, a :: rest => checkArgsWF f (checkExpr f st scope a).2 scope rest

/-- `checkCallExpr`. -/
def checkCallExpr : Nat → CheckSt → Scope → Position → Ast.Expr →
    List Ast.Expr → TypeInfo × CheckSt
  | 0, st, _, _, _, _ => (⟨"()", false, false⟩, st)
  | f + 1, st, scope, pos, fnE, args =>
    match fnE with
    | .lit _ kind val =>
      let fnName := if kind = "IDENT" then val else ""
      if endsWithBang fnName then
        (⟨"()", false, false⟩, checkArgsWF f st scope args)
      else
        match scopeLookup st.symbols fnName with
        | none =>
          (⟨"()", false, false⟩,
           cerror st ("undefined function: " ++ fnName) pos)
        | some sym =>
          match sym.fn with
          | none =>
            (⟨"()", false, false⟩,
             cerror st (fnName ++ " is not a function") pos)
          | some fn =>
            if ¬(sym.kind = .sfunc) then
              (⟨"()", false, false⟩,
               cerror st (fnName ++ " is not a function") pos)
            else
              if args.length ≠ fn.params.length then
                (⟨"()", false, false⟩,
                 cerror st ("function " ++ fnName ++ " expects " ++
                   toString fn.params.length ++ " arguments, got " ++
                   toString args.length) pos)
              else
                (extractType (some fn.retTy),
                 checkCallArgsAt f st scope fnName pos args fn.params)
    | _ =>
      (⟨"()", false, false⟩, cerror st "expected function name in call" pos)

/-- Wrapper giving `checkCallArgs` the call position for its messages. -/
def checkCallArgsAt : Nat → CheckSt → Scope → String → Position →
    List Ast.Expr → List Ast.Param → CheckSt
  | 0, st, _, _, _, _, _ => st
  | f + 1, st, scope, fnName, pos, args, params =>
    checkCallArgsPos f st scope fnName pos 0 args params

/-- The indexed argument loop of the non-macro branch, reporting at the
call position. -/
def checkCallArgsPos : Nat → CheckSt → Scope → String → Position → Nat →
    List Ast.Expr → List Ast.Param → CheckSt
  | 0, st, _, _, _, _, _, _ => st
  | _, st, _, _, _, _, [], _ => st
  | _, st, _, _, _, _, _, [] => st
  | f + 1, st, scope, fnName, pos, i, a :: args, p :: params =>
    let ao := checkExpr f st scope a
    let paramType := extractType (some p.ty)
    let st' :=
      if ¬typesCompatible paramType ao.1 then
        cerror ao.2 ("argument " ++ toString (i + 1) ++ " of " ++ fnName ++
          ": expected " ++ paramType.name ++ ", got " ++ ao.1.name) pos
      else ao.2
    checkCallArgsPos f st' scope fnName pos (i + 1) args params

end

/-- `checkLetStmt`; returns the updated local scope alongside the state. -/
def checkLetStmt (f : Nat) (st : CheckSt) (scope : Scope) (pos : Position)
    (name : String) (tyO : Option Ast.Ty) (init : Ast.Expr) : Scope × CheckSt :=
  if (scopeLookup scope name).isSome then
    (scope, cerror st ("variable " ++ name ++ " already declared in this scope") pos)
  else
    let io := checkExpr f st scope init
    match tyO with
    | some t =>
      let declType := extractType (some t)
      if declType.name = "infer" then
        (scopeInsert scope name ⟨.svar, name, io.1, pos, true, none⟩, io.2)
      else
        let st2 :=
          if ¬typesCompatible declType io.1 then
            cerror io.2 ("type mismatch: expected " ++ declType.name ++
              ", got " ++ io.1.name) pos
          else io.2
        (scopeInsert scope name ⟨.svar, name, declType, pos, true, none⟩, st2)
    | none =>
      if io.1.name = "infer" then
        (scope, cerror io.2 "cannot infer type for variable without explicit type" pos)
      else
        (scopeInsert scope name ⟨.svar, name, io.1, pos, true, none⟩, io.2)

/-- `checkStmt`. -/
def checkStmt (f : Nat) (st : CheckSt) (scope : Scope) :
    Ast.Stmt → Scope × CheckSt
  | .letS pos name tyO init => checkLetStmt f st scope pos name tyO init
  | .exprS _ e => (scope, (checkExpr f st scope e).2)

/-- `checkBlock`: fold the statements, threading the (mutable) scope. -/
def checkBlock (f : Nat) (st : CheckSt) (scope : Scope) (b : Ast.Block) : CheckSt :=
  (b.stmts.foldl (fun acc s => checkStmt f acc.2 acc.1 s) (scope, st)).2

/-- The `str` → `String` normalization `checkFunction` applies to a
parameter's type when building the local scope. -/
def strRewrite (t : TypeInfo) : TypeInfo :=
  if t.name = "str" then { t with name := "String" } else t

/-- The parameter-registration loop of `checkFunction`: a parameter
declared `str` is bound in the local scope as `String`. -/
def paramScope (params : List Ast.Param) : Scope :=
  params.foldl
    (fun sc p =>
      let pt' := strRewrite (extractType (some p.ty))
      scopeInsert sc p.name ⟨.svar, p.name, pt', p.pos, true, none⟩)
    []

/-- `checkFunction` (pass 2). -/
def checkFunction (f : Nat) (st : CheckSt) (fn : Ast.Function) : CheckSt :=
  let st1 := { st with currentFunction := fn.name }
  let st2 := checkBlock f st1 (paramScope fn.params) fn.body
  { st2 with currentFunction := "" }

/-- `checkCrateDefinitions` (pass 2). -/
def checkCrateDefinitions (f : Nat) (st : CheckSt) (crate : Ast.Crate) : CheckSt :=
  crate.items.foldl
    (fun st item =>
      match item with
      | .ifn fn => checkFunction f st fn
      | .istruct _ => st)
    st

/-- `Checker.Check` on a fresh checker: pass 1 then pass 2, returning the
collected diagnostics. -/
def Check (f : Nat) (crate : Ast.Crate) : List SemanticError :=
  (checkCrateDefinitions f (checkCrateDeclarations {} crate) crate).errs

/-- `Check`, but returning the full final checker state. -/
def CheckRun (f : Nat) (crate : Ast.Crate) : CheckSt :=
  checkCrateDefinitions f (checkCrateDeclarations {} crate) crate

end Rust2Go

namespace Rust2Go

/-! ## IR and lowering (`internal/ir`)

`Transform` runs in `Except GoPanic` because the Go code calls the
`Type()` method on the (nil) result of lowering a block-expression
operand — a nil-interface method call, i.e. a runtime panic. -/

namespace Ir

/-- `ir.Type` (`Typ` here, since `Type` is reserved in Lean;
`ElementType` is never populated by the transformer but belongs to the
record). -/
inductive Typ where
  | mk (name : String) (isPrimitive isPointer isArray : Bool)
      (elementType : Option Typ)

def Typ.name : Typ → String
  | .mk n _ _ _ _ => n

/-- `ir.NewType`. -/
def NewType (name : String) (isPrimitive : Bool) : Typ :=
  .mk name isPrimitive false false none

/-- `ir.Expression`.  A Go interface value may be nil; fields that the
transformer can leave nil are `Option`s. -/
inductive Expression where
  | varE (name : String) (ty : Typ) (pos : Position)
  | litE (value kind : String) (ty : Typ) (pos : Position)
  | binE (left : Expression) (op : String) (right : Option Expression)
      (ty : Typ) (pos : Position)
  | unE (op : String) (e : Expression) (ty : Typ) (pos : Position)
  | callE (funcName : String) (args : List (Option Expression)) (ty : Typ)
      (pos : Position) (isMac : Bool)

/-- The `Type()` method. -/
def Expression.typeOf : Expression → Typ
  | .varE _ t _ => t
  | .litE _ _ t _ => t
  | .binE _ _ _ t _ => t
  | .unE _ _ t _ => t
  | .callE _ _ t _ _ => t

/-- `ir.Statement`. -/
inductive Statement where
  | decl (name : String) (ty : Typ) (initValue : Option Expression) (pos : Position)
  | assign (target : String) (value : Option Expression) (pos : Position)
  | ret (value : Option Expression) (pos : Position)
  | exprStmt (e : Option Expression) (pos : Position)

structure Parameter where
  name : String
  ty : Typ

structure Function where
  name : String
  params : List Parameter
  retTy : Typ
  body : List Statement
  pos : Position
  goPackage : String

structure Field where
  name : String
  ty : Typ

structure Struct where
  name : String
  fields : List Field
  pos : Position

structure Module where
  name : String
  functions : List Function
  structs : List Struct
  packageName : String

/-- `ir.MapRustToGoType`. -/
def MapRustToGoType (rustType : String) : String :=
  if rustType = "i8" then "int8"
  else if rustType = "i16" then "int16"
  else if rustType = "i32" then "int"
  else if rustType = "i64" then "int64"
  else if rustType = "u8" then "uint8"
  else if rustType = "u16" then "uint16"
  else if rustType = "u32" then "uint32"
  else if rustType = "u64" then "uint64"
  else if rustType = "f32" then "float32"
  else if rustType = "f64" then "float64"
  else if rustType = "bool" then "bool"
  else if rustType = "str" then "string"
  else if rustType = "String" then "string"
  else if rustType = "()" then ""
  else rustType

end Ir

/-- A Go runtime panic surfaced by the transformer (nil-interface method
call in `transformExpr`). -/
inductive GoPanic where
  | nilDeref
deriving DecidableEq, Repr

/-- `transformType` (argument is Go's nilable `ast.Type`). -/
def transformType : Option Ast.Ty → Ir.Typ
  | none => Ir.NewType "" true
  | some (.pathType _ p) => Ir.NewType (Ir.MapRustToGoType p) true

/-- `getLiteralType`. -/
def getLiteralType (kind val : String) : Ir.Typ :=
  if kind = "INT" then Ir.NewType "int" true
  else if kind = "FLOAT" then Ir.NewType "float64" true
  else if kind = "STRING" then Ir.NewType "string" true
  else if kind = "BOOL" then Ir.NewType "bool" true
  else if kind = "IDENT" then Ir.NewType val false
  else Ir.NewType "interface\x7b\x7d" false

mutual

/-- `transformExpr`: Go returns a nilable `Expression`; the `BinaryExpr`
and `UnaryExpr` cases call `.Type()` on the recursive result, which
panics when that result is nil (block-expression operands). -/
def transformExpr : Nat → Ast.Expr → Except GoPanic (Option Ir.Expression)
  | 0, _ => .ok none
  | f + 1, e =>
    match e with
    | .lit pos kind val =>
      .ok (some (.litE val kind (getLiteralType kind val) pos))
    | .blockE _ _ => .ok none
    | .binary pos l op r =>
      match transformExpr f l with
      | .error p => .error p
      | .ok lo =>
        match transformExpr f r with
        | .error p => .error p
        | .ok ro =>
          match lo with
          | none => .error .nilDeref          -- left.Type() on nil
          | some lv => .ok (some (.binE lv op ro lv.typeOf pos))
    | .unary pos op e1 =>
      match transformExpr f e1 with
      | .error p => .error p
      | .ok eo =>
        match eo with
        | none => .error .nilDeref            -- transformExpr(e.Expr).Type() on nil
        | some ev => .ok (some (.unE op ev ev.typeOf pos))
    | .call pos fnE args =>
      let funcName := match fnE with
        | .lit _ _ v => v
        | _ => ""
      match transformArgs f args with
      | .error p => .error p
      | .ok args' =>
        let isMac := endsWithBang funcName
        let retTy :=
          if isMac then
            if funcName = "format!" then Ir.NewType "string" true
            else Ir.NewType "()" true
          else Ir.NewType "()" true
        .ok (some (.callE funcName args' retTy pos isMac))

/-- The argument loop of the `CallExpr` case (appends possibly-nil
results, as the Go slice does). -/
def transformArgs : Nat → List Ast.Expr → Except GoPanic (List (Option Ir.Expression))
  | 0, _ => .ok []
  | _, [] => .ok []
  | f + 1, a :: rest =>
    match transformExpr f a with
    | .error p => .error p
    | .ok ao =>
      match transformArgs f rest with
      | .error p => .error p
      | .ok rest' => .ok (ao :: rest')

end

/-- `transformStmt`. -/
def transformStmt (f : Nat) : Ast.Stmt → Except GoPanic (Option Ir.Statement)
  | .letS pos name tyO init =>
    match transformExpr f init with
    | .error p => .error p
    | .ok io => .ok (some (.decl name (transformType tyO) io pos))
  | .exprS pos e =>
    match transformExpr f e with
    | .error p => .error p
    | .ok eo => .ok (some (.exprStmt eo pos))

/-- The statement loop of `transformFunction`. -/
def transformBody (f : Nat) : List Ast.Stmt → Except GoPanic (List Ir.Statement)
  | [] => .ok []
  | s :: rest =>
    match transformStmt f s with
    | .error p => .error p
    | .ok so =>
      match transformBody f rest with
      | .error p => .error p
      | .ok rest' =>
        match so with
        | some irs => .ok (irs :: rest')
        | none => .ok rest'

/-- `transformFunction` (in this embedding a function body is never nil,
so the Go `fn.Body == nil` guard is vacuous). -/
def transformFunction (f : Nat) (fn : Ast.Function) :
    Except GoPanic (Option Ir.Function) :=
  match transformBody f fn.body.stmts with
  | .error p => .error p
  | .ok body =>
    .ok (some
      { name := fn.name
        params := fn.params.map (fun p => ⟨p.name, transformType (some p.ty)⟩)
        retTy := transformType (some fn.retTy)
        body := body
        pos := fn.pos
        goPackage := "main" })

/-- `transformStruct` (the Go `st == nil` guard is vacuous here). -/
def transformStruct (sd : Ast.Struct) : Option Ir.Struct :=
  some
    { name := sd.name
      fields := sd.fields.map (fun fd => ⟨fd.name, transformType (some fd.ty)⟩)
      pos := sd.pos }

/-- `Transformer.Transform` on a fresh transformer. -/
def Transform (f : Nat) (crate : Ast.Crate) : Except GoPanic Ir.Module :=
  let step := fun (m : Except GoPanic Ir.Module) (item : Ast.Item) =>
    match m with
    | .error p => .error p
    | .ok m =>
      match item with
      | .ifn fn =>
        match transformFunction f fn with
        | .error p => .error p
        | .ok (some irf) => .ok { m with functions := m.functions ++ [irf] }
        | .ok none => .ok m
      | .istruct sd =>
        match transformStruct sd with
        | some irs => .ok { m with structs := m.structs ++ [irs] }
        | none => .ok m
  crate.items.foldl step
    (.ok { name := "main", functions := [], structs := [], packageName := "main" })

end Rust2Go

namespace Rust2Go

/-! ## Specification-side predicates for the lexer's failure semantics

These definitions follow the specification's words ("a literal that
cannot be closed before end-of-input", "malformed raw string prefix",
"unterminated attribute") as predicates on the text at a token start.
They are compared against the source-derived scanner. -/

/-- Text of a lexer state: the current rune followed by the unread
input.  The sentinel `nulc` heads the text at end of input. -/
def stText (s : LexSt) : List Char := s.ch :: s.rest

/-- Pad the empty list with the end-of-input sentinel (what `readChar`
yields when it runs off the end). -/
def padT (l : List Char) : List Char :=
  match l with
  | [] => [nulc]
  | _ => l

/-- Whitespace skipping on text. -/
def specSkipWS : List Char → List Char
  | [] => [nulc]
  | c :: rest => if goIsSpace c then specSkipWS rest else c :: rest

/-- Can a cooked string scan starting after the opening quote be closed
before end-of-input?  A backslash consumes the following code point
verbatim (a `\r\n` line continuation consumes both), and a NUL rune acts
as end of input. -/
def specCookedCloses : List Char → Bool
  | [] => false
  | c :: rest =>
    if c = nulc then false
    else if c = dquote then true
    else if c = bslash then
      match rest with
      | [] => false
      | d :: rs =>
        if d = '\r' then
          match rs with
          | e :: rs' => if e = '\n' then specCookedCloses rs' else specCookedCloses (e :: rs')
          | [] => false
        else specCookedCloses rs
    else specCookedCloses rest

/-- Is the attribute body (after `#[`) left unterminated (bracket depth
never returns to zero before end of input)? -/
def specAttrUnterm : Nat → List Char → Bool
  | _, [] => true
  | depth, c :: rest =>
    if c = nulc then true
    else
      let d' := if c = lbrackc then depth + 1
                else if c = rbrackc then depth - 1
                else depth
      if d' = 0 then false else specAttrUnterm d' rest

/-- Is an attribute starting at `#` fatally malformed or unterminated?
(The text argument is what follows the `#`.) -/
def specAttrBad (rest : List Char) : Bool :=
  let r1 := if rest.headD nulc = bangc then rest.tail else rest
  if r1.headD nulc ≠ lbrackc then true
  else specAttrUnterm 1 r1.tail

/-- Does scanning start a literal that cannot be closed (or a malformed
raw-string prefix) at this text position?  This is the specification's
enumeration of fatal lexer errors, including the byte-char form `b'…'`
which the lexer scans with the cooked-string scanner (closing delimiter
a double quote). -/
def specFatalStart (l : List Char) : Bool :=
  match specSkipWS l with
  | [] => false
  | c :: rest =>
    if c = nulc then false
    else if c = '/' && (rest.headD nulc = '/' || rest.headD nulc = '*') then false
    else if c = dquote then !(specCookedCloses rest)
    else if c = hashc then specAttrBad rest
    else if goIsLetter c || c = '_' then
      let id := List.takeWhile isIdentChar (c :: rest)
      let after := List.dropWhile isIdentChar (c :: rest)
      if (id = ['r'] || id = ['b', 'r']) &&
          (after.headD nulc = dquote || after.headD nulc = hashc) then
        -- raw string: hashes must be followed by a double quote,
        -- otherwise the prefix is malformed (the body itself may run to
        -- end of input without error)
        (List.dropWhile (fun x => x = hashc) after).headD nulc ≠ dquote
      else if id = ['b'] && after.headD nulc = dquote then
        !(specCookedCloses (after.drop 1))
      else if id = ['b'] && after.headD nulc = squote then
        !(specCookedCloses (after.drop 1))
      else false
    else false

/-- The specification-side run: scan token by token (with the source
scanner) and report whether a fatal start is ever reached. -/
def specFirstFatalF : Nat → LexSt → Bool
  | 0, _ => false
  | f + 1, s =>
    if s.ch = nulc then false
    else if specFatalStart (stText s) then true
    else specFirstFatalF f (nextToken s)

/-! ## Balanced block-comment bodies (specification side, for P4) -/

/-- Comment bodies after which the depth-counting skipper returns to its
caller: sequences of non-delimiter runes and properly nested
`/* … */` blocks. -/
inductive BalComment : List Char → Prop where
  | nil : BalComment []
  | chr (c : Char) (s : List Char) :
      c ≠ '/' → c ≠ '*' → c ≠ nulc → BalComment s → BalComment (c :: s)
  | nest (s t : List Char) : BalComment s → BalComment t →
      BalComment ('/' :: '*' :: (s ++ '*' :: '/' :: t))

/-! ## Parser-side helpers for the position invariant (P3) -/

/-- The position of the first token of an expression parse: enclosing
`(` tokens are unwrapped by the parser (which returns the inner node),
so they are skipped here. -/
def firstExprTokPos (toks : List Tok) (st : PState) : Position :=
  let t := peekT toks st
  if _h : t.type = .punct ∧ t.literal = "(" ∧ st.pos < toks.length then
    firstExprTokPos toks { st with pos := st.pos + 1 }
  else t.pos
termination_by toks.length - st.pos
decreasing_by simp; omega

def POut.isDone {α : Type} : POut α → Bool
  | .done _ _ => true
  | _ => false

def POut.isPanicked {α : Type} : POut α → Bool
  | .panicked => true
  | _ => false

/-- Parse diagnostics of a parser outcome. -/
def POut.errsOf {α : Type} : POut α → Option (List ParseError)
  | .done _ st => some st.errs
  | _ => none

/-- Crate of a successful parse (empty crate otherwise). -/
def POut.crateOf : POut Ast.Crate → Ast.Crate
  | .done c _ => c
  | _ => ⟨⟨0, 0⟩, []⟩

/-! ## Observables used by the concrete-scenario theorems -/

/-- (callee name, is-macro flag) of every call expression appearing at
statement level in an IR module. -/
def topLevelCalls (m : Ir.Module) : List (String × Bool) :=
  m.functions.flatMap fun f =>
    f.body.filterMap fun s =>
      match s with
      | .exprStmt (some (.callE n _ _ _ im)) _ => some (n, im)
      | .decl _ _ (some (.callE n _ _ _ im)) _ => some (n, im)
      | _ => none

/-- The declared-type nodes of every let statement in a crate, in
source order. -/
def letTypes (c : Ast.Crate) : List (Option Ast.Ty) :=
  c.items.flatMap fun item =>
    match item with
    | .ifn f => f.body.stmts.filterMap fun s =>
        match s with
        | .letS _ _ tyO _ => some tyO
        | _ => none
    | .istruct _ => []

/-- Names of the top-level function items. -/
def itemFnNames (c : Ast.Crate) : List String :=
  c.items.filterMap fun item =>
    match item with
    | .ifn f => some f.name
    | .istruct _ => none

def transformPanics (r : Except GoPanic Ir.Module) : Bool :=
  match r with
  | .error _ => true
  | .ok _ => false

/-- Statement-level calls of a lowered module, `none` on a panic. -/
def transformCalls (r : Except GoPanic Ir.Module) : Option (List (String × Bool)) :=
  match r with
  | .ok m => some (topLevelCalls m)
  | .error _ => none

/-! ## Concrete pipeline inputs (the specification's scenarios) -/

/-- Scenario 2: `fn main() { println!("hi"); }`. -/
def c1src : List Char := "fn main() \x7b println!(\x22hi\x22); \x7d".toList

def c1toks : List Tok := (Lex c1src).1.getD []

def c1crate : Ast.Crate := (ParseFile c1toks 60).crateOf

/-- A let binding without a declared type (for the synthetic `infer`
node): `fn f() { let x = 1; }`. -/
def c3src : List Char := "fn f() \x7b let x = 1; \x7d".toList

def c3toks : List Tok := (Lex c3src).1.getD []

def c3crate : Ast.Crate := (ParseFile c3toks 60).crateOf

/-- A binary expression with a block-expression operand:
`fn f() { { 1 } + 2; }`. -/
def c4src : List Char := "fn f() \x7b \x7b 1 \x7d + 2; \x7d".toList

def c4toks : List Tok := (Lex c4src).1.getD []

def c4crate : Ast.Crate := (ParseFile c4toks 60).crateOf

/-- Scenario 6: `/* a /* b */ */ fn main() {}`. -/
def c8src : List Char := "/* a /* b */ */ fn main() \x7b\x7d".toList

def c8toks : List Tok := (Lex c8src).1.getD []

def c8crate : Ast.Crate := (ParseFile c8toks 60).crateOf

/-- A local binding referenced from another function's body:
`fn a() { let x = 1; } fn b() { x; }`. -/
def c10src : List Char := "fn a() \x7b let x = 1; \x7d fn b() \x7b x; \x7d".toList

def c10toks : List Tok := (Lex c10src).1.getD []

def c10crate : Ast.Crate := (ParseFile c10toks 60).crateOf

/-- A `str` parameter used at type `String` inside the body:
`fn f(s: str) { let y: String = s; }`. -/
def c9src : List Char := "fn f(s: str) \x7b let y: String = s; \x7d".toList

def c9toks : List Tok := (Lex c9src).1.getD []

def c9crate : Ast.Crate := (ParseFile c9toks 60).crateOf

/-- A token list that sends an INT-kind token into `parsePrimary`
(`TokenType.String` then panics): `fn f ( ) { <INT 1> }`. -/
def c7toks : List Tok :=
  [⟨.keyword, "", "fn", 1, 1⟩, ⟨.ident, "", "f", 1, 4⟩,
   ⟨.punct, "", "(", 1, 5⟩, ⟨.punct, "", ")", 1, 6⟩,
   ⟨.punct, "", "\x7b", 1, 8⟩, ⟨.intT, "", "1", 1, 10⟩,
   ⟨.punct, "", "\x7d", 1, 12⟩]

/-- An unterminated raw string: `r"a`. -/
def c2src : List Char := "r\x22a".toList

end Rust2Go

namespace Rust2Go

/-! # Theorems -/

/-- C5: `typesCompatible(a, b)` returns true iff at least one side is
named `infer`, or the names are `str` and `String` in either order, or
the names are equal; in particular `i32` is not compatible with `i64`
(no implicit numeric widening). -/
theorem C5_typesCompatible_iff :
    (∀ t1 t2 : TypeInfo, typesCompatible t1 t2 = true ↔
      (t1.name = "infer" ∨ t2.name = "infer" ∨
       (t1.name = "str" ∧ t2.name = "String") ∨
       (t1.name = "String" ∧ t2.name = "str") ∨ t1.name = t2.name)) ∧
    typesCompatible ⟨"i32", false, false⟩ ⟨"i64", false, false⟩ = false := by
  refine ⟨fun t1 t2 => ?_, by decide⟩
  unfold typesCompatible
  split_ifs with h1 h2 <;> simp_all <;> tauto

/-- C1 (code bug): on `fn main() { println!("hi"); }` the parser builds
the call with callee literal `println` (the ILLEGAL `!` token is
consumed but not appended to the name, and the macro flag is dropped),
so the pipeline yields zero parse diagnostics but one semantic
diagnostic `undefined function: println`, and the lowered module's only
call is `("println", is-macro = false)` — not the macro-flagged
`println!` call that the claim (and the repository's own
`TestCheckerMacroSupport`) expects. -/
theorem C1_pipeline_drops_macro_bang :
    (Lex c1src).2 = none ∧
    (ParseFile c1toks 60).errsOf = some [] ∧
    Check 100 c1crate = [⟨"undefined function: println", ⟨1, 13⟩⟩] ∧
    transformCalls (Transform 100 c1crate) = some [("println", false)] := by
  refine ⟨by decide, by decide, by decide, by decide⟩

/-- C4 (code bug): lowering is not total — for the crate parsed from
`fn f() { { 1 } + 2; }` (a binary expression whose left operand is a
block expression) `transformExpr` returns Go-nil for the block operand
and the `BinaryExpr` case then calls `.Type()` on it, a nil-interface
method call, i.e. a runtime panic instead of an IR module. -/
theorem C4_transform_block_operand_panics :
    (Lex c4src).2 = none ∧
    (ParseFile c4toks 60).errsOf = some [] ∧
    transformPanics (Transform 100 c4crate) = true := by
  refine ⟨by decide, by decide, by decide⟩

/-- C3 (counterexample): parsing `fn f() { let x = 1; }` attaches to the
let binding the synthetic PathType `infer` with position (0, 0), while
every token of the input has a 1-based line — so this node's position is
not the position of any token, in particular not of its first
contributing token. -/
theorem C3_infer_node_zero_position :
    letTypes c3crate = [some (Ast.Ty.pathType ⟨0, 0⟩ "infer")] ∧
    c3toks.all (fun t => 1 ≤ t.line) = true := by
  refine ⟨by decide, by decide⟩

/-- C2 (counterexample): two divergences from the claim.  The input `r"a`
contains an unterminated raw string, which the claim lists as fatal; the
lexer however returns no error (and no overrun) and produces a STRING
token running to end of input.  The input `"\` is an unterminated cooked
string for which the claim says lex *returns* a fatal error; instead the
escape path reads twice past end of input, Go's `pos` ends at
`length + 1`, and the `runes[start:pos]` slice at `readString`'s return
is out of bounds — the lexer panics rather than returning. -/
theorem C2_lex_unterminated_raw_not_fatal :
    (Lex c2src =
      (some [⟨.ty, "STRING", "r\x22a", 1, 1⟩, ⟨.eof, "", "", 1, 4⟩], none) ∧
      LexPanics c2src = false) ∧
    LexPanics [dquote, bslash] = true := by
  decide

/-- C7 (counterexample): `parse` does not return for every finite token
list — on `fn f ( ) { <INT-kind token> }` the primary-expression parser
reaches the INT case and calls `TokenType.String`, which is
`panic("unimplemented")`; the parse panics rather than returning. -/
theorem C7_parse_panics_on_int_token :
    POut.isPanicked (ParseFile c7toks 50) = true := by
  decide

end Rust2Go

namespace Rust2Go

/-! ## Checker frame lemmas: pass 2 never writes the global table -/

@[simp]
theorem cerror_symbols (st : CheckSt) (m : String) (p : Position) :
    (cerror st m p).symbols = st.symbols := rfl

@[simp]
theorem resolveIdentifier_symbols (st : CheckSt) (sc : Scope) (n : String)
    (p : Position) : ((resolveIdentifier st sc n p).2).symbols = st.symbols := by
  unfold resolveIdentifier
  split
  · rfl
  · split
    · rfl
    · split
      · rfl
      · rfl

@[simp]
theorem checkLiteral_symbols (st : CheckSt) (sc : Scope) (p : Position)
    (kind val : String) : ((checkLiteral st sc p kind val).2).symbols = st.symbols := by
  unfold checkLiteral
  split_ifs <;> first | rfl | exact resolveIdentifier_symbols ..

/-- Joint fuel induction: no expression-level check writes the symbol
table. -/
theorem check_symbols_all (f : Nat) :
    (∀ st sc e, ((checkExpr f st sc e).2).symbols = st.symbols) ∧
    (∀ st sc pos l op r, ((checkBinaryExpr f st sc pos l op r).2).symbols = st.symbols) ∧
    (∀ st sc pos op e, ((checkUnaryExpr f st sc pos op e).2).symbols = st.symbols) ∧
    (∀ st sc args, (checkArgsWF f st sc args).symbols = st.symbols) ∧
    (∀ st sc pos fnE args, ((checkCallExpr f st sc pos fnE args).2).symbols = st.symbols) ∧
    (∀ st sc n pos args ps, (checkCallArgsAt f st sc n pos args ps).symbols = st.symbols) ∧
    (∀ st sc n pos i args ps, (checkCallArgsPos f st sc n pos i args ps).symbols = st.symbols) := by
  induction f with
  | zero =>
    refine ⟨fun st sc e => rfl, fun st sc pos l op r => rfl, fun st sc pos op e => rfl,
      fun st sc args => ?_, fun st sc pos fnE args => rfl,
      fun st sc n pos args ps => rfl, fun st sc n pos i args ps => ?_⟩
    · cases args <;> rfl
    · cases args <;> cases ps <;> rfl
  | succ f ih =>
    obtain ⟨ihE, ihB, ihU, ihW, ihC, ihA, ihP⟩ := ih
    refine ⟨?_, ?_, ?_, ?_, ?_, ?_, ?_⟩
    · intro st sc e
      cases e with
      | lit pos kind val =>
        simp only [checkExpr]
        exact checkLiteral_symbols st sc pos kind val
      | binary pos l op r => simpa [checkExpr] using ihB st sc pos l op r
      | unary pos op e1 => simpa [checkExpr] using ihU st sc pos op e1
      | call pos fnE args => simpa [checkExpr] using ihC st sc pos fnE args
      | blockE pos b => simp [checkExpr, checkBlockExpr]
    · intro st sc pos l op r
      have hl := ihE st sc l
      have hr := ihE (checkExpr f st sc l).2 sc r
      simp only [checkBinaryExpr]
      split_ifs <;> simp [hr, hl]
    · intro st sc pos op e
      have he := ihE st sc e
      simp only [checkUnaryExpr]
      split_ifs <;> simp [he]
    · intro st sc args
      cases args with
      | nil => rfl
      | cons a rest =>
        have h1 := ihE st sc a
        have h2 := ihW (checkExpr f st sc a).2 sc rest
        simp only [checkArgsWF]
        exact h2.trans h1
    · intro st sc pos fnE args
      cases fnE with
      | lit lpos kind val =>
        simp only [checkCallExpr]
        repeat' split
        all_goals first
          | rfl
          | exact ihW st sc args
          | apply ihA
      | unary _ _ _ => rfl
      | binary _ _ _ _ => rfl
      | call _ _ _ => rfl
      | blockE _ _ => rfl
    · intro st sc n pos args ps
      simpa [checkCallArgsAt] using ihP st sc n pos 0 args ps
    · intro st sc n pos i args ps
      cases args with
      | nil => cases ps <;> rfl
      | cons a args' =>
        cases ps with
        | nil => rfl
        | cons p ps' =>
          have h1 := ihE st sc a
          simp only [checkCallArgsPos]
          split_ifs <;> exact (ihP _ sc n pos (i + 1) args' ps').trans (by simp [h1])

theorem checkExpr_symbols (f : Nat) (st : CheckSt) (sc : Scope) (e : Ast.Expr) :
    ((checkExpr f st sc e).2).symbols = st.symbols := (check_symbols_all f).1 st sc e

theorem checkLetStmt_symbols (f : Nat) (st : CheckSt) (sc : Scope) (pos : Position)
    (n : String) (tyO : Option Ast.Ty) (init : Ast.Expr) :
    ((checkLetStmt f st sc pos n tyO init).2).symbols = st.symbols := by
  unfold checkLetStmt
  have he := checkExpr_symbols f st sc init
  split_ifs with h1
  · rfl
  · split
    · dsimp only
      split_ifs <;> simp [he]
    · dsimp only
      split_ifs <;> simp [he]

theorem checkStmt_symbols (f : Nat) (st : CheckSt) (sc : Scope) (s : Ast.Stmt) :
    ((checkStmt f st sc s).2).symbols = st.symbols := by
  cases s with
  | letS pos n tyO init => simpa [checkStmt] using checkLetStmt_symbols f st sc pos n tyO init
  | exprS pos e => simpa [checkStmt] using checkExpr_symbols f st sc e

theorem checkBlock_symbols (f : Nat) (st : CheckSt) (sc : Scope) (b : Ast.Block) :
    (checkBlock f st sc b).symbols = st.symbols := by
  cases b with
  | mk pos stmts =>
    unfold checkBlock
    simp only [Ast.Block.stmts]
    suffices h : ∀ (l : List Ast.Stmt) (acc : Scope × CheckSt),
        ((l.foldl (fun acc s => checkStmt f acc.2 acc.1 s) acc).2).symbols
          = acc.2.symbols by
      exact h stmts (sc, st)
    intro l
    induction l with
    | nil => intro acc; rfl
    | cons s rest ihl =>
      intro acc
      have := checkStmt_symbols f acc.2 acc.1 s
      simp only [List.foldl_cons]
      exact (ihl (checkStmt f acc.2 acc.1 s)).trans this

theorem checkFunction_symbols (f : Nat) (st : CheckSt) (fn : Ast.Function) :
    (checkFunction f st fn).symbols = st.symbols := by
  unfold checkFunction
  exact checkBlock_symbols f _ _ fn.body

/-- Pass 2 (`checkCrateDefinitions`) leaves the symbol table exactly as
pass 1 built it. -/
theorem checkCrateDefinitions_symbols (f : Nat) (st : CheckSt) (crate : Ast.Crate) :
    (checkCrateDefinitions f st crate).symbols = st.symbols := by
  unfold checkCrateDefinitions
  suffices h : ∀ (l : List Ast.Item) (st : CheckSt),
      ((l.foldl (fun st item => match item with
        | .ifn fn => checkFunction f st fn
        | .istruct _ => st) st)).symbols = st.symbols by
    exact h crate.items st
  intro l
  induction l with
  | nil => intro st; rfl
  | cons i rest ihl =>
    intro st
    cases i with
    | ifn fn =>
      simpa using (ihl (checkFunction f st fn)).trans (checkFunction_symbols f st fn)
    | istruct s => simpa using ihl st

@[simp]
theorem scopeLookup_cons (k : String) (v : Symbol) (sc : Scope) (n : String) :
    scopeLookup ((k, v) :: sc) n = if k = n then some v else scopeLookup sc n := by
  by_cases h : k = n <;> simp [scopeLookup, List.find?_cons, h]

/-- Every function back-pointer in the pass-1 table is an item of the
crate (the table references the unmutated declarations). -/
theorem pass1_fn_from_items (crate : Ast.Crate) (name : String) (sym : Symbol)
    (g : Ast.Function)
    (h : scopeLookup ((checkCrateDeclarations {} crate).symbols) name = some sym)
    (hg : sym.fn = some g) : Ast.Item.ifn g ∈ crate.items := by
  unfold checkCrateDeclarations at h
  have aux : ∀ (rest : List Ast.Item) (st : CheckSt),
      (∀ sym' g', scopeLookup st.symbols name = some sym' → sym'.fn = some g' →
        Ast.Item.ifn g' ∈ crate.items) →
      (∀ i, i ∈ rest → i ∈ crate.items) →
      (∀ sym' g',
        scopeLookup ((rest.foldl (fun st item =>
          match item with
          | Ast.Item.ifn f => registerFunction st f
          | Ast.Item.istruct s => registerStruct st s) st)).symbols name = some sym' →
        sym'.fn = some g' → Ast.Item.ifn g' ∈ crate.items) := by
    intro rest
    induction rest with
    | nil => intro st hP _ sym' g' hl hgg; exact hP sym' g' hl hgg
    | cons i rest' ihr =>
      intro st hP hsub sym' g' hl hgg
      simp only [List.foldl_cons] at hl
      refine ihr _ ?_ (fun j hj => hsub j (List.mem_cons_of_mem i hj)) sym' g' hl hgg
      intro s' g2 hl' hg2
      cases i with
      | ifn f =>
        unfold registerFunction at hl'
        by_cases hdup : (scopeLookup st.symbols f.name).isSome
        · simp only [hdup, if_true, cerror_symbols] at hl'
          exact hP s' g2 hl' hg2
        · simp only [hdup, if_false, Bool.false_eq_true, scopeInsert,
            scopeLookup_cons] at hl'
          split_ifs at hl' with hn
          · cases hl'
            simp only at hg2
            cases hg2
            exact hsub _ (List.mem_cons_self _ _)
          · exact hP s' g2 hl' hg2
      | istruct s =>
        unfold registerStruct at hl'
        by_cases hdup : (scopeLookup st.symbols s.name).isSome
        · simp only [hdup, if_true, cerror_symbols] at hl'
          exact hP s' g2 hl' hg2
        · simp only [hdup, if_false, Bool.false_eq_true, scopeInsert,
            scopeLookup_cons] at hl'
          split_ifs at hl' with hn
          · cases hl'
            simp at hg2
          · exact hP s' g2 hl' hg2
  exact aux crate.items {} (by intro s' g' hl _; simp [scopeLookup] at hl)
    (fun i hi => hi) sym g h hg

end Rust2Go

namespace Rust2Go

/-- Every binding in a `checkFunction` local scope comes from some
parameter, carrying the `str` → `String` rewritten type. -/
theorem paramScope_from_params (ps : List Ast.Param) (n : String) (sym : Symbol)
    (h : scopeLookup (paramScope ps) n = some sym) :
    ∃ p, p ∈ ps ∧ p.name = n ∧ sym.ty = strRewrite (extractType (some p.ty)) := by
  unfold paramScope at h
  have aux : ∀ (l : List Ast.Param) (acc : Scope),
      scopeLookup (l.foldl (fun sc p =>
        let pt' := strRewrite (extractType (some p.ty))
        scopeInsert sc p.name ⟨.svar, p.name, pt', p.pos, true, none⟩) acc) n = some sym →
      (∃ p, p ∈ l ∧ p.name = n ∧ sym.ty = strRewrite (extractType (some p.ty))) ∨
        scopeLookup acc n = some sym := by
    intro l
    induction l with
    | nil => intro acc h; exact Or.inr h
    | cons p rest ihl =>
      intro acc h
      simp only [List.foldl_cons] at h
      rcases ihl _ h with ⟨q, hq, hn, ht⟩ | hacc
      · exact Or.inl ⟨q, List.mem_cons_of_mem p hq, hn, ht⟩
      · simp only [scopeInsert, scopeLookup_cons] at hacc
        split_ifs at hacc with hn
        · cases hacc
          exact Or.inl ⟨p, List.mem_cons_self _ _, hn, rfl⟩
        · exact Or.inr hacc
  rcases aux ps [] h with hp | habs
  · exact hp
  · simp [scopeLookup] at habs

/-- C10: the global symbol table contains exactly the pass-1
registrations — pass 2 (body checking) never writes it — and a local
binding of one function does not resolve from another function's body:
`fn a() { let x = 1; } fn b() { x; }` yields exactly the diagnostic
`undefined identifier: x`. -/
theorem C10_global_table_pass1_only :
    (∀ (f : Nat) (crate : Ast.Crate),
      (CheckRun f crate).symbols = (checkCrateDeclarations {} crate).symbols) ∧
    Check 100 c10crate = [⟨"undefined identifier: x", ⟨1, 32⟩⟩] := by
  refine ⟨fun f crate => ?_, by decide⟩
  unfold CheckRun
  exact checkCrateDefinitions_symbols f _ crate

/-- C9: semantic checking does not mutate the AST.  After `Check`, every
function symbol in the global table still points at an item of the input
crate (the unmutated declaration, so a `str` parameter still reads `str`
through the table), while the checker-local scope built for a function
binds each parameter with the `str` → `String` rewritten type.  The
crate `fn f(s: str) { let y: String = s; }` checks cleanly thanks to
that scoped rewrite. -/
theorem C9_check_does_not_mutate_ast :
    (∀ (f : Nat) (crate : Ast.Crate) (name : String) (sym : Symbol)
        (g : Ast.Function),
      scopeLookup ((CheckRun f crate).symbols) name = some sym →
      sym.fn = some g → Ast.Item.ifn g ∈ crate.items) ∧
    (∀ (ps : List Ast.Param) (n : String) (sym : Symbol),
      scopeLookup (paramScope ps) n = some sym →
      ∃ p, p ∈ ps ∧ p.name = n ∧ sym.ty = strRewrite (extractType (some p.ty))) ∧
    Check 100 c9crate = [] := by
  refine ⟨?_, paramScope_from_params, by decide⟩
  intro f crate name sym g h hg
  unfold CheckRun at h
  rw [checkCrateDefinitions_symbols f _ crate] at h
  exact pass1_fn_from_items crate name sym g h hg

/-- C9 witness: the scope built for `fn f(s: str)` binds `s` at type
`String` while the parameter's AST type is `str`. -/
theorem C9_witness :
    ∃ p, p ∈ [(⟨⟨1, 6⟩, "s", .pathType ⟨1, 9⟩ "str"⟩ : Ast.Param)] ∧
      p.name = "s" ∧
      (Symbol.mk .svar "s" ⟨"String", false, false⟩ ⟨1, 6⟩ true none).ty =
        strRewrite (extractType (some p.ty)) := by
  exact C9_check_does_not_mutate_ast.2.1
    [⟨⟨1, 6⟩, "s", .pathType ⟨1, 9⟩ "str"⟩] "s"
    (Symbol.mk .svar "s" ⟨"String", false, false⟩ ⟨1, 6⟩ true none) (by rfl)

/-- C6: a call whose callee name ends in `!` only type-checks its
arguments (no arity or signature check, whatever their number) and has
result type `()`; otherwise the callee must resolve in the symbol table
(else `undefined function`), the arity must match (else the counting
diagnostic), each argument must be compatible with its parameter — an
incompatibility appends `argument i of f: expected P, got A` — and the
result type is the function's return type. -/
theorem C6_checkCallExpr_macro_and_signature :
    (∀ (f : Nat) (st : CheckSt) (sc : Scope) (pos lpos : Position)
        (name : String) (args : List Ast.Expr),
      (endsWithBang name = true →
        checkCallExpr (f + 1) st sc pos (.lit lpos "IDENT" name) args =
          (⟨"()", false, false⟩, checkArgsWF f st sc args)) ∧
      (endsWithBang name = false → scopeLookup st.symbols name = none →
        checkCallExpr (f + 1) st sc pos (.lit lpos "IDENT" name) args =
          (⟨"()", false, false⟩, cerror st ("undefined function: " ++ name) pos)) ∧
      (∀ sym fn, endsWithBang name = false →
        scopeLookup st.symbols name = some sym → sym.fn = some fn →
        sym.kind = .sfunc →
        (args.length ≠ fn.params.length →
          checkCallExpr (f + 1) st sc pos (.lit lpos "IDENT" name) args =
            (⟨"()", false, false⟩,
             cerror st ("function " ++ name ++ " expects " ++
               toString fn.params.length ++ " arguments, got " ++
               toString args.length) pos)) ∧
        (args.length = fn.params.length →
          checkCallExpr (f + 1) st sc pos (.lit lpos "IDENT" name) args =
            (extractType (some fn.retTy),
             checkCallArgsAt f st sc name pos args fn.params)))) ∧
    (∀ (f : Nat) (st : CheckSt) (sc : Scope) (name : String) (pos : Position)
        (i : Nat) (a : Ast.Expr) (args : List Ast.Expr) (p : Ast.Param)
        (ps : List Ast.Param),
      typesCompatible (extractType (some p.ty)) (checkExpr f st sc a).1 = false →
      checkCallArgsPos (f + 1) st sc name pos i (a :: args) (p :: ps) =
        checkCallArgsPos f
          (cerror (checkExpr f st sc a).2
            ("argument " ++ toString (i + 1) ++ " of " ++ name ++ ": expected " ++
              (extractType (some p.ty)).name ++ ", got " ++
              (checkExpr f st sc a).1.name) pos)
          sc name pos (i + 1) args ps) := by
  constructor
  · intro f st sc pos lpos name args
    refine ⟨?_, ?_, ?_⟩
    · intro hb
      simp [checkCallExpr, hb]
    · intro hb hlk
      simp [checkCallExpr, hb, hlk]
    · intro sym fn hb hlk hfn hkind
      constructor
      · intro har
        simp [checkCallExpr, hb, hlk, hfn, hkind, har]
      · intro har
        simp [checkCallExpr, hb, hlk, hfn, hkind, har]
  · intro f st sc name pos i a args p ps hc
    simp [checkCallArgsPos, hc]

/-- C6 witness: instantiating the macro branch at `println!` with one
argument. -/
theorem C6_witness :
    checkCallExpr 1 {} [] ⟨1, 13⟩
        (.lit ⟨1, 13⟩ "IDENT" "println!") [.lit ⟨1, 22⟩ "STRING" "hi"] =
      (⟨"()", false, false⟩,
       checkArgsWF 0 {} [] [.lit ⟨1, 22⟩ "STRING" "hi"]) :=
  (C6_checkCallExpr_macro_and_signature.1 0 {} [] ⟨1, 13⟩ ⟨1, 13⟩ "println!"
    [.lit ⟨1, 22⟩ "STRING" "hi"]).1 (by decide)

end Rust2Go

namespace Rust2Go

/-! ## Nested block comments (P4) -/

theorem readChar_rest (s : LexSt) : (readChar s).rest = s.rest.tail := by
  cases h : s.rest <;> simp [readChar, h] <;> split_ifs <;> rfl

theorem readChar_toks (s : LexSt) : (readChar s).toks = s.toks := by
  cases h : s.rest <;> simp [readChar, h] <;> split_ifs <;> rfl

theorem readChar_err (s : LexSt) : (readChar s).err = s.err := by
  cases h : s.rest <;> simp [readChar, h] <;> split_ifs <;> rfl

theorem stText_readChar (s : LexSt) : stText (readChar s) = padT s.rest := by
  cases h : s.rest <;> simp [readChar, h, stText, padT] <;> split_ifs <;>
    exact ⟨rfl, rfl⟩

theorem stText_ch (s : LexSt) (c : Char) (l : List Char)
    (h : stText s = c :: l) : s.ch = c ∧ s.rest = l := by
  unfold stText at h
  exact ⟨(List.cons.injEq .. ▸ h).1, (List.cons.injEq .. ▸ h).2⟩

theorem blockCommentF_zero_nest (f : Nat) (s : LexSt) :
    blockCommentF f 0 s = s := by
  cases f <;> simp [blockCommentF]

/-- Skipping a balanced comment body: from nesting depth `n + 1` the
depth-counting loop consumes exactly `body ++ "*/"` and continues at
depth `n`. -/
theorem blockCommentF_bal :
    ∀ (body : List Char), BalComment body →
    ∀ (k : List Char) (n : Nat) (s : LexSt) (fuel : Nat),
      stText s = body ++ '*' :: '/' :: k →
      body.length + 2 ≤ fuel →
      ∃ (fuel' : Nat) (s' : LexSt), fuel' ≤ fuel ∧ fuel ≤ fuel' + body.length + 2 ∧
        blockCommentF fuel (n + 1) s = blockCommentF fuel' n s' ∧
        stText s' = padT k ∧ s'.toks = s.toks ∧ s'.err = s.err := by
  intro body hb
  induction hb with
  | nil =>
    intro k n s fuel hs hf
    obtain ⟨f', rfl⟩ : ∃ f', fuel = f' + 1 := ⟨fuel - 1, by omega⟩
    simp only [List.nil_append] at hs
    obtain ⟨hch, hrest⟩ := stText_ch s _ _ hs
    refine ⟨f', readChar (readChar s), by omega, by omega, ?_, ?_, ?_, ?_⟩
    · have hpk : peek s = '/' := by simp [peek, hrest]
      simp [blockCommentF, hch, hpk, nulc]
    · rw [stText_readChar, readChar_rest, hrest]
      rfl
    · rw [readChar_toks, readChar_toks]
    · rw [readChar_err, readChar_err]
  | chr c cs hc1 hc2 hc3 _ ih =>
    intro k n s fuel hs hf
    obtain ⟨f', rfl⟩ : ∃ f', fuel = f' + 1 := ⟨fuel - 1, by omega⟩
    simp only [List.cons_append] at hs
    obtain ⟨hch, hrest⟩ := stText_ch s _ _ hs
    have hstep : blockCommentF (f' + 1) (n + 1) s = blockCommentF f' (n + 1) (readChar s) := by
      simp [blockCommentF, hch, hc1, hc2, hc3]
    have htext : stText (readChar s) = cs ++ '*' :: '/' :: k := by
      rw [stText_readChar, hrest]
      cases cs <;> rfl
    obtain ⟨fuel', s', hle, hge, heq, htx, htk, herr⟩ :=
      ih k n (readChar s) f' htext (by simp at hf ⊢; omega)
    refine ⟨fuel', s', by omega, by simp; omega, hstep.trans heq, htx, ?_, ?_⟩
    · rw [htk, readChar_toks]
    · rw [herr, readChar_err]
  | nest cs t _ _ ih1 ih2 =>
    intro k n s fuel hs hf
    obtain ⟨f', rfl⟩ : ∃ f', fuel = f' + 1 := ⟨fuel - 1, by omega⟩
    simp only [List.cons_append, List.append_assoc] at hs
    obtain ⟨hch, hrest⟩ := stText_ch s _ _ hs
    have hpk : peek s = '*' := by simp [peek, hrest]
    have hstep : blockCommentF (f' + 1) (n + 1) s =
        blockCommentF f' (n + 1 + 1) (readChar (readChar s)) := by
      simp [blockCommentF, hch, hpk, nulc]
    have htext : stText (readChar (readChar s)) =
        cs ++ '*' :: '/' :: (t ++ '*' :: '/' :: k) := by
      rw [stText_readChar, readChar_rest, hrest]
      cases cs <;> rfl
    have hlen : cs.length + 2 ≤ f' := by simp at hf; omega
    obtain ⟨fuel1, s1, hle1, hge1, heq1, htx1, htk1, herr1⟩ :=
      ih1 (t ++ '*' :: '/' :: k) (n + 1) (readChar (readChar s)) f' htext hlen
    have htx1' : stText s1 = t ++ '*' :: '/' :: k := by
      rw [htx1]
      cases t <;> rfl
    have hlen2 : t.length + 2 ≤ fuel1 := by simp at hf; omega
    obtain ⟨fuel2, s2, hle2, hge2, heq2, htx2, htk2, herr2⟩ :=
      ih2 k n s1 fuel1 htx1' hlen2
    refine ⟨fuel2, s2, by omega, by simp; omega,
      (hstep.trans heq1).trans heq2, htx2, ?_, ?_⟩
    · rw [htk2, htk1, readChar_toks, readChar_toks]
    · rw [herr2, herr1, readChar_err, readChar_err]

end Rust2Go

namespace Rust2Go

theorem skipWhitespace_nospace (s : LexSt) (h : goIsSpace s.ch = false) :
    skipWhitespace s = s := by
  unfold skipWhitespace lfuel
  show skipWhitespaceF (s.rest.length + 1 + 1) s = s
  rw [skipWhitespaceF]
  simp [h]

/-- C8: lexing `/*` + any balanced comment body + `*/` succeeds and
emits only the end-of-input token; concretely
`/* a /* b */ */ fn main() {}` lexes and parses with zero diagnostics
into a crate whose only item is the function `main`. -/
theorem C8_nested_comments :
    (∀ body, BalComment body →
      ∃ ln cl, Lex ('/' :: '*' :: (body ++ ['*', '/'])) =
        (some [⟨.eof, "", "", ln, cl⟩], none)) ∧
    (Lex c8src).2 = none ∧
    (ParseFile c8toks 60).errsOf = some [] ∧
    itemFnNames c8crate = ["main"] ∧ c8crate.items.length = 1 := by
  refine ⟨?_, by decide, by decide, by decide, by decide⟩
  intro body hb
  set s0 : LexSt :=
    { ch := '/', rest := '*' :: (body ++ ['*', '/']), line := 1, col := 1,
      toks := [], err := none } with hs0
  have hinit : lexInit ('/' :: '*' :: (body ++ ['*', '/'])) = s0 := by
    simp [hs0, lexInit, readChar]
  have htext : stText (readChar (readChar s0)) = body ++ '*' :: '/' :: [] := by
    rw [stText_readChar, readChar_rest]
    show padT (body ++ ['*', '/']) = _
    cases body <;> rfl
  have hlen : body.length + 2 ≤ lfuel s0 := by
    simp [lfuel, hs0]
  obtain ⟨fuel', s', hle, hge, heq, htx, htk, herr⟩ :=
    blockCommentF_bal body hb [] 0 (readChar (readChar s0)) (lfuel s0) htext hlen
  simp only [Nat.zero_add] at heq
  have hnt : nextToken s0 = s' := by
    unfold nextToken
    rw [skipWhitespace_nospace s0 (by simp [hs0, goIsSpace])]
    have hc : (s0.ch = '/' && (peek s0 = '/' || peek s0 = '*')) = true := by
      simp [hs0, peek]
    rw [if_pos hc]
    unfold skipComment
    rw [if_neg (by simp [hs0, peek]), if_pos (by simp [hs0, peek])]
    rw [heq, blockCommentF_zero_nest]
  have hch' : s'.ch = nulc ∧ s'.rest = [] := stText_ch s' nulc [] (by rw [htx]; rfl)
  have htk' : s'.toks = [] := by
    rw [htk, readChar_toks, readChar_toks]
  have herr' : s'.err = none := by
    rw [herr, readChar_err, readChar_err]
  refine ⟨s'.line, s'.col, ?_⟩
  have hrun : lexLoopF (('/' :: '*' :: (body ++ ['*', '/'])).length + 2) s0 = s' := by
    have hfuel : ('/' :: '*' :: (body ++ ['*', '/'])).length + 2 =
        (body.length + 4) + 1 + 1 := by simp
    rw [hfuel, lexLoopF]
    rw [if_neg (by simp [hs0, nulc])]
    simp only [hnt, herr', if_pos]
    rw [lexLoopF, if_pos (by simp [hch'.1])]
  unfold Lex
  rw [hinit, hrun]
  simp [herr', htk']

end Rust2Go

namespace Rust2Go

/-- C8 witness: the balanced body ` a /* b */ ` (one nested comment). -/
theorem C8_witness :
    ∃ ln cl, Lex ('/' :: '*' ::
        ([' ', 'a', ' ', '/', '*', ' ', 'b', ' ', '*', '/', ' '] ++ ['*', '/'])) =
      (some [⟨.eof, "", "", ln, cl⟩], none) :=
  C8_nested_comments.1 [' ', 'a', ' ', '/', '*', ' ', 'b', ' ', '*', '/', ' ']
    (.chr ' ' _ (by decide) (by decide) (by decide)
      (.chr 'a' _ (by decide) (by decide) (by decide)
        (.chr ' ' _ (by decide) (by decide) (by decide)
          (.nest [' ', 'b', ' '] [' ']
            (.chr ' ' _ (by decide) (by decide) (by decide)
              (.chr 'b' _ (by decide) (by decide) (by decide)
                (.chr ' ' _ (by decide) (by decide) (by decide) .nil)))
            (.chr ' ' _ (by decide) (by decide) (by decide) .nil)))))

end Rust2Go

namespace Rust2Go

/-! ## Parser termination (P5)

`TokenStream` lemmas: position bounds for the primitive stream moves. -/

theorem peekT_oob (toks : List Tok) (st : PState) (h : toks.length ≤ st.pos) :
    peekT toks st = {} := by
  unfold peekT
  rw [List.get?_eq_none.2 h]
  rfl

theorem isEOFT_false_lt (toks : List Tok) (st : PState)
    (h : isEOFT toks st = false) : st.pos < toks.length := by
  by_contra hge
  rw [isEOFT, peekT_oob toks st (by omega)] at h
  simp at h

theorem peekT_type_lt (toks : List Tok) (st : PState) (τ : TokTy)
    (h : (peekT toks st).type = τ) (hτ : τ ≠ .eof) : st.pos < toks.length := by
  by_contra hge
  rw [peekT_oob toks st (by omega)] at h
  exact hτ (h ▸ rfl)

theorem peekT_lit_lt (toks : List Tok) (st : PState) (l : String)
    (h : (peekT toks st).literal = l) (hl : l ≠ "") : st.pos < toks.length := by
  by_contra hge
  rw [peekT_oob toks st (by omega)] at h
  exact hl (h ▸ rfl)

theorem peekT_safe (toks : List Tok) (st : PState)
    (hH : ∀ t ∈ toks, t.type ≠ TokTy.intT ∧ t.type ≠ TokTy.floatT) :
    (peekT toks st).type ≠ .intT ∧ (peekT toks st).type ≠ .floatT := by
  unfold peekT
  cases hg : toks.get? st.pos with
  | none => exact ⟨by decide, by decide⟩
  | some t => exact hH t (List.get?_mem hg)

theorem skipT_pos_ge (toks : List Tok) (st : PState) :
    st.pos ≤ (skipT toks st).pos := by
  unfold skipT nextT
  split_ifs <;> simp

theorem skipT_pos_lt (toks : List Tok) (st : PState) (h : st.pos < toks.length) :
    (skipT toks st).pos = st.pos + 1 := by
  unfold skipT nextT
  rw [if_neg (by omega)]

theorem perror_pos (st : PState) (m : String) (t : Tok) :
    (perror st m t).pos = st.pos := rfl

theorem expect_pos_ge (toks : List Tok) (st : PState) (τ : TokTy) (l d : String) :
    st.pos ≤ (expect toks st τ l d).2.pos := by
  unfold expect
  dsimp only
  split_ifs <;> first | exact le_refl _ | exact skipT_pos_ge toks st

theorem expect_match_pos (toks : List Tok) (st : PState) (τ : TokTy) (l d : String)
    (hty : (peekT toks st).type = τ) (hτ : τ ≠ .eof)
    (hlit : (peekT toks st).literal = l) :
    (expect toks st τ l d).2.pos = st.pos + 1 := by
  have hlt : st.pos < toks.length := peekT_type_lt toks st τ hty hτ
  have heof : isEOFT toks st = false := by
    rw [isEOFT, hty]
    simp [hτ]
  unfold expect
  dsimp only
  rw [if_neg (by rw [heof]; exact Bool.false_ne_true)]
  rw [if_pos (by rw [hty, hlit]; simp)]
  exact skipT_pos_lt toks st hlt

/-! The joint fuel-sufficiency induction over the sixteen mutually
recursive parser functions: with no INT/FLOAT-kind token in the stream
(those panic in `parsePrimary`), fuel `10 * (toks.length - st.pos) + r`
suffices for each function, where `r` is a small per-function rank. -/

set_option maxHeartbeats 1000000 in
theorem parse_fuel_sufficient (toks : List Tok)
    (hH : ∀ t ∈ toks, t.type ≠ TokTy.intT ∧ t.type ≠ TokTy.floatT) :
    ∀ f : Nat,
    (∀ st : PState, 10 * (toks.length - st.pos) + 1 ≤ f →
      ∃ t st2, ParseType toks f st = .done t st2 ∧ st.pos ≤ st2.pos) ∧
    (∀ (syncs : List String) (st : PState), 10 * (toks.length - st.pos) + 1 ≤ f →
      ∃ st2, recoverLoopF toks syncs f st = some st2 ∧ st.pos ≤ st2.pos) ∧
    (∀ st : PState, 10 * (toks.length - st.pos) + 1 ≤ f →
      ∃ st2, argSkipF toks f st = some st2 ∧ st.pos ≤ st2.pos) ∧
    (∀ st : PState, 10 * (toks.length - st.pos) + 1 ≤ f →
      ∃ st2, skipAttrsF toks f st = some st2 ∧ st.pos ≤ st2.pos) ∧
    (∀ st : PState, 10 * (toks.length - st.pos) + 2 ≤ f →
      ∃ r st2, parsePrimary toks f st = .done r st2 ∧ st.pos ≤ st2.pos ∧
        (isEOFT toks st = false → st.pos < st2.pos)) ∧
    (∀ st : PState, 10 * (toks.length - st.pos) + 3 ≤ f →
      ∃ r st2, parseUnary toks f st = .done r st2 ∧ st.pos ≤ st2.pos ∧
        (isEOFT toks st = false → st.pos < st2.pos)) ∧
    (∀ (e : Option Ast.Expr) (st : PState), 10 * (toks.length - st.pos) + 4 ≤ f →
      ∃ r st2, parseBinLoop toks f e st = .done r st2 ∧ st.pos ≤ st2.pos) ∧
    (∀ st : PState, 10 * (toks.length - st.pos) + 5 ≤ f →
      ∃ r st2, ParseExpr toks f st = .done r st2 ∧ st.pos ≤ st2.pos ∧
        (isEOFT toks st = false → st.pos < st2.pos)) ∧
    (∀ (args : List Ast.Expr) (st : PState), 10 * (toks.length - st.pos) + 6 ≤ f →
      ∃ r st2, parseArgsLoop toks f args st = .done r st2 ∧ st.pos ≤ st2.pos) ∧
    (∀ st : PState, 10 * (toks.length - st.pos) + 6 ≤ f →
      ∃ r st2, ParseStmt toks f st = .done r st2 ∧ st.pos ≤ st2.pos ∧
        (isEOFT toks st = false → st.pos < st2.pos)) ∧
    (∀ (stmts : List Ast.Stmt) (st : PState), 10 * (toks.length - st.pos) + 7 ≤ f →
      ∃ r st2, parseBlockLoop toks f stmts st = .done r st2 ∧ st.pos ≤ st2.pos) ∧
    (∀ st : PState,
      10 * (toks.length - st.pos) +
        (if (peekT toks st).type = TokTy.punct ∧ (peekT toks st).literal = "\x7b"
          then 1 else 8) ≤ f →
      ∃ b st2, ParseBlock toks f st = .done b st2 ∧ st.pos ≤ st2.pos ∧
        ((peekT toks st).type = TokTy.punct ∧ (peekT toks st).literal = "\x7b" →
          st.pos < st2.pos)) ∧
    (∀ (ps : List Ast.Param) (st : PState), 10 * (toks.length - st.pos) + 2 ≤ f →
      ∃ r st2, parseParamsLoop toks f ps st = .done r st2 ∧ st.pos ≤ st2.pos) ∧
    (∀ (fs : List Ast.Field) (st : PState), 10 * (toks.length - st.pos) + 2 ≤ f →
      ∃ r st2, parseFieldsLoop toks f fs st = .done r st2 ∧ st.pos ≤ st2.pos) ∧
    (∀ st : PState, 10 * (toks.length - st.pos) + 2 ≤ f →
      ∃ r st2, ParseItem toks f st = .done r st2 ∧ st.pos ≤ st2.pos ∧
        (r.isSome = true → st.pos < st2.pos)) ∧
    (∀ (items : List Ast.Item) (st : PState), 10 * (toks.length - st.pos) + 3 ≤ f →
      ∃ r st2, parseCrateLoop toks f items st = .done r st2 ∧ st.pos ≤ st2.pos) := by
  intro f
  induction f with
  | zero =>
    exact ⟨fun st h => absurd h (by omega),
      fun syncs st h => absurd h (by omega),
      fun st h => absurd h (by omega),
      fun st h => absurd h (by omega),
      fun st h => absurd h (by omega),
      fun st h => absurd h (by omega),
      fun e st h => absurd h (by omega),
      fun st h => absurd h (by omega),
      fun args st h => absurd h (by omega),
      fun st h => absurd h (by omega),
      fun stmts st h => absurd h (by omega),
      fun st h => absurd h (by split_ifs <;> omega),
      fun ps st h => absurd h (by omega),
      fun fs st h => absurd h (by omega),
      fun st h => absurd h (by omega),
      fun items st h => absurd h (by omega)⟩
  | succ f ih =>
    obtain ⟨ihT, ihRec, ihSkip, ihAttrs, ihPrim, ihU, ihBin, ihE, ihArgs,
      ihS, ihBL, ihB, ihP, ihF, ihI, ihC⟩ := ih
    refine ⟨?_, ?_, ?_, ?_, ?_, ?_, ?_, ?_, ?_, ?_, ?_, ?_, ?_, ?_, ?_, ?_⟩
    · -- ParseType
      intro st hf
      simp only [ParseType]
      by_cases hamp : (peekT toks st).literal = "&"
      · have hlt : st.pos < toks.length :=
          peekT_lit_lt toks st "&" hamp (by decide)
        have hsk : (skipT toks st).pos = st.pos + 1 := skipT_pos_lt toks st hlt
        obtain ⟨t, st2, heq, hm⟩ := ihT (skipT toks st) (by omega)
        exact ⟨t, st2, by rw [if_pos hamp]; exact heq, by omega⟩
      · exact ⟨_, _, by rw [if_neg hamp], expect_pos_ge toks st .ident "" "type"⟩
    · -- recoverLoopF
      intro syncs st hf
      simp only [recoverLoopF]
      split_ifs with h1 h2 h3
      · exact ⟨st, rfl, le_refl _⟩
      · exact ⟨st, rfl, le_refl _⟩
      · exact ⟨skipT toks st, rfl, skipT_pos_ge toks st⟩
      · have hlt : st.pos < toks.length :=
          isEOFT_false_lt toks st (by simpa using h1)
        have hsk : (skipT toks st).pos = st.pos + 1 := skipT_pos_lt toks st hlt
        obtain ⟨st2, heq, hm⟩ := ihRec syncs (skipT toks st) (by omega)
        exact ⟨st2, heq, by omega⟩
    · -- argSkipF
      intro st hf
      simp only [argSkipF]
      split_ifs with h1
      · simp only [Bool.and_eq_true, decide_eq_true_eq, Bool.not_eq_true] at h1
        have hlt : st.pos < toks.length := isEOFT_false_lt toks st h1.1
        have hsk : (skipT toks st).pos = st.pos + 1 := skipT_pos_lt toks st hlt
        obtain ⟨st2, heq, hm⟩ := ihSkip (skipT toks st) (by omega)
        exact ⟨st2, heq, by omega⟩
      · exact ⟨st, rfl, le_refl _⟩
    · -- skipAttrsF
      intro st hf
      simp only [skipAttrsF]
      split_ifs with h1
      · have hlt : st.pos < toks.length := peekT_type_lt toks st .attrT h1 (by decide)
        have hsk : (skipT toks st).pos = st.pos + 1 := skipT_pos_lt toks st hlt
        obtain ⟨st2, heq, hm⟩ := ihAttrs (skipT toks st) (by omega)
        exact ⟨st2, heq, by omega⟩
      · exact ⟨st, rfl, le_refl _⟩
    · -- parsePrimary
      intro st hf
      cases htok : (peekT toks st).type with
      | ty =>
        have hlt := peekT_type_lt toks st .ty htok (by decide)
        have hsk := skipT_pos_lt toks st hlt
        simp only [parsePrimary, htok]
        exact ⟨_, _, rfl, by omega, fun _ => by omega⟩
      | charT =>
        have hlt := peekT_type_lt toks st .charT htok (by decide)
        have hsk := skipT_pos_lt toks st hlt
        simp only [parsePrimary, htok]
        exact ⟨_, _, rfl, by omega, fun _ => by omega⟩
      | intT => exact absurd htok (peekT_safe toks st hH).1
      | floatT => exact absurd htok (peekT_safe toks st hH).2
      | stringT =>
        have hlt := peekT_type_lt toks st .stringT htok (by decide)
        have hsk := skipT_pos_lt toks st hlt
        simp only [parsePrimary, htok]
        exact ⟨_, _, rfl, by omega, fun _ => by omega⟩
      | keyword =>
        have hlt := peekT_type_lt toks st .keyword htok (by decide)
        have hsk := skipT_pos_lt toks st hlt
        have hske : (skipT toks
            (perror st "expected primary expression" (peekT toks st))).pos =
            st.pos + 1 := by
          rw [skipT_pos_lt _ _ (by rw [perror_pos]; exact hlt), perror_pos]
        simp only [parsePrimary, htok]
        split_ifs with hb
        · exact ⟨_, _, rfl, by omega, fun _ => by omega⟩
        · exact ⟨_, _, rfl, by omega, fun _ => by omega⟩
      | ident =>
        have hlt := peekT_type_lt toks st .ident htok (by decide)
        have h1 : (nextT toks st).2.pos = st.pos + 1 := skipT_pos_lt toks st hlt
        simp only [parsePrimary, htok]
        have hB : st.pos + 1 ≤
            (if (peekT toks (nextT toks st).2).literal = "!" then
              skipT toks (nextT toks st).2 else (nextT toks st).2).pos := by
          split_ifs
          · have := skipT_pos_ge toks (nextT toks st).2
            omega
          · omega
        set stB := (if (peekT toks (nextT toks st).2).literal = "!" then
          skipT toks (nextT toks st).2 else (nextT toks st).2) with hstB
        split_ifs with hparen hclose
        · simp only [Bool.and_eq_true, decide_eq_true_eq] at hparen hclose
          have hltB : stB.pos < toks.length :=
            peekT_lit_lt toks stB "(" hparen.2 (by decide)
          have hsk3 : (skipT toks stB).pos = stB.pos + 1 := skipT_pos_lt toks stB hltB
          have hlt3 : (skipT toks stB).pos < toks.length :=
            peekT_lit_lt toks (skipT toks stB) ")" hclose.2 (by decide)
          have hsk4 := skipT_pos_lt toks (skipT toks stB) hlt3
          exact ⟨_, _, rfl, by omega, fun _ => by omega⟩
        · simp only [Bool.and_eq_true, decide_eq_true_eq] at hparen
          have hltB : stB.pos < toks.length :=
            peekT_lit_lt toks stB "(" hparen.2 (by decide)
          have hsk3 : (skipT toks stB).pos = stB.pos + 1 := skipT_pos_lt toks stB hltB
          obtain ⟨args, st4, hargs, hm4⟩ := ihArgs [] (skipT toks stB) (by omega)
          rw [hargs]
          have hex := expect_pos_ge toks st4 .punct ")" ")"
          exact ⟨_, _, rfl, by omega, fun _ => by omega⟩
        · exact ⟨_, _, rfl, by omega, fun _ => by omega⟩
      | punct =>
        have hlt := peekT_type_lt toks st .punct htok (by decide)
        simp only [parsePrimary, htok]
        split_ifs with hbrace hpar
        · obtain ⟨b, st2, hb, hm, hstrict⟩ :=
            ihB st (by rw [if_pos ⟨htok, hbrace⟩]; omega)
          rw [hb]
          exact ⟨_, _, rfl, hm, fun _ => hstrict ⟨htok, hbrace⟩⟩
        · have hsk := skipT_pos_lt toks st hlt
          obtain ⟨inner, st2, hin, hm, hstrict⟩ := ihE (skipT toks st) (by omega)
          rw [hin]
          have hex := expect_pos_ge toks st2 .punct ")" ")"
          exact ⟨_, _, rfl, by omega, fun _ => by omega⟩
        · have hske : (skipT toks
              (perror st "expected primary expression" (peekT toks st))).pos =
              st.pos + 1 := by
            rw [skipT_pos_lt _ _ (by rw [perror_pos]; exact hlt), perror_pos]
          exact ⟨_, _, rfl, by omega, fun _ => by omega⟩
      | eof =>
        simp only [parsePrimary, htok]
        refine ⟨_, _, rfl,
          skipT_pos_ge toks (perror st "expected primary expression" (peekT toks st)),
          fun hne => ?_⟩
        rw [isEOFT, htok] at hne
        simp at hne
      | lifetime =>
        have hlt := peekT_type_lt toks st .lifetime htok (by decide)
        simp only [parsePrimary, htok]
        have hske : (skipT toks
            (perror st "expected primary expression" (peekT toks st))).pos =
            st.pos + 1 := by
          rw [skipT_pos_lt _ _ (by rw [perror_pos]; exact hlt), perror_pos]
        exact ⟨_, _, rfl, by omega, fun _ => by omega⟩
      | op =>
        have hlt := peekT_type_lt toks st .op htok (by decide)
        simp only [parsePrimary, htok]
        have hske : (skipT toks
            (perror st "expected primary expression" (peekT toks st))).pos =
            st.pos + 1 := by
          rw [skipT_pos_lt _ _ (by rw [perror_pos]; exact hlt), perror_pos]
        exact ⟨_, _, rfl, by omega, fun _ => by omega⟩
      | attrT =>
        have hlt := peekT_type_lt toks st .attrT htok (by decide)
        simp only [parsePrimary, htok]
        have hske : (skipT toks
            (perror st "expected primary expression" (peekT toks st))).pos =
            st.pos + 1 := by
          rw [skipT_pos_lt _ _ (by rw [perror_pos]; exact hlt), perror_pos]
        exact ⟨_, _, rfl, by omega, fun _ => by omega⟩
      | term =>
        have hlt := peekT_type_lt toks st .term htok (by decide)
        simp only [parsePrimary, htok]
        have hske : (skipT toks
            (perror st "expected primary expression" (peekT toks st))).pos =
            st.pos + 1 := by
          rw [skipT_pos_lt _ _ (by rw [perror_pos]; exact hlt), perror_pos]
        exact ⟨_, _, rfl, by omega, fun _ => by omega⟩
      | illegal =>
        have hlt := peekT_type_lt toks st .illegal htok (by decide)
        simp only [parsePrimary, htok]
        have hske : (skipT toks
            (perror st "expected primary expression" (peekT toks st))).pos =
            st.pos + 1 := by
          rw [skipT_pos_lt _ _ (by rw [perror_pos]; exact hlt), perror_pos]
        exact ⟨_, _, rfl, by omega, fun _ => by omega⟩
    · -- parseUnary
      intro st hf
      simp only [parseUnary]
      split_ifs with hop
      · simp only [Bool.and_eq_true, decide_eq_true_eq, Bool.or_eq_true] at hop
        have hlt : st.pos < toks.length := peekT_type_lt toks st .op hop.1 (by decide)
        have hsk := skipT_pos_lt toks st hlt
        obtain ⟨r, st2, heq, hm, _⟩ := ihPrim (skipT toks st) (by omega)
        cases r with
        | none =>
          rw [heq]
          exact ⟨_, _, rfl, by omega, fun _ => by omega⟩
        | some e =>
          rw [heq]
          exact ⟨_, _, rfl, by omega, fun _ => by omega⟩
      · exact ihPrim st (by omega)
    · -- parseBinLoop
      intro e st hf
      cases e with
      | none =>
        simp only [parseBinLoop]
        exact ⟨_, _, rfl, le_refl _⟩
      | some e =>
        simp only [parseBinLoop]
        split_ifs with h1 h2
        · have h2' : binOps.contains (peekT toks st).literal = true := h2
          have hne : (peekT toks st).literal ≠ "" := fun h0 => by
            rw [h0] at h2'
            exact absurd h2' (by decide)
          have hlt := peekT_lit_lt toks st (peekT toks st).literal rfl hne
          have hsk := skipT_pos_lt toks st hlt
          obtain ⟨r, st2, heq, hm, _⟩ := ihU (skipT toks st) (by omega)
          cases r with
          | none =>
            simp only [heq]
            exact ⟨_, _, rfl, by rw [perror_pos]; omega⟩
          | some r =>
            simp only [heq]
            obtain ⟨r2, st3, heq2, hm2⟩ :=
              ihBin (some (.binary e.pos e (peekT toks st).literal r)) st2 (by omega)
            exact ⟨r2, st3, heq2, by omega⟩
        · exact ⟨_, _, rfl, le_refl _⟩
        · exact ⟨_, _, rfl, le_refl _⟩
    · -- ParseExpr
      intro st hf
      simp only [ParseExpr]
      obtain ⟨e, st2, heq, hm, hstrict⟩ := ihU st (by omega)
      rw [heq]
      obtain ⟨r, st3, heq2, hm2⟩ := ihBin e st2 (by omega)
      exact ⟨r, st3, heq2, by omega, fun hne => by have := hstrict hne; omega⟩
    · -- parseArgsLoop
      intro args st hf
      simp only [parseArgsLoop]
      obtain ⟨argOpt, st1, heq, hm1, _⟩ := ihE st (by omega)
      cases argOpt with
      | some a =>
        simp only [heq]
        split_ifs with hcomma
        · have hlt1 := peekT_lit_lt toks st1 "," hcomma (by decide)
          have hsk1 := skipT_pos_lt toks st1 hlt1
          obtain ⟨r, st2, heq2, hm2⟩ := ihArgs (args ++ [a]) (skipT toks st1) (by omega)
          exact ⟨r, st2, heq2, by omega⟩
        · exact ⟨_, _, rfl, by omega⟩
      | none =>
        simp only [heq]
        obtain ⟨st2, heqS, hm2⟩ := ihSkip st1 (by omega)
        simp only [heqS]
        split_ifs with hcomma
        · have hlt2 := peekT_lit_lt toks st2 "," hcomma (by decide)
          have hsk2 := skipT_pos_lt toks st2 hlt2
          obtain ⟨r, st3, heq3, hm3⟩ := ihArgs args (skipT toks st2) (by omega)
          exact ⟨r, st3, heq3, by omega⟩
        · exact ⟨_, _, rfl, by omega⟩
    · -- ParseStmt
      intro st hf
      simp only [ParseStmt]
      by_cases hlet : (peekT toks st).literal = "let"
      · simp only [if_pos hlet]
        have hlt : st.pos < toks.length := peekT_lit_lt toks st "let" hlet (by decide)
        have hsk : (skipT toks st).pos = st.pos + 1 := skipT_pos_lt toks st hlt
        have hname := expect_pos_ge toks (skipT toks st) .ident "" "let binding name"
        set st1 := (expect toks (skipT toks st) .ident "" "let binding name").2 with hst1
        by_cases hcolon : (peekT toks st1).literal = ":"
        · simp only [if_pos hcolon]
          have hltc : st1.pos < toks.length := peekT_lit_lt toks st1 ":" hcolon (by decide)
          have hskc : (skipT toks st1).pos = st1.pos + 1 := skipT_pos_lt toks st1 hltc
          obtain ⟨t, st2, heqT, hmT⟩ := ihT (skipT toks st1) (by omega)
          simp only [heqT]
          have heqq := expect_pos_ge toks st2 .op "=" "="
          by_cases heof : (expect toks st2 .op "=" "=").1.type = TokTy.eof
          · simp only [if_pos heof]
            exact ⟨_, _, rfl, by omega, fun _ => by omega⟩
          · simp only [if_neg heof]
            obtain ⟨eOpt, st3, heqE, hmE, _⟩ :=
              ihE (expect toks st2 .op "=" "=").2 (by omega)
            cases eOpt with
            | none =>
              simp only [heqE]
              exact ⟨_, _, rfl, by omega, fun _ => by omega⟩
            | some init =>
              simp only [heqE]
              have hsem := expect_pos_ge toks st3 .term ";" ";"
              by_cases heof2 : (expect toks st3 .term ";" ";").1.type = TokTy.eof
              · simp only [if_pos heof2]
                exact ⟨_, _, rfl, by omega, fun _ => by omega⟩
              · simp only [if_neg heof2]
                exact ⟨_, _, rfl, by omega, fun _ => by omega⟩
        · simp only [if_neg hcolon]
          have heqq := expect_pos_ge toks st1 .op "=" "="
          by_cases heof : (expect toks st1 .op "=" "=").1.type = TokTy.eof
          · simp only [if_pos heof]
            exact ⟨_, _, rfl, by omega, fun _ => by omega⟩
          · simp only [if_neg heof]
            obtain ⟨eOpt, st3, heqE, hmE, _⟩ :=
              ihE (expect toks st1 .op "=" "=").2 (by omega)
            cases eOpt with
            | none =>
              simp only [heqE]
              exact ⟨_, _, rfl, by omega, fun _ => by omega⟩
            | some init =>
              simp only [heqE]
              have hsem := expect_pos_ge toks st3 .term ";" ";"
              by_cases heof2 : (expect toks st3 .term ";" ";").1.type = TokTy.eof
              · simp only [if_pos heof2]
                exact ⟨_, _, rfl, by omega, fun _ => by omega⟩
              · simp only [if_neg heof2]
                exact ⟨_, _, rfl, by omega, fun _ => by omega⟩
      · simp only [if_neg hlet]
        obtain ⟨eOpt, st2, heqE, hmE, hstrict⟩ := ihE st (by omega)
        cases eOpt with
        | none =>
          simp only [heqE]
          exact ⟨_, _, rfl, by omega, fun hne => hstrict hne⟩
        | some e =>
          simp only [heqE]
          split_ifs with hterm hbrace
          · have hlt2 := peekT_type_lt toks st2 .term hterm (by decide)
            have hsk2 := skipT_pos_lt toks st2 hlt2
            exact ⟨_, _, rfl, by omega, fun hne => by have := hstrict hne; omega⟩
          · exact ⟨_, _, rfl, by omega, fun hne => hstrict hne⟩
          · exact ⟨_, _, rfl, by rw [perror_pos]; omega,
              fun hne => by rw [perror_pos]; exact hstrict hne⟩
    · -- parseBlockLoop
      intro stmts st hf
      simp only [parseBlockLoop]
      split_ifs with h1
      · simp only [Bool.and_eq_true, decide_eq_true_eq, Bool.not_eq_true,
          ne_eq] at h1
        have hlt : st.pos < toks.length := isEOFT_false_lt toks st h1.1
        obtain ⟨sOpt, st2, heqS, hmS, hstrict⟩ := ihS st (by omega)
        have hstr2 := hstrict h1.1
        cases sOpt with
        | some s =>
          simp only [heqS]
          obtain ⟨r, st3, heq3, hm3⟩ := ihBL (stmts ++ [s]) st2 (by omega)
          exact ⟨r, st3, heq3, by omega⟩
        | none =>
          simp only [heqS]
          have hrec : ∃ st4, recoverF toks [";"] f st2 = some st4 ∧
              st2.pos ≤ st4.pos := by
            unfold recoverF
            split_ifs with herrs
            · exact ⟨st2, rfl, le_refl _⟩
            · exact ihRec [";"] st2 (by omega)
          obtain ⟨st4, hrec, hm4⟩ := hrec
          simp only [hrec]
          obtain ⟨r, st5, heq5, hm5⟩ := ihBL stmts st4 (by omega)
          exact ⟨r, st5, heq5, by omega⟩
      · exact ⟨_, _, rfl, le_refl _⟩
    · -- ParseBlock
      intro st hf
      simp only [ParseBlock]
      by_cases hbrace : (peekT toks st).type = TokTy.punct ∧
          (peekT toks st).literal = "\x7b"
      · rw [if_pos hbrace] at hf
        have hopen : (expect toks st .punct "\x7b" "\x7b").2.pos = st.pos + 1 :=
          expect_match_pos toks st .punct "\x7b" "\x7b" hbrace.1 (by decide) hbrace.2
        have hlt : st.pos < toks.length := peekT_type_lt toks st .punct hbrace.1 (by decide)
        obtain ⟨stmts, st2, heqL, hmL⟩ :=
          ihBL [] (expect toks st .punct "\x7b" "\x7b").2 (by omega)
        simp only [heqL]
        have hclose := expect_pos_ge toks st2 .punct "\x7d" "\x7d"
        exact ⟨_, _, rfl, by omega, fun _ => by omega⟩
      · rw [if_neg hbrace] at hf
        have hopen := expect_pos_ge toks st .punct "\x7b" "\x7b"
        obtain ⟨stmts, st2, heqL, hmL⟩ :=
          ihBL [] (expect toks st .punct "\x7b" "\x7b").2 (by omega)
        simp only [heqL]
        have hclose := expect_pos_ge toks st2 .punct "\x7d" "\x7d"
        exact ⟨_, _, rfl, by omega, fun hb => absurd hb hbrace⟩
    · -- parseParamsLoop
      intro ps st hf
      simp only [parseParamsLoop]
      split_ifs with h1
      · have hname := expect_pos_ge toks st .ident "" "param name"
        have hcolon := expect_pos_ge toks
          (expect toks st .ident "" "param name").2 .punct ":" ":"
        obtain ⟨t, st2, heqT, hmT⟩ := ihT
          (expect toks (expect toks st .ident "" "param name").2 .punct ":" ":").2
          (by omega)
        simp only [heqT]
        split_ifs with hcomma
        · have hltc := peekT_lit_lt toks st2 "," hcomma (by decide)
          have hskc := skipT_pos_lt toks st2 hltc
          obtain ⟨r, st3, heq3, hm3⟩ := ihP
            (ps ++ [⟨(expect toks st .ident "" "param name").1.pos,
              (expect toks st .ident "" "param name").1.literal, t⟩])
            (skipT toks st2) (by omega)
          exact ⟨r, st3, heq3, by omega⟩
        · exact ⟨_, _, rfl, by omega⟩
      · exact ⟨_, _, rfl, le_refl _⟩
    · -- parseFieldsLoop
      intro fs st hf
      simp only [parseFieldsLoop]
      split_ifs with h1
      · have hname := expect_pos_ge toks st .ident "" "field name"
        have hcolon := expect_pos_ge toks
          (expect toks st .ident "" "field name").2 .punct ":" ":"
        obtain ⟨t, st2, heqT, hmT⟩ := ihT
          (expect toks (expect toks st .ident "" "field name").2 .punct ":" ":").2
          (by omega)
        simp only [heqT]
        split_ifs with hcomma
        · have hltc := peekT_lit_lt toks st2 "," hcomma (by decide)
          have hskc := skipT_pos_lt toks st2 hltc
          obtain ⟨r, st3, heq3, hm3⟩ := ihF
            (fs ++ [⟨(expect toks st .ident "" "field name").1.pos,
              (expect toks st .ident "" "field name").1.literal, t⟩])
            (skipT toks st2) (by omega)
          exact ⟨r, st3, heq3, by omega⟩
        · exact ⟨_, _, rfl, by omega⟩
      · exact ⟨_, _, rfl, le_refl _⟩
    · -- ParseItem
      intro st hf
      simp only [ParseItem]
      obtain ⟨st0, heqA, hmA⟩ := ihAttrs st (by omega)
      simp only [heqA]
      split_ifs with hfn hstruct
      · simp only [Bool.and_eq_true, decide_eq_true_eq] at hfn
        have hlt0 : st0.pos < toks.length :=
          peekT_type_lt toks st0 .keyword hfn.1 (by decide)
        have hsk1 : (skipT toks st0).pos = st0.pos + 1 := skipT_pos_lt toks st0 hlt0
        have hname := expect_pos_ge toks (skipT toks st0) .ident "" "identifier after fn"
        have hparen := expect_pos_ge toks
          (expect toks (skipT toks st0) .ident "" "identifier after fn").2 .punct "(" "("
        obtain ⟨params, st2, heqP, hmP⟩ := ihP []
          (expect toks (expect toks (skipT toks st0) .ident "" "identifier after fn").2
            .punct "(" "(").2 (by omega)
        simp only [heqP]
        have hclose := expect_pos_ge toks st2 .punct ")" ")"
        by_cases harrow : (peekT toks (expect toks st2 .punct ")" ")").2).literal = "->"
        · simp only [if_pos harrow]
          have hlta := peekT_lit_lt toks
            (expect toks st2 .punct ")" ")").2 "->" harrow (by decide)
          have hska := skipT_pos_lt toks (expect toks st2 .punct ")" ")").2 hlta
          obtain ⟨retTy, st3, heqT, hmT⟩ := ihT
            (skipT toks (expect toks st2 .punct ")" ")").2) (by omega)
          simp only [heqT]
          obtain ⟨body, st4, heqB, hmB, _⟩ := ihB st3 (by
            have hif : (if (peekT toks st3).type = TokTy.punct ∧
                (peekT toks st3).literal = "\x7b" then 1 else 8) ≤ 8 := by
              split_ifs <;> omega
            omega)
          simp only [heqB]
          exact ⟨_, _, rfl, by omega, fun _ => by omega⟩
        · simp only [if_neg harrow]
          obtain ⟨body, st4, heqB, hmB, _⟩ := ihB (expect toks st2 .punct ")" ")").2 (by
            have hif : (if (peekT toks (expect toks st2 .punct ")" ")").2).type =
                TokTy.punct ∧
                (peekT toks (expect toks st2 .punct ")" ")").2).literal = "\x7b"
                then 1 else 8) ≤ 8 := by
              split_ifs <;> omega
            omega)
          simp only [heqB]
          exact ⟨_, _, rfl, by omega, fun _ => by omega⟩
      · simp only [Bool.and_eq_true, decide_eq_true_eq] at hstruct
        have hlt0 : st0.pos < toks.length :=
          peekT_type_lt toks st0 .keyword hstruct.1 (by decide)
        have hsk1 := skipT_pos_lt toks st0 hlt0
        have hname := expect_pos_ge toks (skipT toks st0) .ident "" "struct name"
        have hopen := expect_pos_ge toks
          (expect toks (skipT toks st0) .ident "" "struct name").2 .punct "\x7b" "\x7b"
        obtain ⟨fields, st2, heqF, hmF⟩ := ihF []
          (expect toks (expect toks (skipT toks st0) .ident "" "struct name").2
            .punct "\x7b" "\x7b").2 (by omega)
        simp only [heqF]
        have hclose := expect_pos_ge toks st2 .punct "\x7d" "\x7d"
        exact ⟨_, _, rfl, by omega, fun _ => by omega⟩
      · exact ⟨_, _, rfl, by rw [perror_pos]; omega,
          fun hsome => absurd hsome (by decide)⟩
    · -- parseCrateLoop
      intro items st hf
      simp only [parseCrateLoop]
      split_ifs with h1
      · exact ⟨_, _, rfl, le_refl _⟩
      · have hlt : st.pos < toks.length := isEOFT_false_lt toks st (by simpa using h1)
        obtain ⟨iOpt, st2, heqI, hmI, hstrict⟩ := ihI st (by omega)
        cases iOpt with
        | some i =>
          simp only [heqI]
          have hstr := hstrict rfl
          obtain ⟨r, st3, heq3, hm3⟩ := ihC (items ++ [i]) st2 (by omega)
          exact ⟨r, st3, heq3, by omega⟩
        | none =>
          simp only [heqI]
          by_cases h2 : isEOFT toks st2 = true
          · simp only [if_pos h2]
            exact ⟨_, _, rfl, by omega⟩
          · simp only [if_neg h2]
            have hlt2 : st2.pos < toks.length :=
              isEOFT_false_lt toks st2 (by simpa using h2)
            have hsk2 := skipT_pos_lt toks st2 hlt2
            obtain ⟨r, st3, heq3, hm3⟩ := ihC items (skipT toks st2) (by omega)
            exact ⟨r, st3, heq3, by omega⟩

/-- C7 (amended): on any finite token list containing no INT- or
FLOAT-kind tokens (the lexer never emits these kinds), `ParseFile`
returns a crate in finite time: fuel `10 * n + 3` suffices. -/
theorem C7_parser_terminates (toks : List Tok)
    (hH : ∀ t ∈ toks, t.type ≠ TokTy.intT ∧ t.type ≠ TokTy.floatT) :
    ∃ crate st, ParseFile toks (10 * toks.length + 3) = POut.done crate st := by
  obtain ⟨-, -, -, -, -, -, -, -, -, -, -, -, -, -, -, hC⟩ :=
    parse_fuel_sufficient toks hH (10 * toks.length + 3)
  have h0 : ({} : PState).pos = 0 := rfl
  obtain ⟨items, st2, heq, -⟩ := hC [] {} (by rw [h0]; omega)
  unfold ParseFile ParseCrate
  rw [heq]
  exact ⟨_, _, rfl⟩

theorem C7_witness :
    (∀ t ∈ c1toks, t.type ≠ TokTy.intT ∧ t.type ≠ TokTy.floatT) ∧
    ∃ crate st, ParseFile c1toks (10 * c1toks.length + 3) = POut.done crate st :=
  ⟨by decide, C7_parser_terminates c1toks (by decide)⟩

end Rust2Go

namespace Rust2Go

theorem nextT_fst (toks : List Tok) (st : PState) (h : st.pos < toks.length) :
    (nextT toks st).1 = peekT toks st := by
  unfold nextT peekT
  rw [if_neg (by omega)]

/-- C3 (amended): parser nodes carry the position of their first token
for primaries not introduced by `(` and for `let` statements; the
synthetic `infer` path type of an unannotated `let`, however, is built
with the zero position `(0, 0)` rather than any token's position. -/
theorem C3_node_positions (toks : List Tok) (f : Nat) (st : PState) :
    (∀ e st2, parsePrimary toks (f + 1) st = .done (some e) st2 →
      (peekT toks st).literal ≠ "(" → e.pos = (peekT toks st).pos) ∧
    (∀ s st2, ParseStmt toks (f + 1) st = .done (some s) st2 →
      (peekT toks st).literal = "let" → s.pos = (peekT toks st).pos) ∧
    (∀ s st2, ParseStmt toks (f + 1) st = .done (some s) st2 →
      (peekT toks st).literal = "let" →
      (peekT toks (expect toks (skipT toks st) .ident ""
        "let binding name").2).literal ≠ ":" →
      ∃ n init, s = .letS (peekT toks st).pos n
        (some (.pathType ⟨0, 0⟩ "infer")) init) := by
  refine ⟨?_, ?_, ?_⟩
  · intro e st2 heq hnp
    cases htok : (peekT toks st).type with
    | ty =>
      simp only [parsePrimary, htok, POut.done.injEq, Option.some.injEq] at heq
      obtain ⟨rfl, -⟩ := heq
      rfl
    | charT =>
      simp only [parsePrimary, htok, POut.done.injEq, Option.some.injEq] at heq
      obtain ⟨rfl, -⟩ := heq
      rfl
    | stringT =>
      simp only [parsePrimary, htok, POut.done.injEq, Option.some.injEq] at heq
      obtain ⟨rfl, -⟩ := heq
      rfl
    | intT =>
      simp only [parsePrimary, htok] at heq
      exact POut.noConfusion heq
    | floatT =>
      simp only [parsePrimary, htok] at heq
      exact POut.noConfusion heq
    | keyword =>
      simp only [parsePrimary, htok] at heq
      split_ifs at heq with hb
      · simp only [POut.done.injEq, Option.some.injEq] at heq
        obtain ⟨rfl, -⟩ := heq
        rfl
      · simp at heq
    | ident =>
      have hlt := peekT_type_lt toks st .ident htok (by decide)
      simp only [parsePrimary, htok] at heq
      split_ifs at heq with hbang hparen hclose hparen2 hclose2
      · simp only [POut.done.injEq, Option.some.injEq] at heq
        obtain ⟨rfl, -⟩ := heq
        simp only [Ast.Expr.pos]
        rw [nextT_fst toks st hlt]
      · rcases hA : parseArgsLoop toks f []
            (skipT toks (skipT toks (nextT toks st).2)) with _ | _ | ⟨args, st4⟩
        · simp [hA] at heq
        · simp [hA] at heq
        · simp only [hA, POut.done.injEq, Option.some.injEq] at heq
          obtain ⟨rfl, -⟩ := heq
          simp only [Ast.Expr.pos]
          rw [nextT_fst toks st hlt]
      · simp only [POut.done.injEq, Option.some.injEq] at heq
        obtain ⟨rfl, -⟩ := heq
        simp only [Ast.Expr.pos]
        rw [nextT_fst toks st hlt]
      · simp only [POut.done.injEq, Option.some.injEq] at heq
        obtain ⟨rfl, -⟩ := heq
        simp only [Ast.Expr.pos]
        rw [nextT_fst toks st hlt]
      · rcases hA : parseArgsLoop toks f []
            (skipT toks (nextT toks st).2) with _ | _ | ⟨args, st4⟩
        · simp [hA] at heq
        · simp [hA] at heq
        · simp only [hA, POut.done.injEq, Option.some.injEq] at heq
          obtain ⟨rfl, -⟩ := heq
          simp only [Ast.Expr.pos]
          rw [nextT_fst toks st hlt]
      · simp only [POut.done.injEq, Option.some.injEq] at heq
        obtain ⟨rfl, -⟩ := heq
        simp only [Ast.Expr.pos]
        rw [nextT_fst toks st hlt]
    | punct =>
      simp only [parsePrimary, htok] at heq
      split_ifs at heq with hbrace
      · rcases hB2 : ParseBlock toks f st with _ | _ | ⟨b, stx⟩
        · simp [hB2] at heq
        · simp [hB2] at heq
        · simp only [hB2, POut.done.injEq, Option.some.injEq] at heq
          obtain ⟨rfl, -⟩ := heq
          rfl
      · simp at heq
    | eof => simp only [parsePrimary, htok] at heq; simp at heq
    | lifetime => simp only [parsePrimary, htok] at heq; simp at heq
    | op => simp only [parsePrimary, htok] at heq; simp at heq
    | attrT => simp only [parsePrimary, htok] at heq; simp at heq
    | term => simp only [parsePrimary, htok] at heq; simp at heq
    | illegal => simp only [parsePrimary, htok] at heq; simp at heq
  · intro s st2 heq hlet
    simp only [ParseStmt, if_pos hlet] at heq
    by_cases hcolon : (peekT toks (expect toks (skipT toks st) TokTy.ident ""
        "let binding name").2).literal = ":"
    · simp only [if_pos hcolon] at heq
      rcases hT : ParseType toks f (skipT toks (expect toks (skipT toks st)
          TokTy.ident "" "let binding name").2) with _ | _ | ⟨t, stx⟩
      · simp [hT] at heq
      · simp [hT] at heq
      · simp only [hT] at heq
        split_ifs at heq with heof
        · simp at heq
        · rcases hE : ParseExpr toks f (expect toks stx .op "=" "=").2
              with _ | _ | ⟨eo, st3⟩
          · simp [hE] at heq
          · simp [hE] at heq
          · cases eo with
            | none => simp [hE] at heq
            | some init =>
              simp only [hE] at heq
              split_ifs at heq with heof2
              · simp at heq
              · simp only [POut.done.injEq, Option.some.injEq] at heq
                obtain ⟨rfl, -⟩ := heq
                rfl
    · simp only [if_neg hcolon] at heq
      split_ifs at heq with heof
      · simp at heq
      · rcases hE : ParseExpr toks f (expect toks (expect toks (skipT toks st)
            TokTy.ident "" "let binding name").2 .op "=" "=").2
            with _ | _ | ⟨eo, st3⟩
        · simp [hE] at heq
        · simp [hE] at heq
        · cases eo with
          | none => simp [hE] at heq
          | some init =>
            simp only [hE] at heq
            split_ifs at heq with heof2
            · simp at heq
            · simp only [POut.done.injEq, Option.some.injEq] at heq
              obtain ⟨rfl, -⟩ := heq
              rfl
  · intro s st2 heq hlet hncolon
    simp only [ParseStmt, if_pos hlet, if_neg hncolon] at heq
    split_ifs at heq with heof
    · simp at heq
    · rcases hE : ParseExpr toks f (expect toks (expect toks (skipT toks st)
          TokTy.ident "" "let binding name").2 .op "=" "=").2
          with _ | _ | ⟨eo, st3⟩
      · simp [hE] at heq
      · simp [hE] at heq
      · cases eo with
        | none => simp [hE] at heq
        | some init =>
          simp only [hE] at heq
          split_ifs at heq with heof2
          · simp at heq
          · simp only [POut.done.injEq, Option.some.injEq] at heq
            obtain ⟨rfl, -⟩ := heq
            exact ⟨_, _, rfl⟩

theorem C3_witness :
    ParseStmt c3toks (20 + 1) ⟨5, []⟩ =
      .done (some (.letS ⟨1, 10⟩ "x" (some (.pathType ⟨0, 0⟩ "infer"))
        (.lit ⟨1, 18⟩ "INT" "1"))) ⟨10, []⟩ ∧
    (peekT c3toks ⟨5, []⟩).literal = "let" ∧
    ∃ n init, (Ast.Stmt.letS ⟨1, 10⟩ "x" (some (.pathType ⟨0, 0⟩ "infer"))
      (.lit ⟨1, 18⟩ "INT" "1")) = .letS (peekT c3toks ⟨5, []⟩).pos n
        (some (.pathType ⟨0, 0⟩ "infer")) init := by
  have h : ParseStmt c3toks (20 + 1) ⟨5, []⟩ =
      .done (some (.letS ⟨1, 10⟩ "x" (some (.pathType ⟨0, 0⟩ "infer"))
        (.lit ⟨1, 18⟩ "INT" "1"))) ⟨10, []⟩ := by rfl
  exact ⟨h, by decide,
    (C3_node_positions c3toks 20 ⟨5, []⟩).2.2 _ _ h (by decide) (by decide)⟩


/-! ## Lexer fatal-error characterization (C2 support) -/

theorem padT_headD (l : List Char) : (padT l).headD nulc = l.headD nulc := by
  cases l <;> rfl

theorem ch_eq_headD (s : LexSt) : s.ch = (stText s).headD nulc := rfl

theorem stText_len (s : LexSt) : (stText s).length = s.rest.length + 1 := by
  simp [stText]

theorem specSkipWS_padT (l : List Char) : specSkipWS (padT l) = specSkipWS l := by
  cases l with
  | nil => simp [padT, specSkipWS, goIsSpace, nulc]
  | cons c t => rfl

theorem specCookedCloses_padT (l : List Char) :
    specCookedCloses (padT l) = specCookedCloses l := by
  cases l with
  | nil => simp [padT, specCookedCloses]
  | cons c t => rfl

theorem specAttrUnterm_padT (d : Nat) (l : List Char) :
    specAttrUnterm d (padT l) = specAttrUnterm d l := by
  cases l with
  | nil => simp [padT, specAttrUnterm]
  | cons c t => rfl

theorem takeWhile_padT (p : Char → Bool) (hp : p nulc = false) (l : List Char) :
    (padT l).takeWhile p = l.takeWhile p := by
  cases l with
  | nil => simp [padT, hp]
  | cons c t => rfl

theorem padT_dropWhile_padT (p : Char → Bool) (hp : p nulc = false) (l : List Char) :
    padT ((padT l).dropWhile p) = padT (l.dropWhile p) := by
  cases l with
  | nil => simp [padT, hp]
  | cons c t => rfl

theorem pushTok_err (s : LexSt) (t : Tok) : (pushTok s t).err = s.err := by
  unfold pushTok
  split_ifs <;> rfl

theorem pushTok_toks_none (s : LexSt) (t : Tok) (h : s.err = none) :
    (pushTok s t).toks = s.toks ++ [t] := by
  unfold pushTok
  rw [if_pos h]

/-- `takeWhileF` with enough fuel: final text, collected prefix, and
bookkeeping fields. -/
theorem takeWhileF_spec (p : Char → Bool) (hp : p nulc = false) :
    ∀ f s, ((stText s).takeWhile p).length < f →
    stText (takeWhileF p f s).1 = padT ((stText s).dropWhile p) ∧
    (takeWhileF p f s).2 = (stText s).takeWhile p ∧
    (takeWhileF p f s).1.toks = s.toks ∧
    (takeWhileF p f s).1.err = s.err := by
  intro f
  induction f with
  | zero => intro s h; omega
  | succ f ih =>
    intro s h
    cases hc : p s.ch with
    | true =>
      have htl : (stText s).takeWhile p = s.ch :: s.rest.takeWhile p := by
        simp [stText, List.takeWhile_cons, hc]
      have hdl : (stText s).dropWhile p = s.rest.dropWhile p := by
        simp [stText, List.dropWhile_cons, hc]
      have hlen : ((stText (readChar s)).takeWhile p).length < f := by
        rw [stText_readChar, takeWhile_padT p hp]
        rw [htl] at h
        simp at h
        omega
      obtain ⟨h1, h2, h3, h4⟩ := ih (readChar s) hlen
      rw [takeWhileF, if_pos hc]
      dsimp only
      refine ⟨?_, ?_, ?_, ?_⟩
      · rw [h1, stText_readChar, padT_dropWhile_padT p hp, hdl]
      · rw [h2, stText_readChar, takeWhile_padT p hp, htl]
      · rw [h3, readChar_toks]
      · rw [h4, readChar_err]
    | false =>
      rw [takeWhileF, if_neg (by simp [hc])]
      have hdl : (stText s).dropWhile p = stText s := by
        simp [stText, List.dropWhile_cons, hc]
      have htl : (stText s).takeWhile p = [] := by
        simp [stText, List.takeWhile_cons, hc]
      exact ⟨by rw [hdl]; rfl, by rw [htl], rfl, rfl⟩


theorem takeWhileF_toks (p : Char → Bool) :
    ∀ f s, (takeWhileF p f s).1.toks = s.toks := by
  intro f
  induction f with
  | zero => intro s; rfl
  | succ f ih =>
    intro s
    rw [takeWhileF]
    split_ifs
    · dsimp only
      rw [ih (readChar s), readChar_toks]
    · rfl

theorem takeWhileF_err (p : Char → Bool) :
    ∀ f s, (takeWhileF p f s).1.err = s.err := by
  intro f
  induction f with
  | zero => intro s; rfl
  | succ f ih =>
    intro s
    rw [takeWhileF]
    split_ifs
    · dsimp only
      rw [ih (readChar s), readChar_err]
    · rfl

theorem skipWhitespaceF_spec :
    ∀ f s, ((stText s).takeWhile goIsSpace).length < f →
    stText (skipWhitespaceF f s) = specSkipWS (stText s) ∧
    (skipWhitespaceF f s).toks = s.toks ∧
    (skipWhitespaceF f s).err = s.err := by
  intro f
  induction f with
  | zero => intro s h; omega
  | succ f ih =>
    intro s h
    cases hc : goIsSpace s.ch with
    | true =>
      have hspec : specSkipWS (stText s) = specSkipWS s.rest := by
        simp [stText, specSkipWS, hc]
      have hlen : ((stText (readChar s)).takeWhile goIsSpace).length < f := by
        rw [stText_readChar, takeWhile_padT _ (by decide)]
        have ht : (stText s).takeWhile goIsSpace =
            s.ch :: s.rest.takeWhile goIsSpace := by
          simp [stText, List.takeWhile_cons, hc]
        rw [ht] at h
        simp at h
        omega
      obtain ⟨h1, h2, h3⟩ := ih (readChar s) hlen
      rw [skipWhitespaceF, if_pos hc]
      refine ⟨?_, by rw [h2, readChar_toks], by rw [h3, readChar_err]⟩
      rw [h1, stText_readChar, specSkipWS_padT, hspec]
    | false =>
      rw [skipWhitespaceF, if_neg (by simp [hc])]
      have hspec : specSkipWS (stText s) = stText s := by
        simp [stText, specSkipWS, hc]
      exact ⟨by rw [hspec], rfl, rfl⟩

theorem skipWhitespace_spec (s : LexSt) :
    stText (skipWhitespace s) = specSkipWS (stText s) ∧
    (skipWhitespace s).toks = s.toks ∧
    (skipWhitespace s).err = s.err := by
  apply skipWhitespaceF_spec
  have h1 : ((stText s).takeWhile goIsSpace).length ≤ (stText s).length :=
    List.length_le_of_sublist (List.takeWhile_sublist _)
  rw [stText_len] at h1
  unfold lfuel
  omega

theorem lineCommentF_pres : ∀ f s,
    (lineCommentF f s).toks = s.toks ∧ (lineCommentF f s).err = s.err := by
  intro f
  induction f with
  | zero => intro s; exact ⟨rfl, rfl⟩
  | succ f ih =>
    intro s
    rw [lineCommentF]
    split_ifs
    · obtain ⟨h1, h2⟩ := ih (readChar s)
      exact ⟨by rw [h1, readChar_toks], by rw [h2, readChar_err]⟩
    · exact ⟨rfl, rfl⟩

theorem blockCommentF_pres : ∀ f nest s,
    (blockCommentF f nest s).toks = s.toks ∧
    (blockCommentF f nest s).err = s.err := by
  intro f
  induction f with
  | zero => intro nest s; exact ⟨rfl, rfl⟩
  | succ f ih =>
    intro nest s
    rw [blockCommentF]
    split_ifs
    · obtain ⟨h1, h2⟩ := ih (nest + 1) (readChar (readChar s))
      exact ⟨by rw [h1, readChar_toks, readChar_toks],
        by rw [h2, readChar_err, readChar_err]⟩
    · obtain ⟨h1, h2⟩ := ih (nest - 1) (readChar (readChar s))
      exact ⟨by rw [h1, readChar_toks, readChar_toks],
        by rw [h2, readChar_err, readChar_err]⟩
    · obtain ⟨h1, h2⟩ := ih nest (readChar s)
      exact ⟨by rw [h1, readChar_toks], by rw [h2, readChar_err]⟩
    · exact ⟨rfl, rfl⟩

theorem rawStrF_pres : ∀ f hashCount s,
    (rawStrF f hashCount s).1.toks = s.toks ∧
    (rawStrF f hashCount s).1.err = s.err := by
  intro f
  induction f with
  | zero => intro hc s; exact ⟨rfl, rfl⟩
  | succ f ih =>
    intro hc s
    rw [rawStrF]
    dsimp only
    split_ifs <;>
      simp [ih, takeWhileF_toks, takeWhileF_err, readChar_toks, readChar_err]

theorem attrBodyF_zero : ∀ f s, attrBodyF f 0 s = (s, [], 0) := by
  intro f s
  cases f <;> simp [attrBodyF]

theorem attrBodyF_pres : ∀ f depth s,
    (attrBodyF f depth s).1.toks = s.toks ∧
    (attrBodyF f depth s).1.err = s.err := by
  intro f
  induction f with
  | zero => intro d s; exact ⟨rfl, rfl⟩
  | succ f ih =>
    intro d s
    rw [attrBodyF]
    dsimp only
    split_ifs <;> simp [ih, readChar_toks, readChar_err]


theorem specCC_cons_dquote (l : List Char) :
    specCookedCloses (dquote :: l) = true := by
  conv_lhs => rw [specCookedCloses.eq_def]
  dsimp only
  rw [if_neg (by decide : ¬(dquote = nulc)), if_pos rfl]

theorem specCC_cons_other (c : Char) (l : List Char) (h1 : c ≠ nulc)
    (h2 : c ≠ dquote) (h3 : c ≠ bslash) :
    specCookedCloses (c :: l) = specCookedCloses l := by
  conv_lhs => rw [specCookedCloses.eq_def]
  dsimp only
  rw [if_neg h1, if_neg h2, if_neg h3]

theorem specCC_bs_nil : specCookedCloses [bslash] = false := by decide

theorem specCC_bs_r_nil : specCookedCloses [bslash, '\r'] = false := by decide

theorem specCC_bs_rn (rs2 : List Char) :
    specCookedCloses (bslash :: '\r' :: '\n' :: rs2) = specCookedCloses rs2 := by
  conv_lhs => rw [specCookedCloses.eq_def]
  dsimp only
  rw [if_neg (by decide : ¬(bslash = nulc)),
    if_neg (by decide : ¬(bslash = dquote)), if_pos rfl, if_pos rfl, if_pos rfl]

theorem specCC_bs_r_other (e : Char) (rs2 : List Char) (he : e ≠ '\n') :
    specCookedCloses (bslash :: '\r' :: e :: rs2) =
      specCookedCloses (e :: rs2) := by
  conv_lhs => rw [specCookedCloses.eq_def]
  dsimp only
  rw [if_neg (by decide : ¬(bslash = nulc)),
    if_neg (by decide : ¬(bslash = dquote)), if_pos rfl, if_pos rfl, if_neg he]

theorem specCC_bs_other (d : Char) (rs : List Char) (hd : d ≠ '\r') :
    specCookedCloses (bslash :: d :: rs) = specCookedCloses rs := by
  conv_lhs => rw [specCookedCloses.eq_def]
  dsimp only
  rw [if_neg (by decide : ¬(bslash = nulc)),
    if_neg (by decide : ¬(bslash = dquote)), if_pos rfl, if_neg hd]

theorem cookedStrF_nulc : ∀ (f : Nat) (s : LexSt), s.ch = nulc →
    cookedStrF f s = (s, []) := by
  intro f s h
  cases f with
  | zero => rfl
  | succ f => rw [cookedStrF, if_neg (by simp [h])]

theorem readChar_ch_of_rest_nil (s : LexSt) (h : s.rest = []) :
    (readChar s).ch = nulc := by
  have h2 := stText_readChar s
  rw [h] at h2
  exact (stText_ch _ _ _ h2).1

theorem readChar_ch_of_rest_cons (s : LexSt) (c : Char) (l : List Char)
    (h : s.rest = c :: l) : (readChar s).ch = c ∧ (readChar s).rest = l := by
  have h2 := stText_readChar s
  rw [h] at h2
  exact stText_ch _ _ _ h2


theorem ovrSet_ch (s : LexSt) : ({ s with ovr := true } : LexSt).ch = s.ch := rfl

theorem ovrSet_toks (s : LexSt) :
    ({ s with ovr := true } : LexSt).toks = s.toks := rfl

theorem ovrSet_err (s : LexSt) :
    ({ s with ovr := true } : LexSt).err = s.err := rfl

/-- The cooked-string scanner closes (final rune is the quote) exactly
when the specification predicate says the literal can be closed. -/
theorem cookedStrF_spec :
    ∀ f s, s.rest.length < f →
    (((cookedStrF f s).1.ch = dquote) ↔ specCookedCloses (stText s) = true) ∧
    (cookedStrF f s).1.toks = s.toks ∧
    (cookedStrF f s).1.err = s.err := by
  intro f
  induction f with
  | zero => intro s h; omega
  | succ f ih =>
    intro s h
    by_cases hdq : s.ch = dquote
    · rw [cookedStrF, if_neg (by simp [hdq])]
      refine ⟨?_, rfl, rfl⟩
      have hs : stText s = dquote :: s.rest := by rw [stText, hdq]
      rw [hs, specCC_cons_dquote]
      simp [hdq]
    · by_cases hnl : s.ch = nulc
      · rw [cookedStrF, if_neg (by simp [hnl])]
        refine ⟨?_, rfl, rfl⟩
        have hs : stText s = nulc :: s.rest := by rw [stText, hnl]
        have hcc : specCookedCloses (nulc :: s.rest) = false := by
          conv_lhs => rw [specCookedCloses.eq_def]
          dsimp only
          rw [if_pos rfl]
        rw [hs, hcc, hnl]
        exact iff_of_false (by decide) (by decide)
      · by_cases hbs : s.ch = bslash
        · rw [cookedStrF, if_pos (by simp [hdq, hnl]), if_pos hbs]
          dsimp only
          rcases hr : s.rest with _ | ⟨d, rs⟩
          · have hch1 : (readChar s).ch = nulc := readChar_ch_of_rest_nil s hr
            rw [if_neg (by rw [hch1]; decide)]
            dsimp only
            rw [if_pos (rfl : ([] : List Char) = [])]
            have hch2 : (readChar (readChar s)).ch = nulc := by
              apply readChar_ch_of_rest_nil
              rw [readChar_rest, hr]
              rfl
            have hch2o : ({ readChar (readChar s) with ovr := true } : LexSt).ch =
                nulc := hch2
            rw [cookedStrF_nulc f _ hch2o]
            refine ⟨?_, by rw [ovrSet_toks, readChar_toks, readChar_toks],
              by rw [ovrSet_err, readChar_err, readChar_err]⟩
            have hs : stText s = [bslash] := by rw [stText, hbs, hr]
            rw [ovrSet_ch, hch2, hs, specCC_bs_nil]
            exact iff_of_false (by decide) (by decide)
          · have hc1 := readChar_ch_of_rest_cons s d rs hr
            by_cases hdr : d = '\r'
            · rcases hrs : rs with _ | ⟨e, rs2⟩
              · rw [if_pos (by rw [hc1.1, hdr]; decide)]
                have hpk : peek (readChar s) = nulc := by
                  rw [peek, hc1.2, hrs]
                  rfl
                rw [if_neg (by rw [hc1.1, hdr, hpk]; decide)]
                dsimp only
                have hch2 : (readChar (readChar s)).ch = nulc := by
                  apply readChar_ch_of_rest_nil
                  rw [readChar_rest, hr, hrs]
                  rfl
                rw [cookedStrF_nulc f _ hch2]
                refine ⟨?_, by rw [readChar_toks, readChar_toks],
                  by rw [readChar_err, readChar_err]⟩
                have hs : stText s = [bslash, '\r'] := by
                  rw [stText, hbs, hr, hrs, hdr]
                rw [hch2, hs, specCC_bs_r_nil]
                exact iff_of_false (by decide) (by decide)
              · by_cases hen : e = '\n'
                · rw [if_pos (by rw [hc1.1, hdr]; decide)]
                  have hpk : peek (readChar s) = '\n' := by
                    rw [peek, hc1.2, hrs, hen]
                    rfl
                  rw [if_pos (by rw [hc1.1, hdr, hpk]; decide)]
                  dsimp only
                  have hr2 : (readChar (readChar s)).rest = rs2 := by
                    rw [readChar_rest, hc1.2, hrs]
                    rfl
                  have hb : (readChar (readChar (readChar s))).rest.length < f := by
                    rw [readChar_rest, hr2]
                    rw [hr, hrs] at h
                    have ht := List.length_tail rs2
                    simp at h
                    omega
                  obtain ⟨h1, h2, h3⟩ := ih (readChar (readChar (readChar s))) hb
                  refine ⟨?_, by rw [h2, readChar_toks, readChar_toks, readChar_toks],
                    by rw [h3, readChar_err, readChar_err, readChar_err]⟩
                  rw [h1]
                  have hst : stText (readChar (readChar (readChar s))) = padT rs2 := by
                    rw [stText_readChar, hr2]
                  rw [hst, specCookedCloses_padT]
                  have hs : stText s = bslash :: '\r' :: '\n' :: rs2 := by
                    rw [stText, hbs, hr, hrs, hdr, hen]
                  rw [hs, specCC_bs_rn]
                · rw [if_pos (by rw [hc1.1, hdr]; decide)]
                  have hpk : peek (readChar s) = e := by
                    rw [peek, hc1.2, hrs]
                    rfl
                  rw [if_neg (by rw [hc1.1, hdr, hpk]; simp [hen])]
                  dsimp only
                  have hst : stText (readChar (readChar s)) = e :: rs2 := by
                    rw [stText_readChar, hc1.2, hrs]
                    rfl
                  have hb : (readChar (readChar s)).rest.length < f := by
                    rw [(stText_ch _ _ _ hst).2]
                    rw [hr, hrs] at h
                    simp at h
                    omega
                  obtain ⟨h1, h2, h3⟩ := ih (readChar (readChar s)) hb
                  refine ⟨?_, by rw [h2, readChar_toks, readChar_toks],
                    by rw [h3, readChar_err, readChar_err]⟩
                  rw [h1, hst]
                  have hs : stText s = bslash :: '\r' :: e :: rs2 := by
                    rw [stText, hbs, hr, hrs, hdr]
                  rw [hs, specCC_bs_r_other e rs2 hen]
            · have hb : (readChar (readChar s)).rest.length < f := by
                rw [readChar_rest, hc1.2]
                rw [hr] at h
                have ht := List.length_tail rs
                simp at h
                omega
              have hcont : (((cookedStrF f (readChar (readChar s))).1.ch = dquote) ↔
                  specCookedCloses (stText s) = true) ∧
                  (cookedStrF f (readChar (readChar s))).1.toks = s.toks ∧
                  (cookedStrF f (readChar (readChar s))).1.err = s.err := by
                obtain ⟨h1, h2, h3⟩ := ih (readChar (readChar s)) hb
                refine ⟨?_, by rw [h2, readChar_toks, readChar_toks],
                  by rw [h3, readChar_err, readChar_err]⟩
                rw [h1]
                have hst : stText (readChar (readChar s)) = padT rs := by
                  rw [stText_readChar, hc1.2]
                rw [hst, specCookedCloses_padT]
                have hs : stText s = bslash :: d :: rs := by rw [stText, hbs, hr]
                rw [hs, specCC_bs_other d rs hdr]
              by_cases hdn : d = '\n'
              · rw [if_pos (by rw [hc1.1, hdn]; decide)]
                rw [if_neg (by rw [hc1.1]; simp [hdr])]
                dsimp only
                exact hcont
              · rw [if_neg (by rw [hc1.1]; simp [hdn, hdr])]
                dsimp only
                rw [if_neg (show ¬(d :: rs = []) by simp)]
                exact hcont
        · rw [cookedStrF, if_pos (by simp [hdq, hnl]), if_neg hbs]
          dsimp only
          rcases hr : s.rest with _ | ⟨d, rs⟩
          · have hch1 : (readChar s).ch = nulc := readChar_ch_of_rest_nil s hr
            rw [cookedStrF_nulc f _ hch1]
            refine ⟨?_, by rw [readChar_toks], by rw [readChar_err]⟩
            rw [hch1]
            have hs : stText s = [s.ch] := by rw [stText, hr]
            have hcc : specCookedCloses [s.ch] = false := by
              rw [specCC_cons_other s.ch [] hnl hdq hbs]
              rfl
            rw [hs, hcc]
            exact iff_of_false (by decide) (by decide)
          · have hb : (readChar s).rest.length < f := by
              rw [readChar_rest, hr]
              rw [hr] at h
              simp at h ⊢
              omega
            obtain ⟨h1, h2, h3⟩ := ih (readChar s) hb
            refine ⟨?_, by rw [h2, readChar_toks], by rw [h3, readChar_err]⟩
            rw [h1, stText_readChar, specCookedCloses_padT]
            have hs : stText s = s.ch :: s.rest := rfl
            rw [hs, specCC_cons_other s.ch s.rest hnl hdq hbs]


theorem specAU_nil (d : Nat) : specAttrUnterm d [] = true := rfl

theorem specAU_nulc (d : Nat) (l : List Char) :
    specAttrUnterm d (nulc :: l) = true := by
  conv_lhs => rw [specAttrUnterm.eq_def]
  dsimp only
  rw [if_pos rfl]

theorem specAU_cons (d : Nat) (c : Char) (l : List Char) (hc : c ≠ nulc) :
    specAttrUnterm d (c :: l) =
      if (if c = lbrackc then d + 1 else if c = rbrackc then d - 1 else d) = 0
      then false
      else specAttrUnterm
        (if c = lbrackc then d + 1 else if c = rbrackc then d - 1 else d) l := by
  conv_lhs => rw [specAttrUnterm.eq_def]
  dsimp only
  rw [if_neg hc]

theorem attrBodyF_nulc : ∀ (f d : Nat) (s : LexSt), s.ch = nulc →
    attrBodyF f d s = (s, [], d) := by
  intro f d s h
  cases f with
  | zero => rfl
  | succ f => rw [attrBodyF, if_neg (by simp [h])]

/-- The bracket-depth loop ends with positive depth exactly when the
specification says the attribute is unterminated. -/
theorem attrBodyF_spec :
    ∀ f depth s, s.rest.length < f → 0 < depth →
    ((attrBodyF f depth s).2.2 > 0 ↔ specAttrUnterm depth (stText s) = true) := by
  intro f
  induction f with
  | zero => intro depth s h _; omega
  | succ f ih =>
    intro depth s h hd
    by_cases hn : s.ch = nulc
    · rw [attrBodyF, if_neg (by simp [hn])]
      have hs : stText s = nulc :: s.rest := by rw [stText, hn]
      rw [hs, specAU_nulc]
      exact iff_of_true hd rfl
    · rw [attrBodyF, if_pos (by simp [hn, hd])]
      dsimp only
      have hs : stText s = s.ch :: s.rest := rfl
      rw [hs, specAU_cons depth s.ch s.rest hn]
      set d2 := if s.ch = lbrackc then depth + 1
        else if s.ch = rbrackc then depth - 1 else depth with hd2
      by_cases hz : d2 = 0
      · rw [hz, attrBodyF_zero, if_pos rfl]
        simp
      · rw [if_neg hz]
        rcases hr : s.rest with _ | ⟨c2, rs⟩
        · have hch : (readChar s).ch = nulc := readChar_ch_of_rest_nil s hr
          rw [attrBodyF_nulc f d2 _ hch]
          exact iff_of_true (Nat.pos_of_ne_zero hz) (specAU_nil d2)
        · have hb : (readChar s).rest.length < f := by
            rw [readChar_rest, hr]
            rw [hr] at h
            simp at h ⊢
            omega
          have hmain := ih d2 (readChar s) hb (by omega)
          rw [hmain]
          have hst : stText (readChar s) = c2 :: rs := by
            rw [stText_readChar, hr]
            rfl
          rw [hst]


theorem skipComment_pres (s : LexSt) :
    (skipComment s).toks = s.toks ∧ (skipComment s).err = s.err := by
  unfold skipComment
  split_ifs
  · exact lineCommentF_pres (lfuel s) s
  · obtain ⟨h1, h2⟩ := blockCommentF_pres (lfuel s) 1 (readChar (readChar s))
    exact ⟨by rw [h1, readChar_toks, readChar_toks],
      by rw [h2, readChar_err, readChar_err]⟩
  · exact ⟨rfl, rfl⟩

theorem readLifetimeOrChar_pres (s : LexSt) :
    (readLifetimeOrChar s).1.toks = s.toks ∧
    (readLifetimeOrChar s).1.err = s.err := by
  unfold readLifetimeOrChar
  dsimp only
  split_ifs <;>
    simp [takeWhileF_toks, takeWhileF_err, readChar_toks, readChar_err]

set_option maxHeartbeats 1600000 in
theorem readNumber_pres (s : LexSt) :
    (readNumber s).1.toks = s.toks ∧ (readNumber s).1.err = s.err := by
  unfold readNumber
  simp only [takeWhileF_toks, takeWhileF_err, readChar_toks, readChar_err]
  split_ifs <;>
    simp [takeWhileF_toks, takeWhileF_err, readChar_toks, readChar_err]

theorem readOpOrPunct_pres (s : LexSt) :
    (readOpOrPunct s).1.toks = s.toks ∧ (readOpOrPunct s).1.err = s.err := by
  unfold readOpOrPunct
  dsimp only
  split_ifs <;> simp [readChar_toks, readChar_err]

theorem dropWhile_padT_headD (p : Char → Bool) (hp : p nulc = false)
    (l : List Char) :
    ((padT l).dropWhile p).headD nulc = (l.dropWhile p).headD nulc := by
  cases l with
  | nil => simp [padT, List.dropWhile, hp]
  | cons c t => rfl

/-- Cooked-string `readString` (prefix neither `r` nor `br`): fatal
exactly when the cooked literal cannot be closed. -/
theorem readString_cooked_spec (pfx : String) (s : LexSt)
    (hr1 : pfx ≠ "r") (hr2 : pfx ≠ "br") (he : s.err = none) :
    (readString pfx s).1.toks = s.toks ∧
    ((readString pfx s).1.err = none ↔ specCookedCloses s.rest = true) := by
  have hb : (pfx = "r" || pfx = "br") = false := by simp [hr1, hr2]
  obtain ⟨h1, h2, h3⟩ := cookedStrF_spec (lfuel (readChar s)) (readChar s)
    (by unfold lfuel; omega)
  rw [stText_readChar, specCookedCloses_padT] at h1
  unfold readString
  rw [hb]
  simp only [Bool.false_eq_true, Bool.false_and, if_false]
  by_cases hq : (cookedStrF (lfuel (readChar s)) (readChar s)).1.ch = dquote
  · rw [if_pos hq]
    refine ⟨by rw [readChar_toks, h2, readChar_toks], ?_⟩
    rw [readChar_err, h3, readChar_err, he]
    exact iff_of_true rfl (h1.mp hq)
  · rw [if_neg hq]
    refine ⟨by rw [h2, readChar_toks], ?_⟩
    constructor
    · intro hcon
      exact absurd hcon (by simp)
    · intro hcc
      exact absurd (h1.mpr hcc) hq

/-- Raw-string `readString` (prefix `r` or `br`): fatal exactly when the
hashes are not followed by a double quote; the body never sets an
error. -/
theorem readString_raw_spec (pfx : String) (s : LexSt)
    (hpfx : pfx = "r" ∨ pfx = "br") (he : s.err = none) :
    (readString pfx s).1.toks = s.toks ∧
    ((readString pfx s).1.err = none ↔
      ((stText s).dropWhile (fun c => c = hashc)).headD nulc = dquote) := by
  have hb : (pfx = "r" || pfx = "br") = true := by
    rcases hpfx with h | h <;> simp [h]
  obtain ⟨ht1, ht2, ht3, ht4⟩ := takeWhileF_spec (fun c => c = hashc)
    (by decide) (lfuel s) s (by
      have hl := List.length_le_of_sublist
        (List.takeWhile_sublist (l := stText s) (p := fun c => c = hashc))
      rw [stText_len] at hl
      unfold lfuel
      omega)
  have hch : (takeWhileF (fun c => c = hashc) (lfuel s) s).1.ch =
      ((stText s).dropWhile (fun c => c = hashc)).headD nulc := by
    rw [ch_eq_headD, ht1, padT_headD]
  unfold readString
  rw [hb]
  simp only [Bool.true_and, eq_self_iff_true, if_true, decide_eq_true_eq]
  by_cases hq : (takeWhileF (fun c => c = hashc) (lfuel s) s).1.ch = dquote
  · rw [if_neg (by simp [hq])]
    dsimp only
    constructor
    · simp only [rawStrF_pres, readChar_toks]
      exact ht3
    · simp only [rawStrF_pres, readChar_err, ht4, he]
      exact iff_of_true trivial (by rw [← hch]; exact hq)
  · rw [if_pos hq]
    refine ⟨ht3, ?_⟩
    constructor
    · intro hcon
      exact absurd hcon (by simp)
    · intro hdq
      exact absurd (by rw [hch]; exact hdq) hq

/-- `readAttr`: fatal exactly when the specification says the attribute
start is malformed or unterminated. -/
theorem readAttr_spec (s : LexSt) (he : s.err = none) :
    (readAttr s).1.toks = s.toks ∧
    ((readAttr s).1.err = none ↔ specAttrBad s.rest = false) := by
  have hch1 : s.rest.headD nulc = (readChar s).ch := by
    rw [ch_eq_headD, stText_readChar, padT_headD]
  unfold readAttr specAttrBad
  rw [hch1]
  dsimp only
  by_cases hbang : (readChar s).ch = bangc
  · simp only [if_pos hbang]
    have htk : (readChar (readChar s)).toks = s.toks := by
      rw [readChar_toks, readChar_toks]
    have he2 : (readChar (readChar s)).err = none := by
      rw [readChar_err, readChar_err, he]
    have hst : stText (readChar (readChar s)) = padT s.rest.tail := by
      rw [stText_readChar, readChar_rest]
    have hch2 : (readChar (readChar s)).ch = s.rest.tail.headD nulc := by
      rw [ch_eq_headD, hst, padT_headD]
    by_cases hlb : (readChar (readChar s)).ch = lbrackc
    · have hsp : ¬(s.rest.tail.headD nulc ≠ lbrackc) := by
        rw [← hch2]
        simp [hlb]
      rw [if_neg (show ¬((readChar (readChar s)).ch ≠ lbrackc) by simp [hlb])]
      rw [if_neg hsp]
      have hr1ne : s.rest.tail ≠ [] := by
        intro h0
        rw [h0] at hst
        have hcn : (readChar (readChar s)).ch = nulc := by
          rw [ch_eq_headD, hst]
          rfl
        rw [hlb] at hcn
        exact absurd hcn (by decide)
      have hrest2 : (readChar (readChar s)).rest = s.rest.tail.tail := by
        cases hR : s.rest.tail with
        | nil => exact absurd hR hr1ne
        | cons a t =>
          rw [hR] at hst
          exact (stText_ch _ _ _ hst).2
      have hcore := attrBodyF_spec (lfuel (readChar (readChar (readChar s)))) 1 (readChar (readChar (readChar s)))
        (by unfold lfuel; omega) (by omega)
      rw [stText_readChar, hrest2, specAttrUnterm_padT] at hcore
      obtain ⟨hp1, hp2⟩ := attrBodyF_pres (lfuel (readChar (readChar (readChar s)))) 1 (readChar (readChar (readChar s)))
      by_cases hz : (attrBodyF (lfuel (readChar (readChar (readChar s)))) 1 (readChar (readChar (readChar s)))).2.2 > 0
      · rw [if_pos hz]
        refine ⟨by rw [hp1, readChar_toks, htk], ?_⟩
        rw [hcore.mp hz]
        exact iff_of_false (by simp) (by simp)
      · rw [if_neg hz]
        refine ⟨by rw [hp1, readChar_toks, htk], ?_⟩
        rw [hp2, readChar_err, he2]
        have hfalse : specAttrUnterm 1 s.rest.tail.tail = false := by
          cases hval : specAttrUnterm 1 s.rest.tail.tail
          · rfl
          · exact absurd (hcore.mpr hval) hz
        rw [hfalse]
        exact iff_of_true rfl rfl
    · rw [if_pos hlb]
      rw [if_pos (by rw [← hch2]; exact hlb)]
      refine ⟨htk, ?_⟩
      exact iff_of_false (by simp) (by simp)
  · simp only [if_neg hbang]
    have htk : (readChar s).toks = s.toks := by rw [readChar_toks]
    have he2 : (readChar s).err = none := by rw [readChar_err, he]
    have hst : stText (readChar s) = padT s.rest := stText_readChar s
    have hch2 : (readChar s).ch = s.rest.headD nulc := by
      rw [ch_eq_headD, hst, padT_headD]
    by_cases hlb : (readChar s).ch = lbrackc
    · have hsp : ¬(s.rest.headD nulc ≠ lbrackc) := by
        rw [← hch2]
        simp [hlb]
      rw [if_neg (show ¬((readChar s).ch ≠ lbrackc) by simp [hlb])]
      rw [if_neg hsp]
      have hr1ne : s.rest ≠ [] := by
        intro h0
        rw [h0] at hst
        have hcn : (readChar s).ch = nulc := by
          rw [ch_eq_headD, hst]
          rfl
        rw [hlb] at hcn
        exact absurd hcn (by decide)
      have hrest2 : (readChar s).rest = s.rest.tail := by
        cases hR : s.rest with
        | nil => exact absurd hR hr1ne
        | cons a t =>
          rw [hR] at hst
          exact (stText_ch _ _ _ hst).2
      have hcore := attrBodyF_spec (lfuel (readChar (readChar s))) 1 (readChar (readChar s))
        (by unfold lfuel; omega) (by omega)
      rw [stText_readChar, hrest2, specAttrUnterm_padT] at hcore
      obtain ⟨hp1, hp2⟩ := attrBodyF_pres (lfuel (readChar (readChar s))) 1 (readChar (readChar s))
      by_cases hz : (attrBodyF (lfuel (readChar (readChar s))) 1 (readChar (readChar s))).2.2 > 0
      · rw [if_pos hz]
        refine ⟨by rw [hp1, readChar_toks, htk], ?_⟩
        rw [hcore.mp hz]
        exact iff_of_false (by simp) (by simp)
      · rw [if_neg hz]
        refine ⟨by rw [hp1, readChar_toks, htk], ?_⟩
        rw [hp2, readChar_err, he2]
        have hfalse : specAttrUnterm 1 s.rest.tail = false := by
          cases hval : specAttrUnterm 1 s.rest.tail
          · rfl
          · exact absurd (hcore.mpr hval) hz
        rw [hfalse]
        exact iff_of_true rfl rfl
    · rw [if_pos hlb]
      rw [if_pos (by rw [← hch2]; exact hlb)]
      refine ⟨htk, ?_⟩
      exact iff_of_false (by simp) (by simp)


theorem strMk_eq (l : List Char) (t : String) :
    (String.mk l = t) ↔ l = t.data := by
  cases t with
  | mk data =>
    constructor
    · intro h
      injection h
    · intro h
      rw [h]

set_option maxHeartbeats 1000000 in
/-- One scanner step is fatal exactly when the specification-side
predicate holds at the current text position. -/
theorem nextToken_err_iff (s0 : LexSt) (he : s0.err = none) :
    ((nextToken s0).err ≠ none ↔ specFatalStart (stText s0) = true) := by
  obtain ⟨hws, hwt, hwe⟩ := skipWhitespace_spec s0
  rw [he] at hwe
  unfold nextToken specFatalStart
  rw [← hws]
  rw [show stText (skipWhitespace s0) =
    (skipWhitespace s0).ch :: (skipWhitespace s0).rest from rfl]
  dsimp only
  simp only [peek]
  set s := skipWhitespace s0 with hsdef
  by_cases hcom : (s.ch = '/' &&
      (s.rest.headD nulc = '/' || s.rest.headD nulc = '*')) = true
  · rw [if_pos hcom]
    have hch : s.ch = '/' := by
      simp only [Bool.and_eq_true, decide_eq_true_eq] at hcom
      exact hcom.1
    rw [if_neg (show ¬(s.ch = nulc) by rw [hch]; decide)]
    rw [if_pos hcom]
    obtain ⟨hc1, hc2⟩ := skipComment_pres s
    exact iff_of_false (by rw [hc2, hwe]; simp) (by simp)
  · rw [if_neg hcom]
    by_cases hnul : s.ch = nulc
    · rw [if_pos hnul, if_pos hnul]
      exact iff_of_false (by rw [hwe]; simp) (by simp)
    · rw [if_neg hnul, if_neg hnul, if_neg hcom]
      by_cases hlife : (s.ch = squote &&
          (goIsLetter (s.rest.headD nulc) || s.rest.headD nulc = '_')) = true
      · rw [if_pos hlife]
        have hsq : s.ch = squote := by
          simp only [Bool.and_eq_true, decide_eq_true_eq] at hlife
          exact hlife.1
        rw [if_neg (show ¬(s.ch = dquote) by rw [hsq]; decide)]
        rw [if_neg (show ¬(s.ch = hashc) by rw [hsq]; decide)]
        rw [if_neg (show ¬((goIsLetter s.ch || s.ch = '_') = true) by
          rw [hsq]; decide)]
        obtain ⟨hl1, hl2⟩ := readLifetimeOrChar_pres s
        refine iff_of_false ?_ (by simp)
        split_ifs <;> rw [pushTok_err, hl2, hwe] <;> simp
      · rw [if_neg hlife]
        by_cases hid : (goIsLetter s.ch || s.ch = '_') = true
        · rw [if_pos hid, if_pos hid]
          have hnq : ¬(s.ch = dquote) := fun h => by
            rw [h] at hid
            exact absurd hid (by decide)
          have hnh : ¬(s.ch = hashc) := fun h => by
            rw [h] at hid
            exact absurd hid (by decide)
          rw [if_neg hnq, if_neg hnh]
          obtain ⟨ht1, ht2, ht3, ht4⟩ := takeWhileF_spec isIdentChar (by decide)
            (lfuel s) s (by
              have hl := List.length_le_of_sublist
                (List.takeWhile_sublist (l := stText s) (p := isIdentChar))
              rw [stText_len] at hl
              unfold lfuel
              omega)
          have hst : stText s = s.ch :: s.rest := rfl
          rw [hst] at ht1 ht2
          have hs1err : (readIdentifier s).1.err = none := by
            show (takeWhileF isIdentChar (lfuel s) s).1.err = none
            rw [ht4, hwe]
          have hs1ch : (readIdentifier s).1.ch =
              (List.dropWhile isIdentChar (s.ch :: s.rest)).headD nulc := by
            show (takeWhileF isIdentChar (lfuel s) s).1.ch = _
            rw [ch_eq_headD, ht1, padT_headD]
          have hs1st : stText (readIdentifier s).1 =
              padT (List.dropWhile isIdentChar (s.ch :: s.rest)) := by
            show stText (takeWhileF isIdentChar (lfuel s) s).1 = _
            rw [ht1]
          have hpfx : (readIdentifier s).2 =
              String.mk (List.takeWhile isIdentChar (s.ch :: s.rest)) := by
            show String.mk (takeWhileF isIdentChar (lfuel s) s).2 = _
            rw [ht2]
          have hdr : ("r" : String).data = ['r'] := rfl
          have hdbr : ("br" : String).data = ['b', 'r'] := rfl
          have hdb : ("b" : String).data = ['b'] := rfl
          have hpfr : ((readIdentifier s).2 = "r") ↔
              List.takeWhile isIdentChar (s.ch :: s.rest) = ['r'] := by
            rw [hpfx, strMk_eq, hdr]
          have hpfbr : ((readIdentifier s).2 = "br") ↔
              List.takeWhile isIdentChar (s.ch :: s.rest) = ['b', 'r'] := by
            rw [hpfx, strMk_eq, hdbr]
          have hpfb : ((readIdentifier s).2 = "b") ↔
              List.takeWhile isIdentChar (s.ch :: s.rest) = ['b'] := by
            rw [hpfx, strMk_eq, hdb]
          by_cases hA : ((readIdentifier s).2 = "r" ∨ (readIdentifier s).2 = "br") ∧
              ((readIdentifier s).1.ch = dquote ∨ (readIdentifier s).1.ch = hashc)
          · rcases hA.1 with hr | hbr
            · rw [if_pos (show (decide ((readIdentifier s).2 = "r") &&
                  (decide ((readIdentifier s).1.ch = dquote) ||
                    decide ((readIdentifier s).1.ch = hashc))) = true by
                rcases hA.2 with h | h <;> simp [hr, h])]
              have hiff := (readString_raw_spec "r" (readIdentifier s).1 (Or.inl rfl) hs1err).2
              rw [hs1st, dropWhile_padT_headD _ (by decide)] at hiff
              simp only [pushTok_err]
              have hd1 : ((decide (List.takeWhile isIdentChar (s.ch :: s.rest) = ['r']) ||
                    decide (List.takeWhile isIdentChar (s.ch :: s.rest) = ['b', 'r'])) &&
                  (decide ((List.dropWhile isIdentChar (s.ch :: s.rest)).headD nulc = dquote) ||
                    decide ((List.dropWhile isIdentChar (s.ch :: s.rest)).headD nulc = hashc))) = true := by
                simp only [Bool.and_eq_true, Bool.or_eq_true, decide_eq_true_eq]
                constructor
                · rcases hA.1 with h | h
                  · exact Or.inl (hpfr.mp h)
                  · exact Or.inr (hpfbr.mp h)
                · rcases hA.2 with h | h
                  · exact Or.inl (by rw [← hs1ch]; exact h)
                  · exact Or.inr (by rw [← hs1ch]; exact h)
              rw [if_pos hd1]
              by_cases hv : (List.dropWhile (fun x => x = hashc)
                  (List.dropWhile isIdentChar (s.ch :: s.rest))).headD nulc = dquote
              · exact iff_of_false (by simp [hiff.mpr hv])
                  (by simp only [decide_eq_true_eq]; exact fun hcc => hcc hv)
              · exact iff_of_true (fun h0 => hv (hiff.mp h0))
                  (by simp only [decide_eq_true_eq]; exact hv)
            · have hnr : ¬((readIdentifier s).2 = "r") := by
                rw [hbr]
                decide
              rw [if_neg (show ¬((decide ((readIdentifier s).2 = "r") &&
                  (decide ((readIdentifier s).1.ch = dquote) ||
                    decide ((readIdentifier s).1.ch = hashc))) = true) by
                simp [hnr])]
              rw [if_pos (show (decide ((readIdentifier s).2 = "br") &&
                  (decide ((readIdentifier s).1.ch = dquote) ||
                    decide ((readIdentifier s).1.ch = hashc))) = true by
                rcases hA.2 with h | h <;> simp [hbr, h])]
              have hiff := (readString_raw_spec "br" (readIdentifier s).1 (Or.inr rfl) hs1err).2
              rw [hs1st, dropWhile_padT_headD _ (by decide)] at hiff
              simp only [pushTok_err]
              have hd1 : ((decide (List.takeWhile isIdentChar (s.ch :: s.rest) = ['r']) ||
                    decide (List.takeWhile isIdentChar (s.ch :: s.rest) = ['b', 'r'])) &&
                  (decide ((List.dropWhile isIdentChar (s.ch :: s.rest)).headD nulc = dquote) ||
                    decide ((List.dropWhile isIdentChar (s.ch :: s.rest)).headD nulc = hashc))) = true := by
                simp only [Bool.and_eq_true, Bool.or_eq_true, decide_eq_true_eq]
                constructor
                · rcases hA.1 with h | h
                  · exact Or.inl (hpfr.mp h)
                  · exact Or.inr (hpfbr.mp h)
                · rcases hA.2 with h | h
                  · exact Or.inl (by rw [← hs1ch]; exact h)
                  · exact Or.inr (by rw [← hs1ch]; exact h)
              rw [if_pos hd1]
              by_cases hv : (List.dropWhile (fun x => x = hashc)
                  (List.dropWhile isIdentChar (s.ch :: s.rest))).headD nulc = dquote
              · exact iff_of_false (by simp [hiff.mpr hv])
                  (by simp only [decide_eq_true_eq]; exact fun hcc => hcc hv)
              · exact iff_of_true (fun h0 => hv (hiff.mp h0))
                  (by simp only [decide_eq_true_eq]; exact hv)
          · by_cases hB : ((readIdentifier s).2 = "b") ∧ (readIdentifier s).1.ch = dquote
            · have hnr : ¬((readIdentifier s).2 = "r") := by
                rw [hB.1]
                decide
              have hnbr : ¬((readIdentifier s).2 = "br") := by
                rw [hB.1]
                decide
              rw [if_neg (show ¬((decide ((readIdentifier s).2 = "r") &&
                  (decide ((readIdentifier s).1.ch = dquote) ||
                    decide ((readIdentifier s).1.ch = hashc))) = true) by simp [hnr])]
              rw [if_neg (show ¬((decide ((readIdentifier s).2 = "br") &&
                  (decide ((readIdentifier s).1.ch = dquote) ||
                    decide ((readIdentifier s).1.ch = hashc))) = true) by simp [hnbr])]
              rw [if_pos (show (decide ((readIdentifier s).2 = "b") &&
                  decide ((readIdentifier s).1.ch = dquote)) = true by
                simp [hB.1, hB.2])]
              have hnd1 : ¬(((decide (List.takeWhile isIdentChar (s.ch :: s.rest) = ['r']) ||
                    decide (List.takeWhile isIdentChar (s.ch :: s.rest) = ['b', 'r'])) &&
                  (decide ((List.dropWhile isIdentChar (s.ch :: s.rest)).headD nulc = dquote) ||
                    decide ((List.dropWhile isIdentChar (s.ch :: s.rest)).headD nulc = hashc))) = true) := by
                simp only [Bool.and_eq_true, Bool.or_eq_true, decide_eq_true_eq]
                rintro ⟨h1, -⟩
                rcases h1 with h1 | h1
                · exact absurd (hpfr.mpr h1) hnr
                · exact absurd (hpfbr.mpr h1) hnbr
              rw [if_neg hnd1]
              rw [if_pos (show (decide (List.takeWhile isIdentChar (s.ch :: s.rest) = ['b']) &&
                  decide ((List.dropWhile isIdentChar (s.ch :: s.rest)).headD nulc = dquote)) = true by
                simp only [Bool.and_eq_true, decide_eq_true_eq]
                exact ⟨hpfb.mp hB.1, by rw [← hs1ch]; exact hB.2⟩)]
              have hiff := (readString_cooked_spec "b" (readIdentifier s).1
                (by decide) (by decide) hs1err).2
              have haftq : (List.dropWhile isIdentChar (s.ch :: s.rest)).headD nulc = dquote := by
                rw [← hs1ch]
                exact hB.2
              rcases haft : List.dropWhile isIdentChar (s.ch :: s.rest) with _ | ⟨a, t⟩
              · rw [haft] at haftq
                exact absurd haftq (by decide)
              · rw [haft] at hs1st
                rw [show padT (a :: t) = a :: t from rfl] at hs1st
                have hrest : (readIdentifier s).1.rest = t := (stText_ch _ _ _ hs1st).2
                rw [hrest] at hiff
                simp only [pushTok_err]
                have hds : List.drop 1 (a :: t) = t := by simp
                rw [hds]
                by_cases hv : specCookedCloses t = true
                · exact iff_of_false (by simp [hiff.mpr hv]) (by simp [hv])
                · refine iff_of_true (fun h0 => hv (hiff.mp h0)) ?_
                  simp only [Bool.not_eq_true] at hv
                  simp [hv]
            · by_cases hC : ((readIdentifier s).2 = "b") ∧ (readIdentifier s).1.ch = squote
              · have hnr : ¬((readIdentifier s).2 = "r") := by
                  rw [hC.1]
                  decide
                have hnbr : ¬((readIdentifier s).2 = "br") := by
                  rw [hC.1]
                  decide
                have hnsq : ¬((readIdentifier s).1.ch = dquote) := by
                  rw [hC.2]
                  decide
                rw [if_neg (show ¬((decide ((readIdentifier s).2 = "r") &&
                    (decide ((readIdentifier s).1.ch = dquote) ||
                      decide ((readIdentifier s).1.ch = hashc))) = true) by simp [hnr])]
                rw [if_neg (show ¬((decide ((readIdentifier s).2 = "br") &&
                    (decide ((readIdentifier s).1.ch = dquote) ||
                      decide ((readIdentifier s).1.ch = hashc))) = true) by simp [hnbr])]
                rw [if_neg (show ¬((decide ((readIdentifier s).2 = "b") &&
                    decide ((readIdentifier s).1.ch = dquote)) = true) by simp [hnsq])]
                rw [if_pos (show (decide ((readIdentifier s).2 = "b") &&
                    decide ((readIdentifier s).1.ch = squote)) = true by
                  simp [hC.1, hC.2])]
                have hnd1 : ¬(((decide (List.takeWhile isIdentChar (s.ch :: s.rest) = ['r']) ||
                      decide (List.takeWhile isIdentChar (s.ch :: s.rest) = ['b', 'r'])) &&
                    (decide ((List.dropWhile isIdentChar (s.ch :: s.rest)).headD nulc = dquote) ||
                      decide ((List.dropWhile isIdentChar (s.ch :: s.rest)).headD nulc = hashc))) = true) := by
                  simp only [Bool.and_eq_true, Bool.or_eq_true, decide_eq_true_eq]
                  rintro ⟨h1, -⟩
                  rcases h1 with h1 | h1
                  · exact absurd (hpfr.mpr h1) hnr
                  · exact absurd (hpfbr.mpr h1) hnbr
                rw [if_neg hnd1]
                have hnd2 : ¬((decide (List.takeWhile isIdentChar (s.ch :: s.rest) = ['b']) &&
                    decide ((List.dropWhile isIdentChar (s.ch :: s.rest)).headD nulc = dquote)) = true) := by
                  simp only [Bool.and_eq_true, decide_eq_true_eq]
                  rintro ⟨-, h2⟩
                  exact hnsq (by rw [hs1ch]; exact h2)
                rw [if_neg hnd2]
                rw [if_pos (show (decide (List.takeWhile isIdentChar (s.ch :: s.rest) = ['b']) &&
                    decide ((List.dropWhile isIdentChar (s.ch :: s.rest)).headD nulc = squote)) = true by
                  simp only [Bool.and_eq_true, decide_eq_true_eq]
                  exact ⟨hpfb.mp hC.1, by rw [← hs1ch]; exact hC.2⟩)]
                have hiff := (readString_cooked_spec "b" (readIdentifier s).1
                  (by decide) (by decide) hs1err).2
                have haftq : (List.dropWhile isIdentChar (s.ch :: s.rest)).headD nulc = squote := by
                  rw [← hs1ch]
                  exact hC.2
                rcases haft : List.dropWhile isIdentChar (s.ch :: s.rest) with _ | ⟨a, t⟩
                · rw [haft] at haftq
                  exact absurd haftq (by decide)
                · rw [haft] at hs1st
                  rw [show padT (a :: t) = a :: t from rfl] at hs1st
                  have hrest : (readIdentifier s).1.rest = t := (stText_ch _ _ _ hs1st).2
                  rw [hrest] at hiff
                  simp only [pushTok_err]
                  have hds : List.drop 1 (a :: t) = t := by simp
                  rw [hds]
                  by_cases hv : specCookedCloses t = true
                  · exact iff_of_false (by simp [hiff.mpr hv]) (by simp [hv])
                  · refine iff_of_true (fun h0 => hv (hiff.mp h0)) ?_
                    simp only [Bool.not_eq_true] at hv
                    simp [hv]
              · have hnd1 : ¬(((decide (List.takeWhile isIdentChar (s.ch :: s.rest) = ['r']) ||
                      decide (List.takeWhile isIdentChar (s.ch :: s.rest) = ['b', 'r'])) &&
                    (decide ((List.dropWhile isIdentChar (s.ch :: s.rest)).headD nulc = dquote) ||
                      decide ((List.dropWhile isIdentChar (s.ch :: s.rest)).headD nulc = hashc))) = true) := by
                  simp only [Bool.and_eq_true, Bool.or_eq_true, decide_eq_true_eq]
                  rintro ⟨h1, h2⟩
                  apply hA
                  constructor
                  · rcases h1 with h1 | h1
                    · exact Or.inl (hpfr.mpr h1)
                    · exact Or.inr (hpfbr.mpr h1)
                  · rcases h2 with h2 | h2
                    · exact Or.inl (by rw [hs1ch]; exact h2)
                    · exact Or.inr (by rw [hs1ch]; exact h2)
                have hnd2 : ¬((decide (List.takeWhile isIdentChar (s.ch :: s.rest) = ['b']) &&
                    decide ((List.dropWhile isIdentChar (s.ch :: s.rest)).headD nulc = dquote)) = true) := by
                  simp only [Bool.and_eq_true, decide_eq_true_eq]
                  rintro ⟨h1, h2⟩
                  exact hB ⟨hpfb.mpr h1, by rw [hs1ch]; exact h2⟩
                have hnd3 : ¬((decide (List.takeWhile isIdentChar (s.ch :: s.rest) = ['b']) &&
                    decide ((List.dropWhile isIdentChar (s.ch :: s.rest)).headD nulc = squote)) = true) := by
                  simp only [Bool.and_eq_true, decide_eq_true_eq]
                  rintro ⟨h1, h2⟩
                  exact hC ⟨hpfb.mpr h1, by rw [hs1ch]; exact h2⟩
                rw [if_neg hnd1, if_neg hnd2, if_neg hnd3]
                have hlex1 : ¬((decide ((readIdentifier s).2 = "r") &&
                    (decide ((readIdentifier s).1.ch = dquote) ||
                      decide ((readIdentifier s).1.ch = hashc))) = true) := by
                  simp only [Bool.and_eq_true, Bool.or_eq_true, decide_eq_true_eq]
                  rintro ⟨h1, h2⟩
                  exact hA ⟨Or.inl h1, h2⟩
                have hlex2 : ¬((decide ((readIdentifier s).2 = "br") &&
                    (decide ((readIdentifier s).1.ch = dquote) ||
                      decide ((readIdentifier s).1.ch = hashc))) = true) := by
                  simp only [Bool.and_eq_true, Bool.or_eq_true, decide_eq_true_eq]
                  rintro ⟨h1, h2⟩
                  exact hA ⟨Or.inr h1, h2⟩
                have hlex3 : ¬((decide ((readIdentifier s).2 = "b") &&
                    decide ((readIdentifier s).1.ch = dquote)) = true) := by
                  simp only [Bool.and_eq_true, decide_eq_true_eq]
                  rintro ⟨h1, h2⟩
                  exact hB ⟨h1, h2⟩
                have hlex4 : ¬((decide ((readIdentifier s).2 = "b") &&
                    decide ((readIdentifier s).1.ch = squote)) = true) := by
                  simp only [Bool.and_eq_true, decide_eq_true_eq]
                  rintro ⟨h1, h2⟩
                  exact hC ⟨h1, h2⟩
                rw [if_neg hlex1, if_neg hlex2, if_neg hlex3, if_neg hlex4]
                refine iff_of_false ?_ (by simp)
                split_ifs <;> simp [pushTok_err, hs1err]
        · rw [if_neg hid, if_neg hid]
          by_cases hdig : goIsDigit s.ch = true
          · rw [if_pos hdig]
            have hnq : ¬(s.ch = dquote) := by
              intro h
              rw [h] at hdig
              exact absurd hdig (by decide)
            have hnh : ¬(s.ch = hashc) := by
              intro h
              rw [h] at hdig
              exact absurd hdig (by decide)
            rw [if_neg hnq, if_neg hnh]
            obtain ⟨hn1, hn2⟩ := readNumber_pres s
            exact iff_of_false (by rw [pushTok_err, hn2, hwe]; simp) (by simp)
          · rw [if_neg hdig]
            by_cases hdq : s.ch = dquote
            · rw [if_pos hdq, if_pos hdq]
              have hiff := (readString_cooked_spec "" s (by decide) (by decide) hwe).2
              rw [pushTok_err]
              cases hcc : specCookedCloses s.rest
              · rw [hcc] at hiff
                simp at hiff
                exact iff_of_true hiff (by decide)
              · rw [hcc] at hiff
                simp at hiff
                exact iff_of_false (by simp [hiff]) (by decide)
            · rw [if_neg hdq, if_neg hdq]
              by_cases hsq2 : s.ch = squote
              · rw [if_pos hsq2]
                have hnh : ¬(s.ch = hashc) := by rw [hsq2]; decide
                rw [if_neg hnh]
                obtain ⟨hl1, hl2⟩ := readLifetimeOrChar_pres s
                refine iff_of_false ?_ (by simp)
                split_ifs <;> rw [pushTok_err, hl2, hwe] <;> simp
              · rw [if_neg hsq2]
                by_cases hhash : s.ch = hashc
                · rw [if_pos hhash, if_pos hhash]
                  have hiff := (readAttr_spec s hwe).2
                  rw [pushTok_err]
                  cases hab : specAttrBad s.rest
                  · rw [hab] at hiff
                    simp at hiff
                    exact iff_of_false (by simp [hiff]) (by decide)
                  · rw [hab] at hiff
                    simp at hiff
                    exact iff_of_true hiff (by decide)
                · rw [if_neg hhash, if_neg hhash]
                  obtain ⟨ho1, ho2⟩ := readOpOrPunct_pres s
                  refine iff_of_false ?_ (by simp)
                  split_ifs <;> rw [pushTok_err, ho2, hwe] <;> simp



/-! ## Lexer whole-run fatal-error characterization (C2) -/

theorem skipWhitespace_id (s : LexSt) (hsp : goIsSpace s.ch = false) :
    skipWhitespace s = s := by
  show skipWhitespaceF (lfuel s) s = s
  rw [show lfuel s = (s.rest.length + 1) + 1 from rfl]
  rw [skipWhitespaceF]
  simp only [hsp, Bool.false_eq_true, if_false]

theorem nextToken_illegal_continues (s : LexSt) (he : s.err = none)
    (hsp : goIsSpace s.ch = false) (hnul : ¬s.ch = nulc)
    (hcom : ¬(s.ch = '/' ∧ (peek s = '/' ∨ peek s = '*')))
    (hsq : ¬s.ch = squote)
    (hlet : goIsLetter s.ch = false) (hus : ¬s.ch = '_')
    (hdig : goIsDigit s.ch = false)
    (hq : ¬s.ch = dquote) (hh : ¬s.ch = hashc)
    (ho3 : Operators.contains (String.mk [s.ch, peek s, peekN s 2]) = false)
    (hp3 : Punctuations.contains (String.mk [s.ch, peek s, peekN s 2]) = false)
    (ho2 : Operators.contains (String.mk [s.ch, peek s]) = false)
    (hp2 : Punctuations.contains (String.mk [s.ch, peek s]) = false)
    (hsemi : ¬String.mk [s.ch] = ";")
    (ho1 : Operators.contains (String.mk [s.ch]) = false)
    (hp1 : Punctuations.contains (String.mk [s.ch]) = false) :
    (nextToken s).err = none ∧
    (nextToken s).toks =
      s.toks ++ [⟨TokTy.illegal, "", String.mk [s.ch], s.line, s.col⟩] := by
  have hws := skipWhitespace_id s hsp
  simp only [nextToken]
  rw [hws]
  rw [if_neg (show ¬((decide (s.ch = '/') &&
      (decide (peek s = '/') || decide (peek s = '*'))) = true) by
    simp only [Bool.and_eq_true, Bool.or_eq_true, decide_eq_true_eq]
    exact hcom)]
  rw [if_neg hnul]
  rw [if_neg (show ¬((decide (s.ch = squote) &&
      (goIsLetter (peek s) || decide (peek s = '_'))) = true) by
    simp only [Bool.and_eq_true, Bool.or_eq_true, decide_eq_true_eq]
    rintro ⟨h, -⟩
    exact hsq h)]
  rw [if_neg (show ¬((goIsLetter s.ch || decide (s.ch = '_')) = true) by
    simp only [Bool.or_eq_true, decide_eq_true_eq, hlet]
    rintro (h | h)
    · exact absurd h (by decide)
    · exact hus h)]
  rw [if_neg (show ¬(goIsDigit s.ch = true) by rw [hdig]; decide)]
  rw [if_neg hq, if_neg hsq, if_neg hh]
  simp only [readOpOrPunct]
  rw [if_neg (show ¬((Operators.contains (String.mk [s.ch, peek s, peekN s 2]) ||
      Punctuations.contains (String.mk [s.ch, peek s, peekN s 2])) = true) by
    rw [ho3, hp3]
    decide)]
  rw [if_neg (show ¬((Operators.contains (String.mk [s.ch, peek s]) ||
      Punctuations.contains (String.mk [s.ch, peek s])) = true) by
    rw [ho2, hp2]
    decide)]
  dsimp only
  rw [if_neg hsemi]
  rw [if_neg (show ¬(Operators.contains (String.mk [s.ch]) = true) by
    rw [ho1]
    decide)]
  rw [if_neg (show ¬(Punctuations.contains (String.mk [s.ch]) = true) by
    rw [hp1]
    decide)]
  constructor
  · rw [pushTok_err, readChar_err, he]
  · show (pushTok (readChar s) _).toks = _
    unfold pushTok
    rw [if_pos (show (readChar s).err = none by rw [readChar_err]; exact he)]
    show (readChar s).toks ++ _ = _
    rw [readChar_toks]

theorem lexLoopF_fatal_iff (f : Nat) : ∀ s : LexSt, s.err = none →
    ((lexLoopF f s).err ≠ none ↔ specFirstFatalF f s = true) := by
  induction f with
  | zero =>
    intro s hs
    simp [lexLoopF, specFirstFatalF, hs]
  | succ f ih =>
    intro s hs
    simp only [lexLoopF, specFirstFatalF]
    by_cases hnul : s.ch = nulc
    · rw [if_pos hnul, if_pos hnul]
      simp [hs]
    · rw [if_neg hnul, if_neg hnul]
      have hstep := nextToken_err_iff s hs
      by_cases hf : specFatalStart (stText s) = true
      · rw [if_pos hf]
        have herr : (nextToken s).err ≠ none := hstep.mpr hf
        rw [if_neg herr]
        exact iff_of_true herr rfl
      · rw [if_neg hf]
        have herr : (nextToken s).err = none := by
          by_contra hcon
          exact hf (hstep.mp hcon)
        rw [if_pos herr]
        exact ih (nextToken s) herr

theorem lexInit_err (input : List Char) : (lexInit input).err = none := by
  unfold lexInit
  rw [readChar_err]

theorem Lex_snd (input : List Char) :
    (Lex input).2 = (lexLoopF (input.length + 2) (lexInit input)).err := by
  unfold Lex
  cases herr : (lexLoopF (input.length + 2) (lexInit input)).err <;> simp [herr]

/-- C2 (amended): on every input whose scan does not overrun the rune
buffer (`LexPanics input = false`), `Lex` returns a fatal error exactly
when the scan reaches a token start that opens a cooked string or byte
literal with no closing double quote before end of input, a raw-string
prefix whose hash run is not followed by a double quote, or a malformed or
unterminated attribute (`specFirstFatalF` over `specFatalStart`); on a
fatal error the partial token list is discarded (`nil` is returned in the
first component); and at a position holding any other unrecognized single
character the scanner emits an `illegal` token and continues without
error.  Unterminated raw-string bodies, by contrast, run to end of input
without any error.  The overrun is reachable — a cooked string whose
escape backslash is the final rune (input `"\`) pushes Go's `pos` to
`length + 1` and the `runes[start:pos]` slice panics, so on such inputs
the lexer does not return at all. -/
theorem C2_lex_fatal_characterization :
    (∀ input : List Char, LexPanics input = false →
      ((Lex input).2 ≠ none ↔
        specFirstFatalF (input.length + 2) (lexInit input) = true)) ∧
    (∀ input : List Char, LexPanics input = false →
      (Lex input).2 ≠ none → (Lex input).1 = none) ∧
    (LexPanics [dquote, bslash] = true) ∧
    (∀ s : LexSt, s.err = none → goIsSpace s.ch = false → ¬s.ch = nulc →
      ¬(s.ch = '/' ∧ (peek s = '/' ∨ peek s = '*')) → ¬s.ch = squote →
      goIsLetter s.ch = false → ¬s.ch = '_' → goIsDigit s.ch = false →
      ¬s.ch = dquote → ¬s.ch = hashc →
      Operators.contains (String.mk [s.ch, peek s, peekN s 2]) = false →
      Punctuations.contains (String.mk [s.ch, peek s, peekN s 2]) = false →
      Operators.contains (String.mk [s.ch, peek s]) = false →
      Punctuations.contains (String.mk [s.ch, peek s]) = false →
      ¬String.mk [s.ch] = ";" →
      Operators.contains (String.mk [s.ch]) = false →
      Punctuations.contains (String.mk [s.ch]) = false →
      (nextToken s).err = none ∧
      (nextToken s).toks =
        s.toks ++ [⟨TokTy.illegal, "", String.mk [s.ch], s.line, s.col⟩]) := by
  refine ⟨?_, ?_, by decide, ?_⟩
  · intro input _
    rw [Lex_snd]
    exact lexLoopF_fatal_iff (input.length + 2) (lexInit input) (lexInit_err input)
  · intro input _ h
    rw [Lex_snd] at h
    cases herr : (lexLoopF (input.length + 2) (lexInit input)).err with
    | none => exact absurd herr h
    | some e => simp [Lex, herr]
  · intro s he hsp hnul hcom hsq hlet hus hdig hq hh ho3 hp3 ho2 hp2 hsemi ho1 hp1
    exact nextToken_illegal_continues s he hsp hnul hcom hsq hlet hus hdig hq hh
      ho3 hp3 ho2 hp2 hsemi ho1 hp1

theorem C2_witness :
    ((Lex [dquote, 'a']).2 ≠ none ↔
      specFirstFatalF ([dquote, 'a'].length + 2) (lexInit [dquote, 'a']) = true) ∧
    ((Lex [dquote, 'a']).2 ≠ none → (Lex [dquote, 'a']).1 = none) ∧
    ((nextToken (lexInit ['@'])).err = none ∧
      (nextToken (lexInit ['@'])).toks = (lexInit ['@']).toks ++
        [⟨TokTy.illegal, "", String.mk [(lexInit ['@']).ch],
          (lexInit ['@']).line, (lexInit ['@']).col⟩]) :=
  ⟨C2_lex_fatal_characterization.1 [dquote, 'a'] (by decide),
   C2_lex_fatal_characterization.2.1 [dquote, 'a'] (by decide),
   C2_lex_fatal_characterization.2.2.2 (lexInit ['@']) (by decide) (by decide)
     (by decide) (by decide) (by decide) (by decide) (by decide) (by decide)
     (by decide) (by decide) (by decide) (by decide) (by decide) (by decide)
     (by decide) (by decide) (by decide)⟩

end Rust2Go
